import Mathlib

/-! # go-url-shortener: the URL resolution and code-generation engine

A shallow embedding of `internal/service/url_service.go` together with the
repositories it is wired to in `cmd/api/main.go`
(`internal/repository/postgres_url_repository.go`,
`internal/repository/postgres_analytics_repository.go`,
`internal/repository/redis_cache.go`).

Conventions of the embedding

* The three external systems (the `urls` table, the `url_analytics` table and
  the Redis keyspace) are fields of one explicit `World`; every repository
  method is a function `World → … × World`.
* Every repository method appends one `Call` to `World.trace`, so that
  "issues a cache Set", "without querying the store" and the like are
  statements about the trace.
* Infrastructure failure is an input: the `n`-th external call (counted by the
  length of the trace) fails without touching any data when it goes to
  PostgreSQL and `World.pgFaults n` holds, or goes to Redis and
  `World.redisFaults n` holds.
* `time.Now()` consumes the next reading of `World.clock`.
* The collision loop of `CreateShortURL` has no bound in the source; the
  embedding takes a number of probes (`fuel`) and answers `Outcome.timeout`
  when that number does not suffice.
* Timestamps are integers (nanoseconds since the Unix epoch); `int64`
  arithmetic is integer arithmetic wrapped by `toInt64`.
* The Go standard library is not part of the repository: `crypto/sha256` and
  `net/url` are taken as parameters (`GoLib`), `encoding/base64` is written out
  after RFC 4648.
* A Go result pair `(value, error)` whose two halves exclude each other in the
  repositories is an `Except`; a lone `error` is an `Option Err`.
* The goroutine that `GetOriginalURL` starts is handed back as a `ClickTask`, to
  be run on a later world; nothing is said about interleavings.
* Cache entries carry the time to live that `RedisCache.Set` passes on
  (`r.ttl`, from `REDIS_TTL`): the keyspace is a table of values
  (`World.redis`) and a table of deadlines (`World.redisExpires`), as in Redis,
  and an entry whose deadline the server clock (`World.redisClock`) has passed
  is not seen by any call. go-redis and Redis are not part of the repository;
  what they do with the time to live is written out after their documentation.
* The service is the only client of the store and of the cache, and Redis does
  not evict keys (its default, `maxmemory 0`): between two calls an entry goes
  away only by running out of its time to live.
* Not modelled: the rounding of timestamps by PostgreSQL, the cancellation of
  contexts, the logger.
-/

set_option autoImplicit false

namespace UrlShortener

/-! ## Time and machine integers -/

/-- An instant, in nanoseconds since the Unix epoch. -/
abbrev Instant := Int

/-- One result of `time.Now()`: the instant, and the text `String()` renders for
it (that text also shows the monotonic reading, so it is not a function of the
instant). -/
structure Reading where
  instant : Instant
  text : String

/-- Two's-complement wrap of an integer into the `int64` range. -/
def toInt64 (n : Int) : Int := (n + 2 ^ 63) % 2 ^ 64 - 2 ^ 63

/-- The constant `time.Second`, a `Duration` counted in nanoseconds. -/
def Second : Int := 1000000000

/-- The constant `time.Millisecond`. -/
def Millisecond : Int := 1000000

/-! ## internal/domain -/

/-- The errors of `internal/domain/repository.go`, and the errors of the
drivers that the repositories hand through unchanged. -/
inductive Err where
  | ErrURLNotFound
  | ErrInvalidURL
  | ErrShortCodeExists
  | ErrExpiredURL
  /-- The driver error of an `INSERT` that breaks the uniqueness of `short_code`. -/
  | uniqueViolation
  /-- The `redis.Nil` of go-redis: the key does not exist. -/
  | redisNil
  /-- The external call number `call` could not be carried out. -/
  | unavailable (call : Nat)
  deriving DecidableEq, Repr

deriving instance DecidableEq for Except

/-- The type `map[string]interface{}` of the metadata; `none` is the nil map. The
values are kept in their JSON text, so `json.Marshal` cannot fail on them. -/
abbrev Metadata := Option (List (String × String))

/-- The struct `domain.URL`. -/
structure URL where
  ID : Int
  ShortCode : String
  OriginalURL : String
  CreatedAt : Instant
  UpdatedAt : Instant
  ExpiresAt : Option Instant
  ClickCount : Int
  Metadata : Metadata
  deriving DecidableEq, Repr

/-- The struct `domain.Analytics`. -/
structure Analytics where
  ID : Int
  ShortCode : String
  ClickedAt : Instant
  IPAddress : String
  UserAgent : String
  Referer : String
  Country : String
  deriving DecidableEq, Repr

/-- The struct `domain.URLStats`. -/
structure URLStats where
  ShortCode : String
  OriginalURL : String
  ClickCount : Int
  CreatedAt : Instant
  LastClicked : Option Instant
  deriving DecidableEq, Repr

/-! ## The external world -/

/-- One call on a repository interface, with its arguments. -/
inductive Call where
  | urlCreate (url : URL)
  | urlGetByShortCode (shortCode : String)
  | urlUpdate (url : URL)
  | urlDelete (shortCode : String)
  | urlIncrementClickCount (shortCode : String)
  | cacheSet (key value : String)
  | cacheGet (key : String)
  | cacheDelete (key : String)
  | cacheExists (key : String)
  | analyticsRecordClick (analytics : Analytics)
  | analyticsGetStats (shortCode : String)
  deriving DecidableEq, Repr

/-- The state outside the service. -/
structure World where
  /-- Rows of the table `urls`, oldest first. -/
  urls : List URL
  /-- Rows of the table `url_analytics`, oldest first. -/
  url_analytics : List Analytics
  /-- The Redis keyspace: the value of every key, newest first. An entry whose
  deadline has passed stays here until it is overwritten or deleted, but no call
  sees it (`World.lapsed`). -/
  redis : List (String × String)
  /-- The deadlines of the keys of the Redis keyspace that have a time to live. -/
  redisExpires : List (String × Instant)
  /-- The time at the Redis server when the external call number `n` arrives. -/
  redisClock : Nat → Instant
  /-- The field `ttl` of the `RedisCache` (`cfg.Redis.TTL` in `cmd/api/main.go`: the
  seconds of `REDIS_TTL`, 0 when it is not set), a `Duration` in nanoseconds. -/
  ttl : Int
  /-- The next value of the `id` sequence of `urls`. -/
  nextID : Int
  /-- The readings `time.Now()` is going to return. -/
  clock : Nat → Reading
  /-- How many readings were taken. -/
  ticks : Nat
  /-- Whether the external call number `n` fails, should it go to PostgreSQL. -/
  pgFaults : Nat → Bool
  /-- Whether the external call number `n` fails, should it go to Redis. -/
  redisFaults : Nat → Bool
  /-- The external calls made so far, oldest first. -/
  trace : List Call

/-- The call `time.Now()`. -/
def timeNow (w : World) : Reading × World :=
  (w.clock w.ticks, { w with ticks := w.ticks + 1 })

/-- Whether the next external call fails, should it go to PostgreSQL. -/
def World.pgDown (w : World) : Bool := w.pgFaults w.trace.length

/-- Whether the next external call fails, should it go to Redis. -/
def World.redisDown (w : World) : Bool := w.redisFaults w.trace.length

/-- Record an external call. -/
def World.log (w : World) (c : Call) : World := { w with trace := w.trace ++ [c] }

/-- The time to live of the key has run out at the next external call: the key has
a deadline and the server clock is past it. -/
def World.lapsed (w : World) (key : String) : Bool :=
  match w.redisExpires.find? (fun e => e.1 == key) with
  | none => false
  | some e => decide (w.redisClock w.trace.length > e.2)

/-- The store has a row for the short code. -/
def World.hasCode (w : World) (shortCode : String) : Bool :=
  w.urls.any (fun r => r.ShortCode == shortCode)

/-! ## internal/repository/postgres_url_repository.go -/

/-- Modelled from the spec: the schema of the table `urls` is not among the
sources. The spec gives the store "uniqueness on short code" and has records
persisted with "click counter = 0", so an `INSERT` of a short code that has a
row fails with the driver's unique-violation error, and the column
`click_count`, which the `INSERT` does not name, starts at 0. -/
def urlsInsert (w : World) (url : URL) : Option (URL × World) :=
  if w.hasCode url.ShortCode then none
  else
    let row : URL := { url with ID := w.nextID, ClickCount := 0 }
    some (row, { w with urls := w.urls ++ [row], nextID := w.nextID + 1 })

/-- The method `PostgresURLRepository.Create`: the `INSERT … RETURNING id`, whose
`Scan(&url.ID)` writes the new id into the caller's entity. -/
def PostgresURLRepository.Create (w : World) (url : URL) : Option Err × URL × World :=
  let w1 := w.log (.urlCreate url)
  if w.pgDown then (some (.unavailable w.trace.length), url, w1)
  else
    match urlsInsert w1 url with
    | none => (some .uniqueViolation, url, w1)
    | some (row, w2) => (none, { url with ID := row.ID }, w2)

/-- The method `PostgresURLRepository.GetByShortCode`: the first row of the `SELECT`,
`ErrURLNotFound` for `pgx.ErrNoRows`, any other error unchanged. -/
def PostgresURLRepository.GetByShortCode (w : World) (shortCode : String) :
    Except Err URL × World :=
  let w1 := w.log (.urlGetByShortCode shortCode)
  if w.pgDown then (.error (.unavailable w.trace.length), w1)
  else
    match w.urls.find? (fun r => r.ShortCode == shortCode) with
    | none => (.error .ErrURLNotFound, w1)
    | some url => (.ok url, w1)

/-- The method `PostgresURLRepository.Update`: sets `original_url`, `updated_at`,
`expires_at` and `metadata` of the rows with the short code. -/
def PostgresURLRepository.Update (w : World) (url : URL) : Option Err × World :=
  let w1 := w.log (.urlUpdate url)
  let (now, w2) := timeNow w1
  if w.pgDown then (some (.unavailable w.trace.length), w2)
  else
    if w.hasCode url.ShortCode then
      (none, { w2 with urls := w.urls.map (fun r =>
        if r.ShortCode == url.ShortCode then
          { r with OriginalURL := url.OriginalURL, UpdatedAt := now.instant,
                   ExpiresAt := url.ExpiresAt, Metadata := url.Metadata }
        else r) })
    else (some .ErrURLNotFound, w2)

/-- The method `PostgresURLRepository.Delete`: `ErrURLNotFound` when no row was
affected. -/
def PostgresURLRepository.Delete (w : World) (shortCode : String) : Option Err × World :=
  let w1 := w.log (.urlDelete shortCode)
  if w.pgDown then (some (.unavailable w.trace.length), w1)
  else if w.hasCode shortCode then
    (none, { w1 with urls := w.urls.filter (fun r => !(r.ShortCode == shortCode)) })
  else (some .ErrURLNotFound, w1)

/-- The method `PostgresURLRepository.IncrementClickCount`: the relative update
`click_count = click_count + 1`; no error when no row matches. -/
def PostgresURLRepository.IncrementClickCount (w : World) (shortCode : String) :
    Option Err × World :=
  let w1 := w.log (.urlIncrementClickCount shortCode)
  if w.pgDown then (some (.unavailable w.trace.length), w1)
  else
    (none, { w1 with urls := w.urls.map (fun r =>
      if r.ShortCode == shortCode then { r with ClickCount := r.ClickCount + 1 } else r) })

/-! ## internal/repository/postgres_analytics_repository.go -/

/-- The method `PostgresAnalyticsRepository.RecordClick`: appends one row, stamped
with `time.Now()`. -/
def PostgresAnalyticsRepository.RecordClick (w : World) (analytics : Analytics) :
    Option Err × World :=
  let w1 := w.log (.analyticsRecordClick analytics)
  let (now, w2) := timeNow w1
  if w.pgDown then (some (.unavailable w.trace.length), w2)
  else
    (none, { w2 with url_analytics :=
      w.url_analytics ++ [{ analytics with ClickedAt := now.instant }] })

/-- The newest `clicked_at` among the clicks of a short code (`MAX(a.clicked_at)`). -/
def lastClicked (rows : List Analytics) (shortCode : String) : Option Instant :=
  (rows.filter (fun a => a.ShortCode == shortCode)).foldl
    (fun acc a => match acc with
      | none => some a.ClickedAt
      | some m => some (max m a.ClickedAt)) none

/-- The method `PostgresAnalyticsRepository.GetStats`: the record joined with its
click history. -/
def PostgresAnalyticsRepository.GetStats (w : World) (shortCode : String) :
    Except Err URLStats × World :=
  let w1 := w.log (.analyticsGetStats shortCode)
  if w.pgDown then (.error (.unavailable w.trace.length), w1)
  else
    match w.urls.find? (fun r => r.ShortCode == shortCode) with
    | none => (.error .ErrURLNotFound, w1)
    | some u =>
      (.ok { ShortCode := u.ShortCode, OriginalURL := u.OriginalURL,
             ClickCount := u.ClickCount, CreatedAt := u.CreatedAt,
             LastClicked := lastClicked w.url_analytics shortCode }, w1)

/-! ## internal/repository/redis_cache.go -/

/-- The constant `redis.KeepTTL` of go-redis. -/
def KeepTTL : Int := -1

/-- The time to live that go-redis sends with `SET` for a positive `expiration`:
whole milliseconds (`PX`, at least one) when the expiration is under a second or
not a whole number of seconds, whole seconds (`EX`) otherwise. -/
def sentTTL (expiration : Int) : Int :=
  if expiration < Second ∨ expiration % Second ≠ 0 then
    (if expiration < Millisecond then 1 else expiration / Millisecond) * Millisecond
  else expiration / Second * Second

/-- The deadline of a key after `client.Set(ctx, key, value, r.ttl)`: the server
time plus the time to live when `r.ttl` is positive; the deadline the key has, if
it is there and has not lapsed, when `r.ttl` is `redis.KeepTTL`; none otherwise. -/
def World.setExpire (w : World) (key : String) : Option Instant :=
  if w.ttl > 0 then some (w.redisClock w.trace.length + sentTTL w.ttl)
  else if w.ttl = KeepTTL then
    if w.redis.any (fun e => e.1 == key) && !w.lapsed key then
      (w.redisExpires.find? (fun e => e.1 == key)).map (fun e => e.2)
    else none
  else none

/-- The method `RedisCache.Set`: `SET key value` with the time to live `r.ttl`. -/
def RedisCache.Set (w : World) (key value : String) : Option Err × World :=
  let w1 := w.log (.cacheSet key value)
  if w.redisDown then (some (.unavailable w.trace.length), w1)
  else
    let others := w.redisExpires.filter (fun e => !(e.1 == key))
    (none, { w1 with
      redis := (key, value) :: w.redis.filter (fun e => !(e.1 == key)),
      redisExpires :=
        match w.setExpire key with
        | some deadline => (key, deadline) :: others
        | none => others })

/-- The method `RedisCache.Get`: the value, or `redis.Nil` when the key is absent or
its time to live has run out. -/
def RedisCache.Get (w : World) (key : String) : Except Err String × World :=
  let w1 := w.log (.cacheGet key)
  if w.redisDown then (.error (.unavailable w.trace.length), w1)
  else
    match w.redis.find? (fun e => e.1 == key) with
    | none => (.error .redisNil, w1)
    | some e => if w.lapsed key then (.error .redisNil, w1) else (.ok e.2, w1)

/-- The method `RedisCache.Delete`: `DEL key`; no error when the key is absent. -/
def RedisCache.Delete (w : World) (key : String) : Option Err × World :=
  let w1 := w.log (.cacheDelete key)
  if w.redisDown then (some (.unavailable w.trace.length), w1)
  else (none, { w1 with redis := w.redis.filter (fun e => !(e.1 == key)),
                        redisExpires := w.redisExpires.filter (fun e => !(e.1 == key)) })

/-- The method `RedisCache.Exists`. -/
def RedisCache.Exists (w : World) (key : String) : Except Err Bool × World :=
  let w1 := w.log (.cacheExists key)
  if w.redisDown then (.error (.unavailable w.trace.length), w1)
  else (.ok (w.redis.any (fun e => e.1 == key) && !w.lapsed key), w1)

/-! ## The Go standard library -/

/-- The array `[32]byte` that `sha256.Sum256` returns. -/
structure Digest where
  bytes : List Nat
  size_eq : bytes.length = 32
  byte_lt : ∀ b ∈ bytes, b < 256

/-- The fields of `url.URL` that the service reads. -/
structure ParsedURL where
  Scheme : String
  Host : String
  deriving DecidableEq, Repr

/-- The functions of the standard library that are taken as given: `sha256.Sum256`
(applied to the bytes of a string) and `url.Parse` (`none` for a non-nil error).
`url.Parse` of the empty string is the empty URL with no error. -/
structure GoLib where
  Sum256 : String → Digest
  Parse : String → Option ParsedURL
  Parse_empty : Parse "" = some { Scheme := "", Host := "" }

/-- The alphabet of `base64.URLEncoding` (RFC 4648, section 5). -/
def encodeURL : List Char :=
  "ABCDEFGHIJKLMNOPQRSTUVWXYZabcdefghijklmnopqrstuvwxyz0123456789-_".toList

/-- The character of a 6-bit value. -/
def encodeChar (v : Nat) : Char := encodeURL.getD v '='

/-- The characters of `base64.URLEncoding.EncodeToString`, three bytes to four
characters, the last group padded with the character `=`. -/
def encodeChars : List Nat → List Char
  | b0 :: b1 :: b2 :: rest =>
    encodeChar (b0 / 4) :: encodeChar (b0 % 4 * 16 + b1 / 16) ::
      encodeChar (b1 % 16 * 4 + b2 / 64) :: encodeChar (b2 % 64) :: encodeChars rest
  | [b0, b1] =>
    [encodeChar (b0 / 4), encodeChar (b0 % 4 * 16 + b1 / 16), encodeChar (b1 % 16 * 4), '=']
  | [b0] => [encodeChar (b0 / 4), encodeChar (b0 % 4 * 16), '=', '=']
  | [] => []

/-- The function `base64.URLEncoding.EncodeToString`. -/
def EncodeToString (src : List Nat) : String := String.mk (encodeChars src)

/-- The slice expression `s[:n]` of a string of one-byte characters; `none` is the
run-time panic of a slice bound out of range. -/
def sliceTo (s : String) (n : Nat) : Option String :=
  if n ≤ s.length then some (String.mk (s.data.take n)) else none

/-! ## internal/service/url_service.go -/

/-- The struct `URLService`; its three repositories are the `World`, the logger
has no effect on results. -/
structure URLService where
  lib : GoLib
  baseURL : String

/-- The struct `CreateURLRequest`; `ExpiresIn` is an `*int64`, in seconds. -/
structure CreateURLRequest where
  OriginalURL : String
  CustomCode : String
  ExpiresIn : Option Int
  Metadata : Metadata
  deriving DecidableEq, Repr

/-- The struct `CreateURLResponse`. -/
structure CreateURLResponse where
  ShortCode : String
  ShortURL : String
  OriginalURL : String
  CreatedAt : Instant
  ExpiresAt : Option Instant
  Metadata : Metadata
  deriving DecidableEq, Repr

/-- How a call that may loop or panic ends. -/
inductive Outcome (α : Type) where
  /-- The call returned `val` and left the world `world`. -/
  | returned (val : α) (world : World)
  /-- A run-time panic. -/
  | panic
  /-- The given number of probes did not suffice. -/
  | timeout

/-- The method `URLService.isValidURL`. -/
def URLService.isValidURL (s : URLService) (urlStr : String) : Bool :=
  match s.lib.Parse urlStr with
  | none => false
  | some u => u.Scheme != "" && u.Host != ""

/-- The method `URLService.generateShortCode`. -/
def URLService.generateShortCode (s : URLService) (w : World) (originalURL : String) :
    Option String × World :=
  let (now, w1) := timeNow w
  let hash := s.lib.Sum256 (originalURL ++ now.text)
  let encoded := EncodeToString hash.bytes
  (sliceTo encoded 7, w1)

/-- The `for` loop of `CreateShortURL` (lines 71 to 78), entered with a candidate
`shortCode`: probe the store, leave with the candidate when no record comes back
(the error of the probe is discarded), otherwise draw a new candidate from the
original URL and the text of the current time. -/
def URLService.probeLoop (s : URLService) (originalURL : String) :
    Nat → World → String → Outcome String
  | 0, _, _ => .timeout
  | fuel + 1, w, shortCode =>
    match PostgresURLRepository.GetByShortCode w shortCode with
    | (.error _, w1) => .returned shortCode w1
    | (.ok _, w1) =>
      let (now, w2) := timeNow w1
      match s.generateShortCode w2 (originalURL ++ now.text) with
      | (none, _) => .panic
      | (some next, w3) => probeLoop s originalURL fuel w3 next

/-- Lines 60 to 79 of `CreateShortURL`: the short code to use, or the error to
return. -/
def URLService.chooseCode (s : URLService) (fuel : Nat) (w : World)
    (req : CreateURLRequest) : Outcome (Except Err String) :=
  if req.CustomCode != "" then
    match PostgresURLRepository.GetByShortCode w req.CustomCode with
    | (.ok _, w1) => .returned (.error .ErrShortCodeExists) w1
    | (.error _, w1) => .returned (.ok req.CustomCode) w1
  else
    match s.generateShortCode w req.OriginalURL with
    | (none, _) => .panic
    | (some shortCode, w1) =>
      match s.probeLoop req.OriginalURL fuel w1 shortCode with
      | .returned c w2 => .returned (.ok c) w2
      | .panic => .panic
      | .timeout => .timeout

/-- Lines 81 to 85 of `CreateShortURL`: the expiry, `now + ExpiresIn seconds` in
`int64` nanoseconds, when `ExpiresIn` is given and positive. -/
def URLService.expiry (w : World) (expiresIn : Option Int) : Option Instant × World :=
  match expiresIn with
  | none => (none, w)
  | some e =>
    if e > 0 then
      let (now, w1) := timeNow w
      (some (now.instant + toInt64 (e * Second)), w1)
    else (none, w)

/-- Lines 81 to 95 of `CreateShortURL`: the expiry and the entity, stamped with two
further readings of the clock. -/
def URLService.newEntity (w : World) (req : CreateURLRequest) (shortCode : String) :
    Option Instant × URL × World :=
  let (expiresAt, w1) := URLService.expiry w req.ExpiresIn
  let (createdAt, w2) := timeNow w1
  let (updatedAt, w3) := timeNow w2
  (expiresAt,
    { ID := 0, ShortCode := shortCode, OriginalURL := req.OriginalURL,
      CreatedAt := createdAt.instant, UpdatedAt := updatedAt.instant,
      ExpiresAt := expiresAt, ClickCount := 0, Metadata := req.Metadata }, w3)

/-- Lines 81 to 114 of `CreateShortURL`: build the entity, create it in the store,
populate the cache (its error is only logged), answer. -/
def URLService.persist (s : URLService) (w : World) (req : CreateURLRequest)
    (shortCode : String) : (Option CreateURLResponse × Option Err) × World :=
  let (expiresAt, urlEntity, w3) := URLService.newEntity w req shortCode
  match PostgresURLRepository.Create w3 urlEntity with
  | (some err, _, w4) => ((none, some err), w4)
  | (none, created, w4) =>
    let (_, w5) := RedisCache.Set w4 shortCode req.OriginalURL
    ((some { ShortCode := shortCode, ShortURL := s.baseURL ++ "/" ++ shortCode,
             OriginalURL := req.OriginalURL, CreatedAt := created.CreatedAt,
             ExpiresAt := expiresAt, Metadata := req.Metadata }, none), w5)

/-- The method `URLService.CreateShortURL`, with `fuel` probes for its loop. -/
def URLService.CreateShortURL (s : URLService) (fuel : Nat) (w : World)
    (req : CreateURLRequest) : Outcome (Option CreateURLResponse × Option Err) :=
  if !s.isValidURL req.OriginalURL then .returned (none, some .ErrInvalidURL) w
  else
    match s.chooseCode fuel w req with
    | .panic => .panic
    | .timeout => .timeout
    | .returned (.error err) w1 => .returned (none, some err) w1
    | .returned (.ok shortCode) w1 =>
      let (res, w2) := s.persist w1 req shortCode
      .returned res w2

/-- The work of the goroutine that `GetOriginalURL` starts. -/
structure ClickTask where
  shortCode : String
  analytics : Analytics
  deriving DecidableEq, Repr

/-- The body of the goroutine of `GetOriginalURL`: stamp the event with the short
code, record the click, increment the counter; both errors are only logged. -/
def ClickTask.run (t : ClickTask) (w : World) : World :=
  let analytics := { t.analytics with ShortCode := t.shortCode }
  let (_, w1) := PostgresAnalyticsRepository.RecordClick w analytics
  let (_, w2) := PostgresURLRepository.IncrementClickCount w1 t.shortCode
  w2

/-- What `GetOriginalURL` hands back: its two results, the world at its return, and
the goroutine it started, if any. -/
structure Resolution where
  url : String
  err : Option Err
  world : World
  spawned : Option ClickTask

/-- The method `URLService.GetOriginalURL`. -/
def URLService.GetOriginalURL (_s : URLService) (w : World) (shortCode : String)
    (analytics : Analytics) : Resolution :=
  match RedisCache.Get w shortCode with
  | (cached, w1) =>
    let hit : Option String :=
      match cached with
      | .ok cachedURL => if cachedURL != "" then some cachedURL else none
      | .error _ => none
    match hit with
    | some cachedURL =>
      { url := cachedURL, err := none, world := w1, spawned := some ⟨shortCode, analytics⟩ }
    | none =>
      match PostgresURLRepository.GetByShortCode w1 shortCode with
      | (.error err, w2) => { url := "", err := some err, world := w2, spawned := none }
      | (.ok urlEntity, w2) =>
        let (expired, w3) : Bool × World :=
          match urlEntity.ExpiresAt with
          | none => (false, w2)
          | some expiresAt =>
            let (now, w2a) := timeNow w2
            (decide (now.instant > expiresAt), w2a)
        if expired then { url := "", err := some .ErrExpiredURL, world := w3, spawned := none }
        else
          let (_, w4) := RedisCache.Set w3 shortCode urlEntity.OriginalURL
          { url := urlEntity.OriginalURL, err := none, world := w4,
            spawned := some ⟨shortCode, analytics⟩ }

/-- The method `URLService.GetStats`. -/
def URLService.GetStats (_s : URLService) (w : World) (shortCode : String) :
    Except Err URLStats × World :=
  PostgresAnalyticsRepository.GetStats w shortCode

/-- The method `URLService.DeleteURL`. -/
def URLService.DeleteURL (_s : URLService) (w : World) (shortCode : String) :
    Option Err × World :=
  match PostgresURLRepository.Delete w shortCode with
  | (some err, w1) => (some err, w1)
  | (none, w1) =>
    let (_, w2) := RedisCache.Delete w1 shortCode
    (none, w2)

/-- The value a call returned, if it returned. -/
def Outcome.value? {α : Type} : Outcome α → Option α
  | .returned val _ => some val
  | _ => none

/-- The world a call left, if it returned. -/
def Outcome.world? {α : Type} : Outcome α → Option World
  | .returned _ world => some world
  | _ => none

/-- The short code number `k` that `CreateShortURL` tries for an original URL when
it is entered in the world `w` and the store keeps reporting a collision: number 0
is drawn from the original URL at the first reading of the clock, number `k + 1`
from the original URL followed by the text of reading `2 k + 1`, at reading
`2 k + 2`. -/
def URLService.candidate (s : URLService) (w : World) (originalURL : String) :
    Nat → Option String
  | 0 => (s.generateShortCode w originalURL).1
  | k + 1 =>
    (s.generateShortCode { w with ticks := w.ticks + 2 * k + 2 }
      (originalURL ++ (w.clock (w.ticks + 2 * k + 1)).text)).1

/-! ## Relations used in the statements -/

/-- Two worlds that differ at most in the cache: in the Redis keyspace (values and
deadlines), in the clock of the Redis server, in the time to live of the
`RedisCache`, and in which calls to Redis fail. -/
def World.sameButCache (w w' : World) : Prop :=
  w.urls = w'.urls ∧ w.url_analytics = w'.url_analytics ∧ w.nextID = w'.nextID ∧
  w.clock = w'.clock ∧ w.ticks = w'.ticks ∧ w.pgFaults = w'.pgFaults ∧ w.trace = w'.trace

/-- Two calls that end the same way: both return, with the same value and in worlds
that differ at most in the cache, or both panic, or both run out of probes. -/
def Outcome.sameButCache {α : Type} : Outcome α → Outcome α → Prop
  | .returned val world, .returned val' world' => val = val' ∧ world.sameButCache world'
  | .panic, .panic => True
  | .timeout, .timeout => True
  | _, _ => False

/-! ## Example inputs

The examples need values for the parameters of `GoLib`. They are stand-ins that
agree with the standard library in what the examples use: `exampleParse` splits
at `://` like `url.Parse` does on the URLs used here, and `exampleSum256` is some
function from strings to 32 bytes. -/

/-- Split the characters of a raw URL at the first `://`. -/
def splitScheme : List Char → List Char → Option (List Char × List Char)
  | acc, ':' :: '/' :: '/' :: rest => some (acc.reverse, rest)
  | acc, c :: rest => splitScheme (c :: acc) rest
  | _, [] => none

/-- A stand-in for `url.Parse`: scheme and host of `scheme://host/…`; a string
without `://` parses, as in Go, to a URL with empty scheme and host. -/
def exampleParse (rawURL : String) : Option ParsedURL :=
  match splitScheme [] rawURL.data with
  | some (scheme, rest) =>
    some { Scheme := String.mk scheme, Host := String.mk (rest.takeWhile (fun c => c != '/')) }
  | none => some { Scheme := "", Host := "" }

/-- A stand-in for `sha256.Sum256`: 32 bytes that depend on the length of the
input. -/
def exampleSum256 (data : String) : Digest :=
  { bytes := List.replicate 32 (data.length % 256)
    size_eq := List.length_replicate 32 _
    byte_lt := fun _ hb => by
      rw [List.eq_of_mem_replicate hb]
      exact Nat.mod_lt _ (by decide) }

/-- The example instance of the standard library. -/
def exampleLib : GoLib :=
  { Sum256 := exampleSum256, Parse := exampleParse, Parse_empty := rfl }

/-- The service of the tests: base URL `http://localhost:8080`. -/
def exampleService : URLService := { lib := exampleLib, baseURL := "http://localhost:8080" }

/-- A clock whose readings are one second apart; reading `n` prints as `n` letters. -/
def exampleClock (n : Nat) : Reading :=
  { instant := (n : Int) * Second, text := String.mk (List.replicate n 't') }

/-- An empty world in which every external call succeeds; `REDIS_TTL` is one hour,
and the clock of the Redis server advances by one second from call to call. -/
def emptyWorld : World :=
  { urls := [], url_analytics := [], redis := [], redisExpires := [],
    redisClock := fun n => (n : Int) * Second, ttl := 3600 * Second, nextID := 1,
    clock := exampleClock, ticks := 0, pgFaults := fun _ => false,
    redisFaults := fun _ => false, trace := [] }

/-- The analytics of the tests. -/
def exampleAnalytics : Analytics :=
  { ID := 0, ShortCode := "", ClickedAt := 0, IPAddress := "127.0.0.1", UserAgent := "",
    Referer := "", Country := "" }

/-- A stored record for a short code, with an optional expiry. -/
def exampleRecord (shortCode : String) (expiresAt : Option Instant) : URL :=
  { ID := 1, ShortCode := shortCode, OriginalURL := "https://www.example.com",
    CreatedAt := 0, UpdatedAt := 0, ExpiresAt := expiresAt, ClickCount := 0, Metadata := none }

/-- A record for `abc123` that expires five seconds after reading 0 of the example
clock. -/
def liveRecord : URL := exampleRecord "abc123" (some 5000000000)

/-- A record for `abc123` that expires half a second after reading 0 of the example
clock. -/
def briefRecord : URL := exampleRecord "abc123" (some 500000000)

/-- The record of `TestGetOriginalURL_Expired`: expired one hour before reading 0 of
the example clock. -/
def expiredRecord : URL := exampleRecord "expired" (some (-3600000000000))

/-- A record for `custom123` that expired before the first reading of the clock. -/
def staleCustomRecord : URL := exampleRecord "custom123" (some (-1))

/-- The request of `TestCreateShortURL_Success`, with an optional `ExpiresIn`. -/
def exampleRequest (expiresIn : Option Int) : CreateURLRequest :=
  { OriginalURL := "https://www.example.com", CustomCode := "", ExpiresIn := expiresIn,
    Metadata := none }

/-- The request of `TestCreateShortURL_CustomCode`. -/
def customRequest : CreateURLRequest :=
  { OriginalURL := "https://www.example.com", CustomCode := "custom123", ExpiresIn := none,
    Metadata := none }

/-- The request of `TestCreateShortURL_InvalidURL`. -/
def invalidRequest : CreateURLRequest :=
  { OriginalURL := "invalid-url", CustomCode := "", ExpiresIn := none, Metadata := none }

/-- A world whose store holds the one record `rec` and whose cache is empty. -/
def storeWorld (rec : URL) : World := { emptyWorld with urls := [rec] }

/-- A world whose cache holds the short code `abc123`, for an hour from second 0 of
the server clock, and whose store is empty. -/
def cachedWorld : World :=
  { emptyWorld with redis := [("abc123", "https://www.example.com")],
                    redisExpires := [("abc123", 3600 * Second)] }

/-- A world whose store holds a record for `abc123` and whose cache holds its entry,
for an hour from second 0 of the server clock. -/
def warmWorld : World :=
  { emptyWorld with urls := [exampleRecord "abc123" none],
                    redis := [("abc123", "https://www.example.com")],
                    redisExpires := [("abc123", 3600 * Second)] }

/-- The row `r` after the statement of `IncrementClickCount` for a short code:
`click_count = click_count + 1` where `short_code` is the code, untouched where it
is another. -/
def incremented (shortCode : String) (r : URL) : URL :=
  if r.ShortCode == shortCode then { r with ClickCount := r.ClickCount + 1 } else r

/-- A world whose store holds a record at the code that the example generator
yields first for `exampleRequest` at reading 0 of the example clock. -/
def collisionWorld : World := storeWorld (exampleRecord "FxcXFxc" none)

/-- The world `w` with Redis unavailable: every call to Redis fails. -/
def redisDown (w : World) : World := { w with redisFaults := fun _ => true }

/-- The world `w` with `REDIS_TTL` of one second and a Redis server whose clock
advances by two seconds from call to call: an entry has lapsed at the call after
its write. -/
def shortLived (w : World) : World :=
  { w with ttl := 1 * Second, redisClock := fun n => (n : Int) * (2 * Second) }

/-- The world `w` in which the external call number `n` fails if it goes to
PostgreSQL. -/
def pgFailsAt (n : Nat) (w : World) : World := { w with pgFaults := fun k => k == n }

/-- The world `w` in which the external call number `n` fails if it goes to Redis. -/
def redisFailsAt (n : Nat) (w : World) : World := { w with redisFaults := fun k => k == n }

/-! # Theorems -/

/-! ## Lemmas: the repositories, call by call -/

@[simp] theorem log_trace (w : World) (c : Call) : (w.log c).trace = w.trace ++ [c] := rfl

@[simp] theorem log_urls (w : World) (c : Call) : (w.log c).urls = w.urls := rfl

@[simp] theorem log_redis (w : World) (c : Call) : (w.log c).redis = w.redis := rfl

@[simp] theorem log_redisExpires (w : World) (c : Call) :
    (w.log c).redisExpires = w.redisExpires := rfl

@[simp] theorem log_redisClock (w : World) (c : Call) :
    (w.log c).redisClock = w.redisClock := rfl

@[simp] theorem log_ttl (w : World) (c : Call) : (w.log c).ttl = w.ttl := rfl

@[simp] theorem log_clock (w : World) (c : Call) : (w.log c).clock = w.clock := rfl

@[simp] theorem log_ticks (w : World) (c : Call) : (w.log c).ticks = w.ticks := rfl

@[simp] theorem log_pgFaults (w : World) (c : Call) : (w.log c).pgFaults = w.pgFaults := rfl

@[simp] theorem log_redisFaults (w : World) (c : Call) :
    (w.log c).redisFaults = w.redisFaults := rfl

@[simp] theorem log_nextID (w : World) (c : Call) : (w.log c).nextID = w.nextID := rfl

@[simp] theorem log_url_analytics (w : World) (c : Call) :
    (w.log c).url_analytics = w.url_analytics := rfl

/-- The world after a store lookup: only the trace grew. -/
@[simp] theorem getByShortCode_world (w : World) (shortCode : String) :
    (PostgresURLRepository.GetByShortCode w shortCode).2
      = w.log (.urlGetByShortCode shortCode) := by
  unfold PostgresURLRepository.GetByShortCode
  split
  · rfl
  · split <;> rfl

theorem getByShortCode_eq (w : World) (shortCode : String) :
    PostgresURLRepository.GetByShortCode w shortCode
      = ((PostgresURLRepository.GetByShortCode w shortCode).1,
          w.log (.urlGetByShortCode shortCode)) :=
  Prod.ext rfl (getByShortCode_world w shortCode)

/-- A store lookup answers with a record exactly when the call goes through and
the table has a row for the short code; the record is the first such row. -/
theorem getByShortCode_ok_iff (w : World) (shortCode : String) (rec : URL) :
    (PostgresURLRepository.GetByShortCode w shortCode).1 = .ok rec ↔
      w.pgDown = false ∧ w.urls.find? (fun r => r.ShortCode == shortCode) = some rec := by
  unfold PostgresURLRepository.GetByShortCode
  cases hd : w.pgDown
  · cases hf : w.urls.find? (fun r => r.ShortCode == shortCode) <;> simp
  · simp

/-- A store lookup reports not-found exactly when the call goes through and the
table has no row for the short code. -/
theorem getByShortCode_notFound_iff (w : World) (shortCode : String) :
    (PostgresURLRepository.GetByShortCode w shortCode).1 = .error .ErrURLNotFound ↔
      w.pgDown = false ∧ w.hasCode shortCode = false := by
  unfold PostgresURLRepository.GetByShortCode World.hasCode
  cases hd : w.pgDown
  · cases hf : w.urls.find? (fun r => r.ShortCode == shortCode) with
    | none =>
      simp only [Bool.false_eq_true, if_false, true_and, List.any_eq_false]
      simpa using hf
    | some r =>
      have hr := List.find?_some hf
      have hm := List.mem_of_find?_eq_some hf
      simp only [Bool.false_eq_true, if_false, true_and]
      constructor
      · intro h; cases h
      · intro h
        rw [List.any_eq_false] at h
        exact absurd hr (h r hm)
  · simp

/-- The rows found by a lookup carry the short code asked for. -/
theorem find_shortCode {urls : List URL} {shortCode : String} {rec : URL}
    (h : urls.find? (fun r => r.ShortCode == shortCode) = some rec) :
    rec.ShortCode = shortCode := by
  simpa using List.find?_some h

/-- The table has a row for a short code exactly when the lookup finds one. -/
theorem find_eq_none_iff_hasCode (w : World) (shortCode : String) :
    w.urls.find? (fun r => r.ShortCode == shortCode) = none ↔ w.hasCode shortCode = false := by
  unfold World.hasCode
  rw [List.find?_eq_none, List.any_eq_false]

/-- A lookup in a table whose rows were changed without touching their short
codes finds the changed first row. -/
theorem find_map_of_shortCode (urls : List URL) (f : URL → URL) (shortCode : String)
    (hf : ∀ r, (f r).ShortCode = r.ShortCode) :
    (urls.map f).find? (fun r => r.ShortCode == shortCode)
      = (urls.find? (fun r => r.ShortCode == shortCode)).map f := by
  rw [List.find?_map]
  congr 2
  funext r
  simp [hf r]

/-- An `INSERT` that goes through, for a short code without a row. -/
theorem pgCreate_ok (w : World) (url : URL) (hdown : w.pgDown = false)
    (hno : w.hasCode url.ShortCode = false) :
    PostgresURLRepository.Create w url =
      (none, { url with ID := w.nextID },
        { (w.log (.urlCreate url)) with
          urls := w.urls ++ [{ url with ID := w.nextID, ClickCount := 0 }],
          nextID := w.nextID + 1 }) := by
  have hno' : (w.log (.urlCreate url)).hasCode url.ShortCode = false := hno
  unfold PostgresURLRepository.Create urlsInsert
  simp only [hdown, hno', Bool.false_eq_true, if_false]
  rfl

@[simp] theorem pgDelete_trace (w : World) (shortCode : String) :
    (PostgresURLRepository.Delete w shortCode).2.trace = w.trace ++ [.urlDelete shortCode] := by
  unfold PostgresURLRepository.Delete
  split
  · rfl
  · split <;> rfl

@[simp] theorem pgDelete_redis (w : World) (shortCode : String) :
    (PostgresURLRepository.Delete w shortCode).2.redis = w.redis := by
  unfold PostgresURLRepository.Delete
  split
  · rfl
  · split <;> rfl

@[simp] theorem pgDelete_pgFaults (w : World) (shortCode : String) :
    (PostgresURLRepository.Delete w shortCode).2.pgFaults = w.pgFaults := by
  unfold PostgresURLRepository.Delete
  split
  · rfl
  · split <;> rfl

@[simp] theorem pgDelete_redisFaults (w : World) (shortCode : String) :
    (PostgresURLRepository.Delete w shortCode).2.redisFaults = w.redisFaults := by
  unfold PostgresURLRepository.Delete
  split
  · rfl
  · split <;> rfl

/-- A store delete returns nil exactly when the call goes through and the table
has a row for the short code. -/
theorem pgDelete_ok_iff (w : World) (shortCode : String) :
    (PostgresURLRepository.Delete w shortCode).1 = none ↔
      w.pgDown = false ∧ w.hasCode shortCode = true := by
  unfold PostgresURLRepository.Delete
  cases w.pgDown <;> cases w.hasCode shortCode <;> simp

/-- The table after a store delete that returned nil has no row for the short
code. -/
theorem pgDelete_urls (w : World) (shortCode : String)
    (h : (PostgresURLRepository.Delete w shortCode).1 = none) :
    (PostgresURLRepository.Delete w shortCode).2.urls
      = w.urls.filter (fun r => !(r.ShortCode == shortCode)) := by
  obtain ⟨hd, hh⟩ := (pgDelete_ok_iff w shortCode).mp h
  unfold PostgresURLRepository.Delete
  simp [hd, hh]

/-- The increment leaves every row its short code, original URL and expiry. -/
theorem incrementClickCount_spec (w : World) (shortCode : String) :
    (PostgresURLRepository.IncrementClickCount w shortCode).2.redis = w.redis ∧
    (PostgresURLRepository.IncrementClickCount w shortCode).2.redisFaults = w.redisFaults ∧
    (PostgresURLRepository.IncrementClickCount w shortCode).2.pgFaults = w.pgFaults ∧
    (PostgresURLRepository.IncrementClickCount w shortCode).2.clock = w.clock ∧
    ∃ f : URL → URL,
      (∀ r, (f r).ShortCode = r.ShortCode ∧ (f r).OriginalURL = r.OriginalURL ∧
        (f r).ExpiresAt = r.ExpiresAt) ∧
      (PostgresURLRepository.IncrementClickCount w shortCode).2.urls = w.urls.map f := by
  unfold PostgresURLRepository.IncrementClickCount
  cases w.pgDown
  · refine ⟨rfl, rfl, rfl, rfl,
      fun r => if r.ShortCode == shortCode then { r with ClickCount := r.ClickCount + 1 } else r,
      ?_, rfl⟩
    intro r
    by_cases h : (r.ShortCode == shortCode) = true
    · simp [h]
    · simp [h]
  · exact ⟨rfl, rfl, rfl, rfl, id, fun _ => ⟨rfl, rfl, rfl⟩, (List.map_id _).symm⟩

theorem recordClick_spec (w : World) (analytics : Analytics) :
    (PostgresAnalyticsRepository.RecordClick w analytics).2.redis = w.redis ∧
    (PostgresAnalyticsRepository.RecordClick w analytics).2.urls = w.urls ∧
    (PostgresAnalyticsRepository.RecordClick w analytics).2.redisFaults = w.redisFaults ∧
    (PostgresAnalyticsRepository.RecordClick w analytics).2.pgFaults = w.pgFaults ∧
    (PostgresAnalyticsRepository.RecordClick w analytics).2.clock = w.clock := by
  unfold PostgresAnalyticsRepository.RecordClick
  cases w.pgDown <;> exact ⟨rfl, rfl, rfl, rfl, rfl⟩

/-- The world after a cache lookup: only the trace grew. -/
@[simp] theorem redisGet_world (w : World) (key : String) :
    (RedisCache.Get w key).2 = w.log (.cacheGet key) := by
  unfold RedisCache.Get
  split
  · rfl
  · split
    · rfl
    · split <;> rfl

theorem redisGet_eq (w : World) (key : String) :
    RedisCache.Get w key = ((RedisCache.Get w key).1, w.log (.cacheGet key)) :=
  Prod.ext rfl (redisGet_world w key)

/-- A cache lookup that returns a value found it in the keyspace. -/
theorem redisGet_ok (w : World) (key value : String)
    (h : (RedisCache.Get w key).1 = .ok value) :
    ∃ e, w.redis.find? (fun e => e.1 == key) = some e ∧ e.2 = value := by
  unfold RedisCache.Get at h
  cases hd : w.redisDown
  · cases hf : w.redis.find? (fun e => e.1 == key) with
    | none => simp [hd, hf] at h
    | some e =>
      cases hl : w.lapsed key
      · simp [hd, hf, hl] at h
        exact ⟨e, rfl, h⟩
      · simp [hd, hf, hl] at h
  · simp [hd] at h

/-- A lookup that goes through, of a key that was just written and whose time to
live has not run out. -/
theorem redisGet_head (w : World) (key value : String) (rest : List (String × String))
    (hdown : w.redisDown = false) (hredis : w.redis = (key, value) :: rest)
    (hlive : w.lapsed key = false) :
    (RedisCache.Get w key).1 = .ok value := by
  unfold RedisCache.Get
  simp [hdown, hredis, hlive]

/-- A cache lookup in a keyspace without the key is a miss. -/
theorem redisGet_miss_of_absent (w : World) (key : String)
    (h : w.redis.find? (fun e => e.1 == key) = none) :
    ∀ v, (RedisCache.Get w key).1 = .ok v → v = "" := by
  intro v hv
  unfold RedisCache.Get at hv
  cases hd : w.redisDown
  · simp [hd, h] at hv
  · simp [hd] at hv

/-- A cache lookup that returns an error or an empty value is a miss. -/
theorem miss_of_error_or_empty {res : Except Err String}
    (h : (∃ e, res = .error e) ∨ res = .ok "") : ∀ v, res = .ok v → v = "" := by
  intro v hv
  rcases h with ⟨e, he⟩ | he
  · rw [he] at hv
    cases hv
  · rw [he] at hv
    cases hv
    rfl

/-- The world after a cache write: the trace grew by the call. -/
@[simp] theorem redisSet_trace (w : World) (key value : String) :
    (RedisCache.Set w key value).2.trace = w.trace ++ [.cacheSet key value] := by
  unfold RedisCache.Set
  split <;> rfl

@[simp] theorem redisSet_urls (w : World) (key value : String) :
    (RedisCache.Set w key value).2.urls = w.urls := by
  unfold RedisCache.Set
  split <;> rfl

@[simp] theorem redisSet_url_analytics (w : World) (key value : String) :
    (RedisCache.Set w key value).2.url_analytics = w.url_analytics := by
  unfold RedisCache.Set
  split <;> rfl

@[simp] theorem redisSet_clock (w : World) (key value : String) :
    (RedisCache.Set w key value).2.clock = w.clock := by
  unfold RedisCache.Set
  split <;> rfl

@[simp] theorem redisSet_ticks (w : World) (key value : String) :
    (RedisCache.Set w key value).2.ticks = w.ticks := by
  unfold RedisCache.Set
  split <;> rfl

@[simp] theorem redisSet_pgFaults (w : World) (key value : String) :
    (RedisCache.Set w key value).2.pgFaults = w.pgFaults := by
  unfold RedisCache.Set
  split <;> rfl

@[simp] theorem redisSet_redisFaults (w : World) (key value : String) :
    (RedisCache.Set w key value).2.redisFaults = w.redisFaults := by
  unfold RedisCache.Set
  split <;> rfl

/-- The cache after a write that goes through. -/
theorem redisSet_redis (w : World) (key value : String) (hdown : w.redisDown = false) :
    (RedisCache.Set w key value).2.redis
      = (key, value) :: w.redis.filter (fun e => !(e.1 == key)) := by
  unfold RedisCache.Set
  simp [hdown]

@[simp] theorem redisDelete_trace (w : World) (key : String) :
    (RedisCache.Delete w key).2.trace = w.trace ++ [.cacheDelete key] := by
  unfold RedisCache.Delete
  split <;> rfl

@[simp] theorem redisDelete_urls (w : World) (key : String) :
    (RedisCache.Delete w key).2.urls = w.urls := by
  unfold RedisCache.Delete
  split <;> rfl

@[simp] theorem redisDelete_pgFaults (w : World) (key : String) :
    (RedisCache.Delete w key).2.pgFaults = w.pgFaults := by
  unfold RedisCache.Delete
  split <;> rfl

@[simp] theorem redisDelete_redisFaults (w : World) (key : String) :
    (RedisCache.Delete w key).2.redisFaults = w.redisFaults := by
  unfold RedisCache.Delete
  split <;> rfl

/-- The cache after a `DEL`: the keyspace without the key when the call returned
nil, the keyspace as it was otherwise. -/
theorem redisDelete_redis (w : World) (key : String) :
    ((RedisCache.Delete w key).1 = none ∧
      (RedisCache.Delete w key).2.redis = w.redis.filter (fun e => !(e.1 == key))) ∨
    ((RedisCache.Delete w key).1 ≠ none ∧ (RedisCache.Delete w key).2.redis = w.redis) := by
  unfold RedisCache.Delete
  cases w.redisDown <;> simp

/-- No entry of a filtered keyspace has the key that was filtered out. -/
theorem find_filter_ne {α : Type} (entries : List (String × α)) (key : String) :
    (entries.filter (fun e => !(e.1 == key))).find? (fun e => e.1 == key) = none := by
  rw [List.find?_eq_none]
  intro e he
  have := (List.mem_filter.mp he).2
  simpa using this

/-! ## Lemmas: the time to live of cache entries -/

@[simp] theorem redisSet_redisClock (w : World) (key value : String) :
    (RedisCache.Set w key value).2.redisClock = w.redisClock := by
  unfold RedisCache.Set
  split <;> rfl

@[simp] theorem redisSet_ttl (w : World) (key value : String) :
    (RedisCache.Set w key value).2.ttl = w.ttl := by
  unfold RedisCache.Set
  split <;> rfl

/-- With a time to live of zero, `SET` gives the key no deadline. -/
theorem setExpire_zero (w : World) (key : String) (h : w.ttl = 0) : w.setExpire key = none := by
  unfold World.setExpire KeepTTL
  simp [h]

/-- With a positive time to live, `SET` gives the key the deadline: server time
plus the time to live sent. -/
theorem setExpire_pos (w : World) (key : String) (h : 0 < w.ttl) :
    w.setExpire key = some (w.redisClock w.trace.length + sentTTL w.ttl) := by
  unfold World.setExpire
  simp [h]

/-- The time to live that is sent for whole seconds is the time to live. -/
theorem sentTTL_seconds (n : Int) (h : 0 < n) : sentTTL (n * Second) = n * Second := by
  unfold sentTTL Second
  have h1 : ¬ (n * 1000000000 < 1000000000 ∨ n * 1000000000 % 1000000000 ≠ 0) := by
    intro hc
    rcases hc with hc | hc
    · omega
    · exact hc (Int.mul_emod_left n 1000000000)
  rw [if_neg h1, Int.mul_ediv_cancel n (by decide)]

/-- The deadline of a key after a write of it that goes through. -/
theorem redisSet_find_expires (w : World) (key value : String) (hdown : w.redisDown = false) :
    (RedisCache.Set w key value).2.redisExpires.find? (fun e => e.1 == key)
      = (w.setExpire key).map (fun deadline => (key, deadline)) := by
  unfold RedisCache.Set
  simp only [hdown, Bool.false_eq_true, if_false]
  cases w.setExpire key with
  | none => exact find_filter_ne _ _
  | some deadline => simp

/-- The entry that a write left has not lapsed at the next external call of a
world `z` with the deadlines the write left, when the time to live is zero, or is
positive and the server time of that call is before the server time of the write
plus the time to live sent. -/
theorem not_lapsed_after_set (w z : World) (key value : String)
    (hdown : w.redisDown = false)
    (hexpires : z.redisExpires = (RedisCache.Set w key value).2.redisExpires)
    (hlive : w.ttl = 0 ∨ (0 < w.ttl ∧
      z.redisClock z.trace.length < w.redisClock w.trace.length + sentTTL w.ttl)) :
    z.lapsed key = false := by
  unfold World.lapsed
  rw [hexpires, redisSet_find_expires w key value hdown]
  rcases hlive with hzero | ⟨hpos, hlt⟩
  · rw [setExpire_zero w key hzero]
    rfl
  · rw [setExpire_pos w key hpos]
    simp only [Option.map_some', gt_iff_lt, decide_eq_false_iff_not, not_lt]
    exact le_of_lt hlt

/-- A cache lookup reads nothing of the world but the cache and the number of the
call. -/
theorem redisGet_congr (w w' : World) (key : String)
    (h1 : w.redis = w'.redis) (h2 : w.redisExpires = w'.redisExpires)
    (h3 : w.redisClock = w'.redisClock) (h4 : w.redisFaults = w'.redisFaults)
    (h5 : w.trace = w'.trace) :
    (RedisCache.Get w key).1 = (RedisCache.Get w' key).1 := by
  unfold RedisCache.Get World.redisDown World.lapsed
  rw [h1, h2, h3, h4, h5]
  split
  · rfl
  · split
    · rfl
    · split <;> rfl

/-! ## Lemmas: the code generator -/

theorem encodeChars_length :
    ∀ src : List Nat, (encodeChars src).length = 4 * ((src.length + 2) / 3)
  | b0 :: b1 :: b2 :: rest => by
    simp only [encodeChars, List.length_cons, encodeChars_length rest]
    omega
  | [_, _] => by simp [encodeChars]
  | [_] => by simp [encodeChars]
  | [] => by simp [encodeChars]

/-- The encoding of a digest has 44 characters. -/
theorem encodeToString_digest_length (d : Digest) : (EncodeToString d.bytes).length = 44 := by
  show (encodeChars d.bytes).length = 44
  rw [encodeChars_length, d.size_eq]

/-- The generator never panics: it reads the clock once and returns 7 characters. -/
theorem generateShortCode_spec (s : URLService) (w : World) (originalURL : String) :
    ∃ c, s.generateShortCode w originalURL = (some c, { w with ticks := w.ticks + 1 }) ∧
      c.length = 7 := by
  unfold URLService.generateShortCode timeNow sliceTo
  have hlen := encodeToString_digest_length (s.lib.Sum256 (originalURL ++ (w.clock w.ticks).text))
  refine ⟨String.mk ((EncodeToString
    (s.lib.Sum256 (originalURL ++ (w.clock w.ticks).text)).bytes).data.take 7), ?_, ?_⟩
  · simp only [hlen]
    simp
  · show (List.take 7 _).length = 7
    rw [List.length_take]
    have : (EncodeToString (s.lib.Sum256 (originalURL ++ (w.clock w.ticks).text)).bytes).data.length
        = 44 := hlen
    omega

/-- The world after the generator: one more reading was taken. -/
theorem generateShortCode_world (s : URLService) (w : World) (originalURL : String) :
    (s.generateShortCode w originalURL).2 = { w with ticks := w.ticks + 1 } := rfl

/-- The generator returns 7 characters. -/
theorem generateShortCode_fst (s : URLService) (w : World) (originalURL : String) :
    ∃ c, (s.generateShortCode w originalURL).1 = some c ∧ c.length = 7 := by
  obtain ⟨c, hc, hlen⟩ := generateShortCode_spec s w originalURL
  exact ⟨c, by rw [hc], hlen⟩

theorem generateShortCode_eq (s : URLService) (w : World) (originalURL : String) :
    s.generateShortCode w originalURL
      = ((s.generateShortCode w originalURL).1, { w with ticks := w.ticks + 1 }) := rfl

/-- The generator reads nothing of the world but the next reading of the clock. -/
theorem generateShortCode_congr (s : URLService) (x y : World) (originalURL : String)
    (hclock : x.clock = y.clock) (hticks : x.ticks = y.ticks) :
    (s.generateShortCode x originalURL).1 = (s.generateShortCode y originalURL).1 := by
  unfold URLService.generateShortCode timeNow
  simp only [hclock, hticks]

/-- Every candidate is a string of 7 characters. -/
theorem candidate_length (s : URLService) (w : World) (originalURL : String) (k : Nat)
    (c : String) (h : s.candidate w originalURL k = some c) : c.length = 7 := by
  cases k with
  | zero =>
    obtain ⟨c', hc', hlen⟩ := generateShortCode_fst s w originalURL
    simp only [URLService.candidate] at h
    rw [hc'] at h
    cases h
    exact hlen
  | succ k =>
    obtain ⟨c', hc', hlen⟩ := generateShortCode_fst s { w with ticks := w.ticks + 2 * k + 2 }
      (originalURL ++ (w.clock (w.ticks + 2 * k + 1)).text)
    simp only [URLService.candidate] at h
    rw [hc'] at h
    cases h
    exact hlen

/-! ## Lemmas: resolve -/

/-- A cache hit: the cached value is returned after the one lookup, and the click
goroutine is started. -/
theorem getOriginalURL_hit (s : URLService) (w : World) (shortCode : String)
    (analytics : Analytics) (cachedURL : String)
    (hget : (RedisCache.Get w shortCode).1 = .ok cachedURL) (hne : cachedURL ≠ "") :
    s.GetOriginalURL w shortCode analytics =
      { url := cachedURL, err := none, world := w.log (.cacheGet shortCode),
        spawned := some ⟨shortCode, analytics⟩ } := by
  unfold URLService.GetOriginalURL
  rw [redisGet_eq w shortCode, hget]
  simp [hne]

/-- The resolution on a cache miss (an error, or an empty value), case by case on
what the store lookup returns. -/
theorem getOriginalURL_miss (s : URLService) (w : World) (shortCode : String)
    (analytics : Analytics)
    (hmiss : ∀ v, (RedisCache.Get w shortCode).1 = .ok v → v = "") :
    s.GetOriginalURL w shortCode analytics =
      match (PostgresURLRepository.GetByShortCode (w.log (.cacheGet shortCode)) shortCode).1 with
      | .error err =>
        { url := "", err := some err,
          world := (w.log (.cacheGet shortCode)).log (.urlGetByShortCode shortCode),
          spawned := none }
      | .ok urlEntity =>
        match urlEntity.ExpiresAt with
        | none =>
          { url := urlEntity.OriginalURL, err := none,
            world := (RedisCache.Set
              ((w.log (.cacheGet shortCode)).log (.urlGetByShortCode shortCode))
              shortCode urlEntity.OriginalURL).2,
            spawned := some ⟨shortCode, analytics⟩ }
        | some expiresAt =>
          if (w.clock w.ticks).instant > expiresAt then
            { url := "", err := some .ErrExpiredURL,
              world := (timeNow
                ((w.log (.cacheGet shortCode)).log (.urlGetByShortCode shortCode))).2,
              spawned := none }
          else
            { url := urlEntity.OriginalURL, err := none,
              world := (RedisCache.Set (timeNow
                ((w.log (.cacheGet shortCode)).log (.urlGetByShortCode shortCode))).2
                shortCode urlEntity.OriginalURL).2,
              spawned := some ⟨shortCode, analytics⟩ } := by
  unfold URLService.GetOriginalURL
  rw [redisGet_eq w shortCode]
  dsimp only
  have hres : (match (RedisCache.Get w shortCode).1 with
      | .ok cachedURL => if cachedURL != "" then some cachedURL else none
      | .error _ => (none : Option String)) = none := by
    generalize (RedisCache.Get w shortCode).1 = res at hmiss
    cases res with
    | error e => rfl
    | ok v =>
      have := hmiss v rfl
      subst this
      rfl
  rw [hres]
  dsimp only
  rw [getByShortCode_eq (w.log (.cacheGet shortCode)) shortCode]
  generalize (PostgresURLRepository.GetByShortCode (w.log (.cacheGet shortCode)) shortCode).1
    = res2
  cases res2 with
  | error e => rfl
  | ok urlEntity =>
    dsimp only
    cases hexp : urlEntity.ExpiresAt with
    | none => rfl
    | some e =>
      dsimp only [timeNow, World.log]
      by_cases hgt : (w.clock w.ticks).instant > e
      · simp [hgt]
      · simp [hgt]

/-- The world a store-served resolution leaves: the cache holds the short code
with the record's URL when the cache write (external call number
`w.trace.length + 2`) went through; table, faults and clock are as before. -/
theorem getOriginalURL_miss_live_world (s : URLService) (w : World) (shortCode : String)
    (analytics : Analytics) (rec : URL)
    (hmiss : ∀ v, (RedisCache.Get w shortCode).1 = .ok v → v = "")
    (hrec : (PostgresURLRepository.GetByShortCode (w.log (.cacheGet shortCode)) shortCode).1
      = .ok rec)
    (hlive : rec.ExpiresAt = none ∨
      ∃ e, rec.ExpiresAt = some e ∧ (w.clock w.ticks).instant ≤ e) :
    (s.GetOriginalURL w shortCode analytics).url = rec.OriginalURL ∧
    (s.GetOriginalURL w shortCode analytics).err = none ∧
    (s.GetOriginalURL w shortCode analytics).world.urls = w.urls ∧
    (s.GetOriginalURL w shortCode analytics).world.pgFaults = w.pgFaults ∧
    (s.GetOriginalURL w shortCode analytics).world.redisFaults = w.redisFaults ∧
    (s.GetOriginalURL w shortCode analytics).world.clock = w.clock ∧
    (w.redisFaults (w.trace.length + 2) = false →
      (s.GetOriginalURL w shortCode analytics).world.redis
        = (shortCode, rec.OriginalURL) :: w.redis.filter (fun e => !(e.1 == shortCode))) := by
  rw [getOriginalURL_miss s w shortCode analytics hmiss, hrec]
  dsimp only
  rcases hlive with hnone | ⟨e, hsome, hle⟩
  · rw [hnone]
    dsimp only
    refine ⟨by simp, by simp, by simp, by simp, by simp, by simp, ?_⟩
    intro hup
    rw [redisSet_redis]
    · rfl
    · unfold World.redisDown
      simpa using hup
  · rw [hsome]
    have hgt : ¬ (w.clock w.ticks).instant > e := not_lt.mpr hle
    simp only [hgt, if_false]
    refine ⟨by simp, by simp, by simp [timeNow], by simp [timeNow], by simp [timeNow],
      by simp [timeNow], ?_⟩
    intro hup
    rw [redisSet_redis]
    · rfl
    · unfold World.redisDown
      simpa [timeNow] using hup

/-- The click goroutine touches neither the cache nor the faults nor the clock,
and leaves every row its short code, original URL and expiry. -/
theorem clickTask_run_spec (t : ClickTask) (w : World) :
    (t.run w).redis = w.redis ∧ (t.run w).redisFaults = w.redisFaults ∧
    (t.run w).pgFaults = w.pgFaults ∧ (t.run w).clock = w.clock ∧
    ∀ shortCode rec, w.urls.find? (fun r => r.ShortCode == shortCode) = some rec →
      ∃ rec', (t.run w).urls.find? (fun r => r.ShortCode == shortCode) = some rec' ∧
        rec'.OriginalURL = rec.OriginalURL ∧ rec'.ExpiresAt = rec.ExpiresAt := by
  have hrun : t.run w = (PostgresURLRepository.IncrementClickCount
      (PostgresAnalyticsRepository.RecordClick w { t.analytics with ShortCode := t.shortCode }).2
      t.shortCode).2 := rfl
  obtain ⟨a1, a2, a3, a4, a5⟩ :=
    recordClick_spec w { t.analytics with ShortCode := t.shortCode }
  obtain ⟨b1, b2, b3, b4, f, hf, b5⟩ := incrementClickCount_spec
    (PostgresAnalyticsRepository.RecordClick w { t.analytics with ShortCode := t.shortCode }).2
    t.shortCode
  rw [hrun]
  refine ⟨b1.trans a1, b2.trans a3, b3.trans a4, b4.trans a5, ?_⟩
  intro shortCode rec hrec
  rw [b5, a2, find_map_of_shortCode _ f _ (fun r => (hf r).1), hrec]
  exact ⟨f rec, rfl, (hf rec).2.1, (hf rec).2.2⟩

/-- The click goroutine leaves the deadlines of the cache, the clock of the Redis
server and the time to live. -/
theorem clickTask_run_cache (t : ClickTask) (w : World) :
    (t.run w).redisExpires = w.redisExpires ∧ (t.run w).redisClock = w.redisClock ∧
    (t.run w).ttl = w.ttl := by
  unfold ClickTask.run PostgresAnalyticsRepository.RecordClick
    PostgresURLRepository.IncrementClickCount
  dsimp only [timeNow]
  split <;> split <;> exact ⟨rfl, rfl, rfl⟩

/-- The entry that a store-served resolution wrote (its cache Set is the external
call number `w.trace.length + 2`) has not lapsed at the next external call of a
world `z` with the deadlines the resolution left, when the time to live is zero,
or is positive and the server time of that call is before the server time of the
write plus the time to live sent. -/
theorem getOriginalURL_miss_live_not_lapsed (s : URLService) (w z : World)
    (shortCode : String) (analytics : Analytics) (rec : URL)
    (hmiss : ∀ v, (RedisCache.Get w shortCode).1 = .ok v → v = "")
    (hrec : (PostgresURLRepository.GetByShortCode (w.log (.cacheGet shortCode)) shortCode).1
      = .ok rec)
    (hlive : rec.ExpiresAt = none ∨
      ∃ e, rec.ExpiresAt = some e ∧ (w.clock w.ticks).instant ≤ e)
    (hup : w.redisFaults (w.trace.length + 2) = false)
    (hexpires : z.redisExpires = (s.GetOriginalURL w shortCode analytics).world.redisExpires)
    (httl : w.ttl = 0 ∨ (0 < w.ttl ∧
      z.redisClock z.trace.length < w.redisClock (w.trace.length + 2) + sentTTL w.ttl)) :
    z.lapsed shortCode = false := by
  rw [getOriginalURL_miss s w shortCode analytics hmiss, hrec] at hexpires
  dsimp only at hexpires
  rcases hlive with hnone | ⟨e, hsome, hle⟩
  · rw [hnone] at hexpires
    dsimp only at hexpires
    refine not_lapsed_after_set _ z shortCode rec.OriginalURL ?_ hexpires ?_
    · unfold World.redisDown
      simpa using hup
    · simpa using httl
  · rw [hsome] at hexpires
    have hgt : ¬ (w.clock w.ticks).instant > e := not_lt.mpr hle
    simp only [hgt, if_false] at hexpires
    refine not_lapsed_after_set _ z shortCode rec.OriginalURL ?_ hexpires ?_
    · unfold World.redisDown
      simpa [timeNow] using hup
    · simpa [timeNow] using httl

/-! ## Lemmas: create -/

/-- A URL that does not parse to a non-empty scheme and a non-empty host is not
valid. -/
theorem isValidURL_false_of_not_absolute (s : URLService) (urlStr : String)
    (h : ∀ u, s.lib.Parse urlStr = some u → u.Scheme = "" ∨ u.Host = "") :
    s.isValidURL urlStr = false := by
  unfold URLService.isValidURL
  cases hp : s.lib.Parse urlStr with
  | none => rfl
  | some u =>
    rcases h u hp with h1 | h1 <;> simp [h1]

/-- A valid URL is not the empty string. -/
theorem ne_empty_of_isValidURL (s : URLService) (urlStr : String)
    (h : s.isValidURL urlStr = true) : urlStr ≠ "" := by
  intro he
  subst he
  unfold URLService.isValidURL at h
  rw [s.lib.Parse_empty] at h
  simp at h

/-- The collision loop under a store that answers every call. Entered with
candidate number `j`, in a world `x` that differs from the world `w` at the entry
of `CreateShortURL` by `2 j + 1` readings of the clock and by its trace, and given
that candidate number `j + n` has no row, the loop returns within `n + 1` probes
the first candidate from `j` on that has no row; the tables, the cache, the clock
and the faults are as in `w`. -/
theorem probeLoop_spec (s : URLService) (originalURL : String) (w : World)
    (hstore : ∀ k, w.pgFaults k = false) :
    ∀ (n j : Nat) (x : World) (c : String),
      x.urls = w.urls → x.redis = w.redis → x.url_analytics = w.url_analytics →
      x.nextID = w.nextID → x.clock = w.clock → x.pgFaults = w.pgFaults →
      x.redisFaults = w.redisFaults → x.ticks = w.ticks + 2 * j + 1 →
      s.candidate w originalURL j = some c →
      (∃ cn, s.candidate w originalURL (j + n) = some cn ∧ w.hasCode cn = false) →
      ∃ (i : Nat) (c' : String) (x' : World), i ≤ n ∧
        s.probeLoop originalURL (n + 1) x c = .returned c' x' ∧
        s.candidate w originalURL (j + i) = some c' ∧ w.hasCode c' = false ∧
        (∀ i', i' < i → ∃ ci, s.candidate w originalURL (j + i') = some ci ∧
          w.hasCode ci = true) ∧
        x'.urls = w.urls ∧ x'.redis = w.redis ∧ x'.url_analytics = w.url_analytics ∧
        x'.nextID = w.nextID ∧ x'.clock = w.clock ∧ x'.pgFaults = w.pgFaults ∧
        x'.redisFaults = w.redisFaults ∧ x'.ticks = w.ticks + 2 * (j + i) + 1 ∧
        x'.trace.length = x.trace.length + i + 1 := by
  intro n
  induction n with
  | zero =>
    intro j x c hurls hredis han hid hclock hpg hrf hticks hc hfresh
    obtain ⟨cn, hcn, hno⟩ := hfresh
    rw [Nat.add_zero, hc] at hcn
    cases hcn
    have hdown : x.pgDown = false := by
      unfold World.pgDown
      rw [hpg]
      exact hstore _
    have hfind : x.urls.find? (fun r => r.ShortCode == c) = none := by
      rw [hurls]
      exact (find_eq_none_iff_hasCode w c).mpr hno
    refine ⟨0, c, x.log (.urlGetByShortCode c), le_refl _, ?_, hc, hno, ?_, hurls, hredis, han,
      hid, hclock, hpg, hrf, hticks, ?_⟩
    · unfold URLService.probeLoop PostgresURLRepository.GetByShortCode
      simp [hdown, hfind]
    · intro i' hi'
      exact absurd hi' (Nat.not_lt_zero _)
    · simp
  | succ n ih =>
    intro j x c hurls hredis han hid hclock hpg hrf hticks hc hfresh
    have hdown : x.pgDown = false := by
      unfold World.pgDown
      rw [hpg]
      exact hstore _
    cases hhas : w.hasCode c with
    | false =>
      have hfind : x.urls.find? (fun r => r.ShortCode == c) = none := by
        rw [hurls]
        exact (find_eq_none_iff_hasCode w c).mpr hhas
      refine ⟨0, c, x.log (.urlGetByShortCode c), Nat.zero_le _, ?_, hc, hhas, ?_, hurls, hredis,
        han, hid, hclock, hpg, hrf, hticks, ?_⟩
      · unfold URLService.probeLoop PostgresURLRepository.GetByShortCode
        simp [hdown, hfind]
      · intro i' hi'
        exact absurd hi' (Nat.not_lt_zero _)
      · simp
    | true =>
      obtain ⟨r, hr⟩ : ∃ r, x.urls.find? (fun r => r.ShortCode == c) = some r := by
        rw [hurls]
        cases hf : w.urls.find? (fun r => r.ShortCode == c) with
        | none =>
          rw [(find_eq_none_iff_hasCode w c).mp hf] at hhas
          cases hhas
        | some r => exact ⟨r, rfl⟩
      -- the candidate drawn after the collision is the next one of the list
      obtain ⟨next, hnext, _⟩ := generateShortCode_fst s { w with ticks := w.ticks + 2 * j + 2 }
        (originalURL ++ (w.clock (w.ticks + 2 * j + 1)).text)
      have hcand : s.candidate w originalURL (j + 1) = some next := hnext
      have hdrawn : (s.generateShortCode
          { (x.log (.urlGetByShortCode c)) with ticks := x.ticks + 1 }
          (originalURL ++ (x.clock x.ticks).text)).1 = some next := by
        rw [← hnext, hclock, hticks]
        exact generateShortCode_congr s _ _ _ hclock
          (by show w.ticks + 2 * j + 1 + 1 = w.ticks + 2 * j + 2; omega)
      have hfresh' : ∃ cn, s.candidate w originalURL (j + 1 + n) = some cn ∧
          w.hasCode cn = false := by
        obtain ⟨cn, hcn, hno⟩ := hfresh
        exact ⟨cn, by rw [← hcn]; congr 1; omega, hno⟩
      obtain ⟨i, c', x', hi, hloop, hci, hnoi, hbefore, h1, h2, h3, h4, h5, h6, h7, h8, h9⟩ :=
        ih (j + 1) { (x.log (.urlGetByShortCode c)) with ticks := x.ticks + 1 + 1 } next
          hurls hredis han hid hclock hpg hrf (by show x.ticks + 1 + 1 = _; omega) hcand hfresh'
      refine ⟨i + 1, c', x', Nat.succ_le_succ hi, ?_, by rw [← hci]; congr 1; omega, hnoi, ?_,
        h1, h2, h3, h4, h5, h6, h7, by rw [h8]; omega, ?_⟩
      · rw [← hloop]
        conv => lhs; unfold URLService.probeLoop
        rw [getByShortCode_eq]
        unfold PostgresURLRepository.GetByShortCode
        simp only [hdown, hr, Bool.false_eq_true, if_false]
        simp only [timeNow]
        rw [generateShortCode_eq]
        simp only [World.log] at hdrawn ⊢
        rw [hdrawn]
      · intro i' hi'
        cases i' with
        | zero => exact ⟨c, hc, hhas⟩
        | succ i' =>
          obtain ⟨ci, hci', hhasi⟩ := hbefore i' (by omega)
          exact ⟨ci, by rw [← hci']; congr 1; omega, hhasi⟩
      · rw [h9]
        simp
        omega

/-- More probes do not change what the loop returns. -/
theorem probeLoop_mono (s : URLService) (originalURL : String) :
    ∀ (fuel : Nat) (x : World) (c r : String) (x' : World),
      s.probeLoop originalURL fuel x c = .returned r x' →
      s.probeLoop originalURL (fuel + 1) x c = .returned r x' := by
  intro fuel
  induction fuel with
  | zero =>
    intro x c r x' h
    simp [URLService.probeLoop] at h
  | succ fuel ih =>
    intro x c r x' h
    unfold URLService.probeLoop at h ⊢
    rw [getByShortCode_eq] at h ⊢
    cases hres : (PostgresURLRepository.GetByShortCode x c).1 with
    | error e =>
      rw [hres] at h
      exact h
    | ok url =>
      rw [hres] at h
      simp only at h ⊢
      rw [generateShortCode_eq] at h ⊢
      cases hgen : (s.generateShortCode (timeNow (x.log (.urlGetByShortCode c))).2
          (originalURL ++ (timeNow (x.log (.urlGetByShortCode c))).1.text)).1 with
      | none =>
        rw [hgen] at h
        simp at h
      | some next =>
        rw [hgen] at h
        simp only at h ⊢
        exact ih _ _ _ _ h

theorem probeLoop_mono_le (s : URLService) (originalURL : String) (fuel fuel' : Nat)
    (hle : fuel ≤ fuel') (x : World) (c r : String) (x' : World)
    (h : s.probeLoop originalURL fuel x c = .returned r x') :
    s.probeLoop originalURL fuel' x c = .returned r x' := by
  induction hle with
  | refl => exact h
  | step _ ih => exact probeLoop_mono s originalURL _ x c r x' ih

/-- The choice of a generated code under a store that answers every call: when
candidate number `n` has no row, any number of probes above `n` makes the choice
return the first candidate without a row, and that choice leaves the tables, the
cache, the clock and the faults as they were. -/
theorem chooseCode_generated (s : URLService) (w : World) (req : CreateURLRequest)
    (n fuel : Nat) (hfuel : n < fuel)
    (hcustom : req.CustomCode = "")
    (hstore : ∀ k, w.pgFaults k = false)
    (hfresh : ∃ c, s.candidate w req.OriginalURL n = some c ∧ w.hasCode c = false) :
    ∃ (i : Nat) (c : String) (x : World), i ≤ n ∧
      s.chooseCode fuel w req = .returned (.ok c) x ∧
      s.candidate w req.OriginalURL i = some c ∧ w.hasCode c = false ∧
      (∀ i', i' < i → ∃ ci, s.candidate w req.OriginalURL i' = some ci ∧
        w.hasCode ci = true) ∧
      x.urls = w.urls ∧ x.redis = w.redis ∧ x.url_analytics = w.url_analytics ∧
      x.nextID = w.nextID ∧ x.clock = w.clock ∧ x.pgFaults = w.pgFaults ∧
      x.redisFaults = w.redisFaults ∧ x.ticks = w.ticks + 2 * i + 1 ∧
      x.trace.length = w.trace.length + i + 1 := by
  obtain ⟨c0, hc0, _⟩ := generateShortCode_fst s w req.OriginalURL
  have hcand0 : s.candidate w req.OriginalURL 0 = some c0 := hc0
  obtain ⟨i, c, x, hi, hloop, hci, hno, hbefore, h1, h2, h3, h4, h5, h6, h7, h8, h9⟩ :=
    probeLoop_spec s req.OriginalURL w hstore n 0 { w with ticks := w.ticks + 1 } c0
      rfl rfl rfl rfl rfl rfl rfl (by show w.ticks + 1 = _; omega) hcand0
      (by simpa using hfresh)
  have hloop' := probeLoop_mono_le s req.OriginalURL (n + 1) fuel hfuel _ _ _ _ hloop
  refine ⟨i, c, x, hi, ?_, by simpa using hci, hno, ?_, h1, h2, h3, h4, h5, h6, h7,
    by simpa using h8, h9⟩
  · unfold URLService.chooseCode
    rw [generateShortCode_eq, hc0]
    simp only [hcustom, bne_self_eq_false, Bool.false_eq_true, if_false]
    rw [hloop']
  · intro i' hi'
    simpa using hbefore i' hi'

@[simp] theorem expiry_urls (w : World) (expiresIn : Option Int) :
    (URLService.expiry w expiresIn).2.urls = w.urls := by
  unfold URLService.expiry
  split
  · rfl
  · split <;> rfl

@[simp] theorem expiry_redis (w : World) (expiresIn : Option Int) :
    (URLService.expiry w expiresIn).2.redis = w.redis := by
  unfold URLService.expiry
  split
  · rfl
  · split <;> rfl

@[simp] theorem expiry_trace (w : World) (expiresIn : Option Int) :
    (URLService.expiry w expiresIn).2.trace = w.trace := by
  unfold URLService.expiry
  split
  · rfl
  · split <;> rfl

@[simp] theorem expiry_pgFaults (w : World) (expiresIn : Option Int) :
    (URLService.expiry w expiresIn).2.pgFaults = w.pgFaults := by
  unfold URLService.expiry
  split
  · rfl
  · split <;> rfl

@[simp] theorem expiry_redisFaults (w : World) (expiresIn : Option Int) :
    (URLService.expiry w expiresIn).2.redisFaults = w.redisFaults := by
  unfold URLService.expiry
  split
  · rfl
  · split <;> rfl

@[simp] theorem expiry_nextID (w : World) (expiresIn : Option Int) :
    (URLService.expiry w expiresIn).2.nextID = w.nextID := by
  unfold URLService.expiry
  split
  · rfl
  · split <;> rfl

@[simp] theorem expiry_clock (w : World) (expiresIn : Option Int) :
    (URLService.expiry w expiresIn).2.clock = w.clock := by
  unfold URLService.expiry
  split
  · rfl
  · split <;> rfl

@[simp] theorem expiry_redisClock (w : World) (expiresIn : Option Int) :
    (URLService.expiry w expiresIn).2.redisClock = w.redisClock := by
  unfold URLService.expiry
  split
  · rfl
  · split <;> rfl

@[simp] theorem expiry_ttl (w : World) (expiresIn : Option Int) :
    (URLService.expiry w expiresIn).2.ttl = w.ttl := by
  unfold URLService.expiry
  split
  · rfl
  · split <;> rfl

theorem newEntity_world (w : World) (req : CreateURLRequest) (shortCode : String) :
    (URLService.newEntity w req shortCode).2.2
      = (timeNow (timeNow (URLService.expiry w req.ExpiresIn).2).2).2 := rfl

theorem newEntity_eq (w : World) (req : CreateURLRequest) (shortCode : String) :
    URLService.newEntity w req shortCode
      = ((URLService.expiry w req.ExpiresIn).1, (URLService.newEntity w req shortCode).2.1,
          (timeNow (timeNow (URLService.expiry w req.ExpiresIn).2).2).2) := rfl

/-- The record that `CreateShortURL` persists for a short code that has no row, in
the world `x` in which the code was chosen and under a store that answers: the
response repeats the entity handed to the store, the table gains that entity as a
row with a fresh id, and the cache, when the write goes through, holds the short
code with the original URL. -/
theorem persist_ok (s : URLService) (x : World) (req : CreateURLRequest) (shortCode : String)
    (hstore : ∀ k, x.pgFaults k = false) (hno : x.hasCode shortCode = false) :
    ∃ x' : World,
      s.persist x req shortCode =
        ((some { ShortCode := shortCode, ShortURL := s.baseURL ++ "/" ++ shortCode,
                 OriginalURL := req.OriginalURL,
                 CreatedAt := (URLService.newEntity x req shortCode).2.1.CreatedAt,
                 ExpiresAt := (URLService.expiry x req.ExpiresIn).1,
                 Metadata := req.Metadata }, none), x') ∧
      x'.urls = x.urls ++ [{ (URLService.newEntity x req shortCode).2.1 with ID := x.nextID }] ∧
      x'.trace = x.trace ++ [.urlCreate (URLService.newEntity x req shortCode).2.1,
        .cacheSet shortCode req.OriginalURL] ∧
      x'.pgFaults = x.pgFaults ∧ x'.redisFaults = x.redisFaults ∧ x'.clock = x.clock ∧
      (x.redisFaults (x.trace.length + 1) = false →
        x'.redis = (shortCode, req.OriginalURL) :: x.redis.filter (fun e => !(e.1 == shortCode)))
      ∧ (x.redisFaults (x.trace.length + 1) = true → x'.redis = x.redis) := by
  generalize hent : (URLService.newEntity x req shortCode).2.1 = urlEntity
  have hcode : urlEntity.ShortCode = shortCode := by subst hent; rfl
  have hcount : urlEntity.ClickCount = 0 := by subst hent; rfl
  -- the world in which the entity is created
  generalize hx3 : (timeNow (timeNow (URLService.expiry x req.ExpiresIn).2).2).2 = x3
  have h3urls : x3.urls = x.urls := by subst hx3; simp [timeNow]
  have h3redis : x3.redis = x.redis := by subst hx3; simp [timeNow]
  have h3trace : x3.trace = x.trace := by subst hx3; simp [timeNow]
  have h3pg : x3.pgFaults = x.pgFaults := by subst hx3; simp [timeNow]
  have h3rf : x3.redisFaults = x.redisFaults := by subst hx3; simp [timeNow]
  have h3id : x3.nextID = x.nextID := by subst hx3; simp [timeNow]
  have h3clock : x3.clock = x.clock := by subst hx3; simp [timeNow]
  have hdown : x3.pgDown = false := by
    unfold World.pgDown
    rw [h3pg]
    exact hstore _
  have hno3 : x3.hasCode urlEntity.ShortCode = false := by
    unfold World.hasCode at hno ⊢
    rw [h3urls, hcode]
    exact hno
  refine ⟨(RedisCache.Set
      { (x3.log (.urlCreate urlEntity)) with
        urls := x3.urls ++ [{ urlEntity with ID := x3.nextID, ClickCount := 0 }],
        nextID := x3.nextID + 1 } shortCode req.OriginalURL).2, ?_, ?_, ?_, ?_, ?_, ?_, ?_, ?_⟩
  · unfold URLService.persist
    rw [newEntity_eq, hent, hx3]
    simp only
    rw [pgCreate_ok x3 _ hdown hno3]
  · rw [redisSet_urls]
    simp only [h3urls, h3id]
    congr 2
    cases urlEntity
    simp only at hcount
    subst hcount
    rfl
  · rw [redisSet_trace]
    simp [h3trace]
  · rw [redisSet_pgFaults]
    exact h3pg
  · rw [redisSet_redisFaults]
    exact h3rf
  · rw [redisSet_clock]
    exact h3clock
  · intro hup
    rw [redisSet_redis]
    · simp [h3redis]
    · unfold World.redisDown
      simp [h3rf, h3trace, hup]
  · intro hfail
    unfold RedisCache.Set World.redisDown
    simp [h3rf, h3trace, hfail, h3redis]

/-- The entry that a creation wrote (its cache Set is the external call number
`x.trace.length + 1`, the last of the creation) has not lapsed at the external call
that follows the creation, when the time to live is zero, or is positive and the
server time of that call is before the server time of the write plus the time to
live sent. -/
theorem persist_not_lapsed (s : URLService) (x : World) (req : CreateURLRequest)
    (shortCode : String)
    (hstore : ∀ k, x.pgFaults k = false) (hno : x.hasCode shortCode = false)
    (hup : x.redisFaults (x.trace.length + 1) = false)
    (httl : x.ttl = 0 ∨ (0 < x.ttl ∧
      (s.persist x req shortCode).2.redisClock (s.persist x req shortCode).2.trace.length
        < (s.persist x req shortCode).2.redisClock
            ((s.persist x req shortCode).2.trace.length - 1) + sentTTL x.ttl)) :
    (s.persist x req shortCode).2.lapsed shortCode = false := by
  generalize hent : (URLService.newEntity x req shortCode).2.1 = urlEntity
  have hcode : urlEntity.ShortCode = shortCode := by subst hent; rfl
  generalize hx3 : (timeNow (timeNow (URLService.expiry x req.ExpiresIn).2).2).2 = x3
  have h3urls : x3.urls = x.urls := by subst hx3; simp [timeNow]
  have h3trace : x3.trace = x.trace := by subst hx3; simp [timeNow]
  have h3pg : x3.pgFaults = x.pgFaults := by subst hx3; simp [timeNow]
  have h3rf : x3.redisFaults = x.redisFaults := by subst hx3; simp [timeNow]
  have h3clock : x3.redisClock = x.redisClock := by subst hx3; simp [timeNow]
  have h3ttl : x3.ttl = x.ttl := by subst hx3; simp [timeNow]
  have hdown : x3.pgDown = false := by
    unfold World.pgDown
    rw [h3pg]
    exact hstore _
  have hno3 : x3.hasCode urlEntity.ShortCode = false := by
    unfold World.hasCode at hno ⊢
    rw [h3urls, hcode]
    exact hno
  have hp : (s.persist x req shortCode).2 = (RedisCache.Set
      { (x3.log (.urlCreate urlEntity)) with
        urls := x3.urls ++ [{ urlEntity with ID := x3.nextID, ClickCount := 0 }],
        nextID := x3.nextID + 1 } shortCode req.OriginalURL).2 := by
    unfold URLService.persist
    rw [newEntity_eq, hent, hx3]
    simp only
    rw [pgCreate_ok x3 _ hdown hno3]
  rw [hp] at httl ⊢
  refine not_lapsed_after_set _ _ shortCode req.OriginalURL ?_ rfl ?_
  · unfold World.redisDown
    simp [h3rf, h3trace, hup]
  · simpa [h3clock, h3ttl, h3trace] using httl

/-- The collision loop leaves the clock of the Redis server and the time to live. -/
theorem probeLoop_cache (s : URLService) (originalURL : String) :
    ∀ (fuel : Nat) (x : World) (c r : String) (x' : World),
      s.probeLoop originalURL fuel x c = .returned r x' →
      x'.redisClock = x.redisClock ∧ x'.ttl = x.ttl := by
  intro fuel
  induction fuel with
  | zero =>
    intro x c r x' h
    simp [URLService.probeLoop] at h
  | succ fuel ih =>
    intro x c r x' h
    unfold URLService.probeLoop at h
    rw [getByShortCode_eq] at h
    cases hres : (PostgresURLRepository.GetByShortCode x c).1 with
    | error e =>
      rw [hres] at h
      simp only [Outcome.returned.injEq] at h
      obtain ⟨_, hx⟩ := h
      subst hx
      exact ⟨rfl, rfl⟩
    | ok url =>
      rw [hres] at h
      simp only at h
      rw [generateShortCode_eq] at h
      cases hgen : (s.generateShortCode (timeNow (x.log (.urlGetByShortCode c))).2
          (originalURL ++ (timeNow (x.log (.urlGetByShortCode c))).1.text)).1 with
      | none =>
        rw [hgen] at h
        simp at h
      | some next =>
        rw [hgen] at h
        simp only at h
        obtain ⟨h1, h2⟩ := ih _ _ _ _ h
        exact ⟨h1, h2⟩

/-- The choice of a generated short code leaves the clock of the Redis server and
the time to live. -/
theorem chooseCode_cache (s : URLService) (fuel : Nat) (w : World) (req : CreateURLRequest)
    (hcustom : req.CustomCode = "") (v : Except Err String) (x : World)
    (h : s.chooseCode fuel w req = .returned v x) :
    x.redisClock = w.redisClock ∧ x.ttl = w.ttl := by
  unfold URLService.chooseCode at h
  simp only [hcustom, bne_self_eq_false, Bool.false_eq_true, if_false] at h
  rw [generateShortCode_eq] at h
  cases hgen : (s.generateShortCode w req.OriginalURL).1 with
  | none =>
    rw [hgen] at h
    simp at h
  | some c =>
    rw [hgen] at h
    simp only at h
    cases hloop : s.probeLoop req.OriginalURL fuel { w with ticks := w.ticks + 1 } c with
    | panic =>
      rw [hloop] at h
      simp at h
    | timeout =>
      rw [hloop] at h
      simp at h
    | returned r x' =>
      rw [hloop] at h
      simp only [Outcome.returned.injEq] at h
      obtain ⟨_, hx⟩ := h
      subst hx
      have hkeep := probeLoop_cache s req.OriginalURL fuel { w with ticks := w.ticks + 1 } c r
        x' hloop
      exact hkeep

/-! ## Lemmas: delete -/

/-- The world `DeleteURL` leaves is the world the cache delete leaves after the
store delete. -/
theorem deleteURL_ok (s : URLService) (w : World) (shortCode : String)
    (h : (s.DeleteURL w shortCode).1 = none) :
    (PostgresURLRepository.Delete w shortCode).1 = none ∧
    (s.DeleteURL w shortCode).2
      = (RedisCache.Delete (PostgresURLRepository.Delete w shortCode).2 shortCode).2 := by
  unfold URLService.DeleteURL at h ⊢
  rcases hd : PostgresURLRepository.Delete w shortCode with ⟨res, w1⟩
  rw [hd] at h
  cases res with
  | some e => simp at h
  | none => exact ⟨rfl, rfl⟩

/-! ## C1: create, then resolve -/

/-- C1, amended: for a valid URL and an empty custom code, when the store answers
every call and candidate number `n` of the generator has no row in the store,
`CreateShortURL` with more than `n` probes succeeds, for every content of the
store and of the cache and whether or not the cache write goes through, with a
short code of exactly 7 characters that had no row before the call. A
`GetOriginalURL` of that code in the world the creation left returns the request's
original URL and a nil error in each of two cases. Either the cache answers every
call and the time to live of the entry the creation wrote has not run out at the
lookup of the resolution: `REDIS_TTL` is zero (no time to live), or it is positive
and the server time of the lookup is not before that of the write (the last
external call of the creation) and is before that of the write plus the time to
live; the resolution is then served by that entry. Or the cache held no entry for
the code before the creation and the expiry of the record is null or not before
the current time of the resolution (whatever the cache does). -/
theorem createShortURL_then_resolve (s : URLService) (w : World) (req : CreateURLRequest)
    (n fuel : Nat) (analytics : Analytics)
    (hfuel : n < fuel)
    (hvalid : s.isValidURL req.OriginalURL = true)
    (hcustom : req.CustomCode = "")
    (hstore : ∀ k, w.pgFaults k = false)
    (hfresh : ∃ c, s.candidate w req.OriginalURL n = some c ∧ w.hasCode c = false) :
    ∃ (resp : CreateURLResponse) (w' : World),
      s.CreateShortURL fuel w req = .returned (some resp, none) w' ∧
      resp.ShortCode.length = 7 ∧ w.hasCode resp.ShortCode = false ∧
      w'.hasCode resp.ShortCode = true ∧
      ((((∀ k, w.redisFaults k = false) ∧
          (w.ttl = 0 ∨ (0 < w.ttl ∧
            w'.redisClock (w'.trace.length - 1) ≤ w'.redisClock w'.trace.length ∧
            w'.redisClock w'.trace.length
              < w'.redisClock (w'.trace.length - 1) + sentTTL w.ttl))) ∨
        (w.redis.find? (fun e => e.1 == resp.ShortCode) = none ∧
          (resp.ExpiresAt = none ∨
            ∃ e, resp.ExpiresAt = some e ∧ (w'.clock w'.ticks).instant ≤ e))) →
        (s.GetOriginalURL w' resp.ShortCode analytics).url = req.OriginalURL ∧
        (s.GetOriginalURL w' resp.ShortCode analytics).err = none) := by
  obtain ⟨i, c, x, _, hchoose, hci, hno, _, h1, h2, _, h4, _, h6, h7, _, _⟩ :=
    chooseCode_generated s w req n fuel hfuel hcustom hstore hfresh
  have hnox : x.hasCode c = false := by
    unfold World.hasCode at hno ⊢
    rw [h1]
    exact hno
  obtain ⟨w', hpersist, hurls, _, hpg, hrf, _, hredis, hredis'⟩ :=
    persist_ok s x req c (by rw [h6]; exact hstore) hnox
  have hne := ne_empty_of_isValidURL s _ hvalid
  refine ⟨CreateURLResponse.mk c (s.baseURL ++ "/" ++ c) req.OriginalURL
    (URLService.newEntity x req c).2.1.CreatedAt (URLService.expiry x req.ExpiresIn).1
    req.Metadata, w', ?_, candidate_length s w req.OriginalURL i c hci, hno, ?_, ?_⟩
  · unfold URLService.CreateShortURL
    simp only [hvalid, Bool.not_true, Bool.false_eq_true, if_false, hchoose, hpersist]
  · unfold World.hasCode
    rw [hurls]
    simp [URLService.newEntity]
  · show _ → (s.GetOriginalURL w' c analytics).url = req.OriginalURL ∧
      (s.GetOriginalURL w' c analytics).err = none
    rintro (⟨hcache, httl⟩ | ⟨habsent, hlive⟩)
    · -- served by the entry the creation wrote
      have hset := hredis (by rw [h7]; exact hcache _)
      have hdown : w'.redisDown = false := by
        unfold World.redisDown
        rw [hrf, h7]
        exact hcache _
      have hw' : (s.persist x req c).2 = w' := by rw [hpersist]
      have hxttl : x.ttl = w.ttl := (chooseCode_cache s fuel w req hcustom _ x hchoose).2
      have hlapsed : w'.lapsed c = false := by
        have hl := persist_not_lapsed s x req c (by rw [h6]; exact hstore) hnox
          (by rw [h7]; exact hcache _)
          (by rw [hw', hxttl]; exact httl.imp id (fun h => ⟨h.1, h.2.2⟩))
        rwa [hw'] at hl
      have hget := redisGet_head w' c req.OriginalURL _ hdown hset hlapsed
      rw [getOriginalURL_hit s w' c analytics req.OriginalURL hget hne]
      exact ⟨rfl, rfl⟩
    · -- whatever the cache does
      cases hres : (RedisCache.Get w' c).1 with
      | ok v =>
        obtain ⟨e, hfind, hval⟩ := redisGet_ok w' c v hres
        cases hfault : x.redisFaults (x.trace.length + 1) with
        | true =>
          rw [hredis' hfault, h2, habsent] at hfind
          cases hfind
        | false =>
          rw [hredis hfault] at hfind
          simp at hfind
          subst hfind
          subst hval
          rw [getOriginalURL_hit s w' c analytics req.OriginalURL hres hne]
          exact ⟨rfl, rfl⟩
      | error err =>
        have hmiss : ∀ v, (RedisCache.Get w' c).1 = .ok v → v = "" := by
          intro v hv
          rw [hres] at hv
          cases hv
        have hfind : (w'.log (.cacheGet c)).urls.find? (fun r => r.ShortCode == c)
            = some { (URLService.newEntity x req c).2.1 with ID := x.nextID } := by
          rw [log_urls, hurls, List.find?_append, h1,
            (find_eq_none_iff_hasCode w c).mpr hno]
          simp [URLService.newEntity]
        have hdown : (w'.log (.cacheGet c)).pgDown = false := by
          unfold World.pgDown
          rw [log_pgFaults, hpg, h6]
          exact hstore _
        have hrec := (getByShortCode_ok_iff _ c _).mpr ⟨hdown, hfind⟩
        obtain ⟨hurl, herr, _⟩ :=
          getOriginalURL_miss_live_world s w' c analytics _ hmiss hrec hlive
        exact ⟨hurl, herr⟩

/-- The witness of C1: a creation in the empty world, resolved from the cache
although the record expires after one second (the entry lives for an hour and the
lookup comes one second after the write), and a creation without expiry with Redis
unavailable, resolved from the store. -/
theorem createShortURL_then_resolve_witness :
    (∃ (resp : CreateURLResponse) (w' : World),
      exampleService.CreateShortURL 1 emptyWorld (exampleRequest (some 1))
        = .returned (some resp, none) w' ∧
      resp.ShortCode.length = 7 ∧ emptyWorld.hasCode resp.ShortCode = false ∧
      w'.hasCode resp.ShortCode = true ∧
      (exampleService.GetOriginalURL w' resp.ShortCode exampleAnalytics).url
        = "https://www.example.com" ∧
      (exampleService.GetOriginalURL w' resp.ShortCode exampleAnalytics).err = none) ∧
    (∃ (resp : CreateURLResponse) (w' : World),
      exampleService.CreateShortURL 1 (redisDown emptyWorld) (exampleRequest none)
        = .returned (some resp, none) w' ∧
      resp.ShortCode.length = 7 ∧
      (exampleService.GetOriginalURL w' resp.ShortCode exampleAnalytics).url
        = "https://www.example.com" ∧
      (exampleService.GetOriginalURL w' resp.ShortCode exampleAnalytics).err = none) :=
  let ⟨resp, w', h1, h2, h3, h4, h5⟩ :=
    createShortURL_then_resolve exampleService emptyWorld (exampleRequest (some 1)) 0 1
      exampleAnalytics (by decide) (by decide) rfl (fun _ => rfl)
      ⟨"FxcXFxc", by decide, by decide⟩
  let ⟨resp2, w2', g1, g2, _, _, g5⟩ :=
    createShortURL_then_resolve exampleService (redisDown emptyWorld) (exampleRequest none) 0 1
      exampleAnalytics (by decide) (by decide) rfl (fun _ => rfl)
      ⟨"FxcXFxc", by decide, by decide⟩
  have hnone : resp2.ExpiresAt = none := by
    have hval : (exampleService.CreateShortURL 1 (redisDown emptyWorld)
        (exampleRequest none)).value?.map (fun v => v.1.map (fun r => r.ExpiresAt))
        = some (some none) := by decide
    rw [g1] at hval
    simpa [Outcome.value?] using hval
  have hlive : 0 < emptyWorld.ttl ∧
      w'.redisClock (w'.trace.length - 1) ≤ w'.redisClock w'.trace.length ∧
      w'.redisClock w'.trace.length
        < w'.redisClock (w'.trace.length - 1) + sentTTL emptyWorld.ttl := by
    have hval : (exampleService.CreateShortURL 1 emptyWorld
        (exampleRequest (some 1))).world?.map (fun x => decide (0 < emptyWorld.ttl ∧
          x.redisClock (x.trace.length - 1) ≤ x.redisClock x.trace.length ∧
          x.redisClock x.trace.length
            < x.redisClock (x.trace.length - 1) + sentTTL emptyWorld.ttl))
        = some true := by decide
    rw [h1] at hval
    simpa [Outcome.world?] using hval
  ⟨⟨resp, w', h1, h2, h3, h4, (h5 (Or.inl ⟨fun _ => rfl, Or.inr hlive⟩)).1,
      (h5 (Or.inl ⟨fun _ => rfl, Or.inr hlive⟩)).2⟩,
    ⟨resp2, w2', g1, g2, (g5 (Or.inr ⟨rfl, Or.inl hnone⟩)).1,
      (g5 (Or.inr ⟨rfl, Or.inl hnone⟩)).2⟩⟩

/-- C1, as stated, fails: with Redis unavailable and a request that expires in one
second, `CreateShortURL` succeeds (the failed cache write is only logged) with an
expiry at second 2 of the example clock, and the `GetOriginalURL` that follows
reads the clock at second 4, finds the record in the store and returns the empty
string and `ErrExpiredURL`. -/
theorem createShortURL_then_resolve_counterexample :
    exampleService.isValidURL (exampleRequest (some 1)).OriginalURL = true ∧
    (exampleRequest (some 1)).CustomCode = "" ∧
    ∃ (resp : CreateURLResponse) (w' : World),
      exampleService.CreateShortURL 1 (redisDown emptyWorld) (exampleRequest (some 1))
        = .returned (some resp, none) w' ∧
      resp.ExpiresAt = some (2 * Second) ∧ (w'.clock w'.ticks).instant = 4 * Second ∧
      (exampleService.GetOriginalURL w' resp.ShortCode exampleAnalytics).url = "" ∧
      (exampleService.GetOriginalURL w' resp.ShortCode exampleAnalytics).err
        = some .ErrExpiredURL :=
  ⟨by decide, rfl, _, _, rfl, by decide, by decide, by decide, by decide⟩

/-- The same failure with a cache that answers every call: the entry the creation
wrote (for one second, at second 4 of the server clock) has lapsed at the lookup of
the resolution (second 6), which is a miss; the store serves the record, whose
expiry has passed. -/
theorem resolve_after_ttl_lapsed :
    ∃ (resp : CreateURLResponse) (w' : World),
      exampleService.CreateShortURL 1 (shortLived emptyWorld) (exampleRequest (some 1))
        = .returned (some resp, none) w' ∧
      w'.redis = [(resp.ShortCode, "https://www.example.com")] ∧
      w'.redisExpires = [(resp.ShortCode, 5 * Second)] ∧
      w'.redisClock w'.trace.length = 6 * Second ∧
      (RedisCache.Get w' resp.ShortCode).1 = .error .redisNil ∧
      (exampleService.GetOriginalURL w' resp.ShortCode exampleAnalytics).url = "" ∧
      (exampleService.GetOriginalURL w' resp.ShortCode exampleAnalytics).err
        = some .ErrExpiredURL :=
  ⟨_, _, rfl, by decide, by decide, by decide, by decide, by decide, by decide⟩

/-! ## C2: invalid URLs -/

/-- C2: a request whose original URL does not parse to an absolute form (parse
error, empty scheme or empty host) makes `CreateShortURL` return a nil response
and `ErrInvalidURL`, whatever the number of probes allowed, and the world it leaves
is the world it found: no clock reading, no store call, no cache call. -/
theorem createShortURL_invalid_url (s : URLService) (fuel : Nat) (w : World)
    (req : CreateURLRequest)
    (hinvalid : ∀ u, s.lib.Parse req.OriginalURL = some u → u.Scheme = "" ∨ u.Host = "") :
    s.CreateShortURL fuel w req = .returned (none, some .ErrInvalidURL) w := by
  unfold URLService.CreateShortURL
  rw [isValidURL_false_of_not_absolute s _ hinvalid]
  rfl

/-- The witness of C2: the request of `TestCreateShortURL_InvalidURL`. -/
theorem createShortURL_invalid_url_witness :
    (∀ u, exampleService.lib.Parse invalidRequest.OriginalURL = some u →
      u.Scheme = "" ∨ u.Host = "") ∧
    exampleService.CreateShortURL 0 emptyWorld invalidRequest
      = .returned (none, some .ErrInvalidURL) emptyWorld :=
  have h : ∀ u, exampleService.lib.Parse invalidRequest.OriginalURL = some u →
      u.Scheme = "" ∨ u.Host = "" := by
    intro u hu
    have hp : exampleService.lib.Parse invalidRequest.OriginalURL
        = some { Scheme := "", Host := "" } := by decide
    rw [hp] at hu
    cases hu
    exact Or.inl rfl
  ⟨h, createShortURL_invalid_url exampleService 0 emptyWorld invalidRequest h⟩

/-! ## C3: custom codes that exist -/

/-- C3: for a valid URL and a non-empty custom code for which the store returns a
record (any record: its expiry is not looked at), `CreateShortURL` returns a nil
response and `ErrShortCodeExists`; its only external call is the lookup, so the
table and the cache are as before. -/
theorem createShortURL_custom_code_exists (s : URLService) (fuel : Nat) (w : World)
    (req : CreateURLRequest) (rec : URL)
    (hvalid : s.isValidURL req.OriginalURL = true)
    (hcustom : req.CustomCode ≠ "")
    (hheld : (PostgresURLRepository.GetByShortCode w req.CustomCode).1 = .ok rec) :
    ∃ w', s.CreateShortURL fuel w req = .returned (none, some .ErrShortCodeExists) w' ∧
      w'.urls = w.urls ∧ w'.redis = w.redis ∧
      w'.trace = w.trace ++ [.urlGetByShortCode req.CustomCode] := by
  refine ⟨w.log (.urlGetByShortCode req.CustomCode), ?_, rfl, rfl, rfl⟩
  have hw := getByShortCode_world w req.CustomCode
  unfold URLService.CreateShortURL URLService.chooseCode
  rcases hg : PostgresURLRepository.GetByShortCode w req.CustomCode with ⟨res, w1⟩
  rw [hg] at hheld hw
  simp only at hheld hw
  subst hheld hw
  simp [hvalid, hcustom]

/-- The witness of C3: the custom code of `TestCreateShortURL_CustomCode`, held by
a record that has expired. -/
theorem createShortURL_custom_code_exists_witness :
    ∃ w', exampleService.CreateShortURL 0 (storeWorld staleCustomRecord) customRequest
        = .returned (none, some .ErrShortCodeExists) w' ∧
      w'.urls = (storeWorld staleCustomRecord).urls ∧
      w'.redis = (storeWorld staleCustomRecord).redis ∧
      w'.trace = (storeWorld staleCustomRecord).trace
        ++ [.urlGetByShortCode customRequest.CustomCode] :=
  createShortURL_custom_code_exists exampleService 0 (storeWorld staleCustomRecord)
    customRequest staleCustomRecord (by decide) (by decide) (by decide)

/-! ## C4: cache hits -/

/-- C4: when the cache lookup returns a non-empty value and no error,
`GetOriginalURL` returns that value and a nil error after that one external call;
the table plays no part, so the result is the same for every content `urls` of the
store (record absent, expired, or different). -/
theorem getOriginalURL_cache_hit (s : URLService) (w : World) (shortCode : String)
    (analytics : Analytics) (cachedURL : String) (urls : List URL)
    (hget : (RedisCache.Get w shortCode).1 = .ok cachedURL)
    (hne : cachedURL ≠ "") :
    (s.GetOriginalURL { w with urls := urls } shortCode analytics).url = cachedURL ∧
    (s.GetOriginalURL { w with urls := urls } shortCode analytics).err = none ∧
    (s.GetOriginalURL { w with urls := urls } shortCode analytics).world.trace
      = w.trace ++ [.cacheGet shortCode] ∧
    (s.GetOriginalURL { w with urls := urls } shortCode analytics).world.urls = urls := by
  have hsame : (RedisCache.Get { w with urls := urls } shortCode).1
      = (RedisCache.Get w shortCode).1 := by
    exact redisGet_congr _ _ shortCode rfl rfl rfl rfl rfl
  have hw := redisGet_world { w with urls := urls } shortCode
  unfold URLService.GetOriginalURL
  rcases hg : RedisCache.Get { w with urls := urls } shortCode with ⟨res, w1⟩
  rw [hg] at hsame hw
  simp only at hsame hw
  rw [hget] at hsame
  subst hsame hw
  simp [hne]

/-- The witness of C4: the cache holds `abc123`; the store is given a record for it
that expires after half a second, and plays no part. -/
theorem getOriginalURL_cache_hit_witness :
    (exampleService.GetOriginalURL { cachedWorld with urls := [briefRecord] } "abc123"
      exampleAnalytics).url = "https://www.example.com" ∧
    (exampleService.GetOriginalURL { cachedWorld with urls := [briefRecord] } "abc123"
      exampleAnalytics).err = none ∧
    (exampleService.GetOriginalURL { cachedWorld with urls := [briefRecord] } "abc123"
      exampleAnalytics).world.trace = cachedWorld.trace ++ [.cacheGet "abc123"] ∧
    (exampleService.GetOriginalURL { cachedWorld with urls := [briefRecord] } "abc123"
      exampleAnalytics).world.urls = [briefRecord] :=
  getOriginalURL_cache_hit exampleService cachedWorld "abc123" exampleAnalytics
    "https://www.example.com" [briefRecord] (by decide) (by decide)

/-! ## C5: served by the store -/

/-- C5: when the cache lookup misses (an error, or an empty value) and the store
returns a record whose expiry is null or not before the current time,
`GetOriginalURL` returns the record's original URL and a nil error, its third and
last external call is the cache Set of (short code, that original URL), and it
starts the click goroutine for the short code. -/
theorem getOriginalURL_from_store (s : URLService) (w : World) (shortCode : String)
    (analytics : Analytics) (rec : URL)
    (hmiss : (∃ e, (RedisCache.Get w shortCode).1 = .error e) ∨
      (RedisCache.Get w shortCode).1 = .ok "")
    (hrec : (PostgresURLRepository.GetByShortCode (RedisCache.Get w shortCode).2 shortCode).1
      = .ok rec)
    (hlive : rec.ExpiresAt = none ∨
      ∃ e, rec.ExpiresAt = some e ∧ (w.clock w.ticks).instant ≤ e) :
    (s.GetOriginalURL w shortCode analytics).url = rec.OriginalURL ∧
    (s.GetOriginalURL w shortCode analytics).err = none ∧
    (s.GetOriginalURL w shortCode analytics).world.trace
      = w.trace ++ [.cacheGet shortCode, .urlGetByShortCode shortCode,
          .cacheSet shortCode rec.OriginalURL] ∧
    (s.GetOriginalURL w shortCode analytics).spawned = some ⟨shortCode, analytics⟩ := by
  rw [redisGet_world] at hrec
  rw [getOriginalURL_miss s w shortCode analytics (miss_of_error_or_empty hmiss), hrec]
  dsimp only
  rcases hlive with hnone | ⟨e, hsome, hle⟩
  · rw [hnone]
    simp
  · rw [hsome]
    have hgt : ¬ (w.clock w.ticks).instant > e := not_lt.mpr hle
    simp [hgt, timeNow]

/-- The witness of C5: a cold cache and a record that has not expired. -/
theorem getOriginalURL_from_store_witness :
    (exampleService.GetOriginalURL (storeWorld liveRecord) "abc123" exampleAnalytics).url
      = liveRecord.OriginalURL ∧
    (exampleService.GetOriginalURL (storeWorld liveRecord) "abc123" exampleAnalytics).err
      = none ∧
    (exampleService.GetOriginalURL (storeWorld liveRecord) "abc123"
      exampleAnalytics).world.trace
      = (storeWorld liveRecord).trace ++ [.cacheGet "abc123", .urlGetByShortCode "abc123",
          .cacheSet "abc123" liveRecord.OriginalURL] ∧
    (exampleService.GetOriginalURL (storeWorld liveRecord) "abc123" exampleAnalytics).spawned
      = some ⟨"abc123", exampleAnalytics⟩ :=
  getOriginalURL_from_store exampleService (storeWorld liveRecord) "abc123" exampleAnalytics
    liveRecord (Or.inl ⟨.redisNil, by decide⟩) (by decide)
    (Or.inr ⟨5000000000, rfl, by decide⟩)

/-! ## C6: not found -/

/-- C6: when the cache lookup misses (an error, or an empty value) and the store
reports not-found, `GetOriginalURL` returns the empty string and `ErrURLNotFound`;
the two lookups are its only external calls (no cache write, no click recorded, no
counter incremented), no goroutine is started, and cache and tables are as
before. -/
theorem getOriginalURL_not_found (s : URLService) (w : World) (shortCode : String)
    (analytics : Analytics)
    (hmiss : (∃ e, (RedisCache.Get w shortCode).1 = .error e) ∨
      (RedisCache.Get w shortCode).1 = .ok "")
    (hnotFound :
      (PostgresURLRepository.GetByShortCode (RedisCache.Get w shortCode).2 shortCode).1
        = .error .ErrURLNotFound) :
    (s.GetOriginalURL w shortCode analytics).url = "" ∧
    (s.GetOriginalURL w shortCode analytics).err = some .ErrURLNotFound ∧
    (s.GetOriginalURL w shortCode analytics).world.trace
      = w.trace ++ [.cacheGet shortCode, .urlGetByShortCode shortCode] ∧
    (s.GetOriginalURL w shortCode analytics).spawned = none ∧
    (s.GetOriginalURL w shortCode analytics).world.redis = w.redis ∧
    (s.GetOriginalURL w shortCode analytics).world.urls = w.urls ∧
    (s.GetOriginalURL w shortCode analytics).world.url_analytics = w.url_analytics := by
  rw [redisGet_world] at hnotFound
  rw [getOriginalURL_miss s w shortCode analytics (miss_of_error_or_empty hmiss), hnotFound]
  simp

/-- The witness of C6: the empty world, as in `TestGetOriginalURL_NotFound`. -/
theorem getOriginalURL_not_found_witness :
    (exampleService.GetOriginalURL emptyWorld "notfound" exampleAnalytics).url = "" ∧
    (exampleService.GetOriginalURL emptyWorld "notfound" exampleAnalytics).err
      = some .ErrURLNotFound ∧
    (exampleService.GetOriginalURL emptyWorld "notfound" exampleAnalytics).world.trace
      = emptyWorld.trace ++ [.cacheGet "notfound", .urlGetByShortCode "notfound"] ∧
    (exampleService.GetOriginalURL emptyWorld "notfound" exampleAnalytics).spawned = none ∧
    (exampleService.GetOriginalURL emptyWorld "notfound" exampleAnalytics).world.redis
      = emptyWorld.redis ∧
    (exampleService.GetOriginalURL emptyWorld "notfound" exampleAnalytics).world.urls
      = emptyWorld.urls ∧
    (exampleService.GetOriginalURL emptyWorld "notfound" exampleAnalytics).world.url_analytics
      = emptyWorld.url_analytics :=
  getOriginalURL_not_found exampleService emptyWorld "notfound" exampleAnalytics
    (Or.inl ⟨.redisNil, by decide⟩) (by decide)

/-! ## C7: expired -/

/-- C7: on a cold cache (the lookup is an error or an empty value), for every
record the store returns, `GetOriginalURL` fails with `ErrExpiredURL` exactly when
the record's expiry is non-null and strictly before the current time; when it
does, it returns the empty string, the two lookups are its only external calls (no
cache Set, no RecordClick, no IncrementClickCount), no goroutine is started, and
cache and tables are as before. -/
theorem getOriginalURL_expired_iff (s : URLService) (w : World) (shortCode : String)
    (analytics : Analytics) (rec : URL)
    (hmiss : (∃ e, (RedisCache.Get w shortCode).1 = .error e) ∨
      (RedisCache.Get w shortCode).1 = .ok "")
    (hrec : (PostgresURLRepository.GetByShortCode (RedisCache.Get w shortCode).2 shortCode).1
      = .ok rec) :
    ((s.GetOriginalURL w shortCode analytics).err = some .ErrExpiredURL ↔
      ∃ e, rec.ExpiresAt = some e ∧ e < (w.clock w.ticks).instant) ∧
    ((s.GetOriginalURL w shortCode analytics).err = some .ErrExpiredURL →
      (s.GetOriginalURL w shortCode analytics).url = "" ∧
      (s.GetOriginalURL w shortCode analytics).world.trace
        = w.trace ++ [.cacheGet shortCode, .urlGetByShortCode shortCode] ∧
      (s.GetOriginalURL w shortCode analytics).spawned = none ∧
      (s.GetOriginalURL w shortCode analytics).world.redis = w.redis ∧
      (s.GetOriginalURL w shortCode analytics).world.urls = w.urls ∧
      (s.GetOriginalURL w shortCode analytics).world.url_analytics = w.url_analytics) := by
  rw [redisGet_world] at hrec
  rw [getOriginalURL_miss s w shortCode analytics (miss_of_error_or_empty hmiss), hrec]
  dsimp only
  cases hexp : rec.ExpiresAt with
  | none => simp
  | some e =>
    by_cases hgt : (w.clock w.ticks).instant > e
    · have hlt : e < (w.clock w.ticks).instant := hgt
      simp [hgt, hlt, timeNow]
    · have hlt : ¬ e < (w.clock w.ticks).instant := hgt
      simp [hgt, hlt]

/-- The witness of C7: the record of `TestGetOriginalURL_Expired` is expired, and
the resolution fails with `ErrExpiredURL` after the two lookups. -/
theorem getOriginalURL_expired_iff_witness :
    (exampleService.GetOriginalURL (storeWorld expiredRecord) "expired" exampleAnalytics).err
      = some .ErrExpiredURL ∧
    (exampleService.GetOriginalURL (storeWorld expiredRecord) "expired" exampleAnalytics).url
      = "" ∧
    (exampleService.GetOriginalURL (storeWorld expiredRecord) "expired"
      exampleAnalytics).world.trace
      = (storeWorld expiredRecord).trace ++ [.cacheGet "expired", .urlGetByShortCode "expired"] ∧
    (exampleService.GetOriginalURL (storeWorld expiredRecord) "expired"
      exampleAnalytics).spawned = none :=
  have h := getOriginalURL_expired_iff exampleService (storeWorld expiredRecord) "expired"
    exampleAnalytics expiredRecord (Or.inl ⟨.redisNil, by decide⟩) (by decide)
  have hexpired := h.1.mpr ⟨-3600000000000, rfl, by decide⟩
  ⟨hexpired, (h.2 hexpired).1, (h.2 hexpired).2.1, (h.2 hexpired).2.2.1⟩

/-! ## C8: resolve twice -/

/-- C8, amended: let the first `GetOriginalURL` of a code miss the cache and be
served by the store, with a record `rec` that has not expired; it returns
`rec.OriginalURL`. A second `GetOriginalURL` of the code, in the world the first
left (before or after the click goroutine of the first has run), returns the same
URL and a nil error in each of two cases. Either it is served from the cache
populated by the first call: the cache Set of the first call, external call number
`w.trace.length + 2`, went through, the second cache lookup goes through, the URL
is not empty, and the time to live of the entry has not run out at the second
lookup (`REDIS_TTL` is zero, or it is positive and the server time of the second
lookup is not before that of the write and is before that of the write plus the
time to live). Or it misses the cache again, the store answers its lookup, and the
record's expiry is null or not before the current time of the second call. -/
theorem getOriginalURL_twice (s : URLService) (w : World) (shortCode : String)
    (analytics analytics2 : Analytics) (rec : URL) (w2 : World)
    (hmiss : (∃ e, (RedisCache.Get w shortCode).1 = .error e) ∨
      (RedisCache.Get w shortCode).1 = .ok "")
    (hrec : (PostgresURLRepository.GetByShortCode (RedisCache.Get w shortCode).2 shortCode).1
      = .ok rec)
    (hlive : rec.ExpiresAt = none ∨
      ∃ e, rec.ExpiresAt = some e ∧ (w.clock w.ticks).instant ≤ e)
    (hbetween : w2 = (s.GetOriginalURL w shortCode analytics).world ∨
      w2 = ClickTask.run ⟨shortCode, analytics⟩ (s.GetOriginalURL w shortCode analytics).world)
    (hsecond :
      (w.redisFaults (w.trace.length + 2) = false ∧ w2.redisDown = false ∧
        rec.OriginalURL ≠ "" ∧
        (w.ttl = 0 ∨ (0 < w.ttl ∧
          w.redisClock (w.trace.length + 2) ≤ w2.redisClock w2.trace.length ∧
          w2.redisClock w2.trace.length
            < w.redisClock (w.trace.length + 2) + sentTTL w.ttl))) ∨
      (((∃ e, (RedisCache.Get w2 shortCode).1 = .error e) ∨
          (RedisCache.Get w2 shortCode).1 = .ok "") ∧
        (RedisCache.Get w2 shortCode).2.pgDown = false ∧
        (rec.ExpiresAt = none ∨
          ∃ e, rec.ExpiresAt = some e ∧ (w2.clock w2.ticks).instant ≤ e))) :
    (s.GetOriginalURL w shortCode analytics).url = rec.OriginalURL ∧
    (s.GetOriginalURL w shortCode analytics).err = none ∧
    (s.GetOriginalURL w2 shortCode analytics2).url = rec.OriginalURL ∧
    (s.GetOriginalURL w2 shortCode analytics2).err = none := by
  rw [redisGet_world] at hrec
  obtain ⟨hurl, herr, hurls, _, hrf, _, hredis⟩ :=
    getOriginalURL_miss_live_world s w shortCode analytics rec
      (miss_of_error_or_empty hmiss) hrec hlive
  refine ⟨hurl, herr, ?_⟩
  have hfind : w.urls.find? (fun r => r.ShortCode == shortCode) = some rec :=
    ((getByShortCode_ok_iff _ shortCode rec).mp hrec).2
  -- what the second call finds in the world between the calls
  have hexpires : w2.redisExpires
      = (s.GetOriginalURL w shortCode analytics).world.redisExpires := by
    rcases hbetween with h | h
    · rw [h]
    · rw [h]
      exact (clickTask_run_cache ⟨shortCode, analytics⟩ _).1
  have hw2 : w2.redis = (s.GetOriginalURL w shortCode analytics).world.redis ∧
      ∃ rec', w2.urls.find? (fun r => r.ShortCode == shortCode) = some rec' ∧
        rec'.OriginalURL = rec.OriginalURL ∧ rec'.ExpiresAt = rec.ExpiresAt := by
    rcases hbetween with h | h
    · rw [h, hurls]
      exact ⟨rfl, rec, hfind, rfl, rfl⟩
    · obtain ⟨c1, _, _, _, c5⟩ := clickTask_run_spec ⟨shortCode, analytics⟩
        (s.GetOriginalURL w shortCode analytics).world
      rw [h]
      exact ⟨c1, c5 shortCode rec (by rw [hurls]; exact hfind)⟩
  obtain ⟨h2redis, rec', hfind2, hsameURL, hsameExp⟩ := hw2
  rcases hsecond with ⟨hset, hup2, hne, httl⟩ | ⟨hmiss2, hstore2, hlive2⟩
  · -- served from the cache populated by the first call
    have hlapsed := getOriginalURL_miss_live_not_lapsed s w w2 shortCode analytics rec
      (miss_of_error_or_empty hmiss) hrec hlive hset hexpires
      (httl.imp id (fun h => ⟨h.1, h.2.2⟩))
    have hget := redisGet_head w2 shortCode rec.OriginalURL _ hup2
      (by rw [h2redis]; exact hredis hset) hlapsed
    rw [getOriginalURL_hit s w2 shortCode analytics2 rec.OriginalURL hget hne]
    exact ⟨rfl, rfl⟩
  · -- served again from the store
    rw [redisGet_world] at hstore2
    have hrec2 : (PostgresURLRepository.GetByShortCode (w2.log (.cacheGet shortCode))
        shortCode).1 = .ok rec' :=
      (getByShortCode_ok_iff _ shortCode rec').mpr ⟨hstore2, hfind2⟩
    obtain ⟨hurl2, herr2, _⟩ :=
      getOriginalURL_miss_live_world s w2 shortCode analytics2 rec'
        (miss_of_error_or_empty hmiss2) hrec2 (by rw [hsameExp]; exact hlive2)
    exact ⟨hurl2.trans hsameURL, herr2⟩

/-- The witness of C8: a record that has not expired, resolved from the store and
then, after the click goroutine ran, from the cache, three seconds of the server
clock after the entry was written for an hour. -/
theorem getOriginalURL_twice_witness :
    (exampleService.GetOriginalURL (storeWorld liveRecord) "abc123" exampleAnalytics).url
      = liveRecord.OriginalURL ∧
    (exampleService.GetOriginalURL (storeWorld liveRecord) "abc123" exampleAnalytics).err
      = none ∧
    (exampleService.GetOriginalURL
      (ClickTask.run ⟨"abc123", exampleAnalytics⟩
        (exampleService.GetOriginalURL (storeWorld liveRecord) "abc123" exampleAnalytics).world)
      "abc123" exampleAnalytics).url = liveRecord.OriginalURL ∧
    (exampleService.GetOriginalURL
      (ClickTask.run ⟨"abc123", exampleAnalytics⟩
        (exampleService.GetOriginalURL (storeWorld liveRecord) "abc123" exampleAnalytics).world)
      "abc123" exampleAnalytics).err = none :=
  getOriginalURL_twice exampleService (storeWorld liveRecord) "abc123" exampleAnalytics
    exampleAnalytics liveRecord _ (Or.inl ⟨.redisNil, by decide⟩) (by decide)
    (Or.inr ⟨5000000000, rfl, by decide⟩) (Or.inr rfl)
    (Or.inl ⟨by decide, by decide, by decide, Or.inr ⟨by decide, by decide, by decide⟩⟩)

/-- C8, as stated, fails: with Redis unavailable, a record that expires half a
second after the first reading of the clock is served by the store at that
reading; the second `GetOriginalURL`, one second later and with the store record
unchanged, is served by the store again and returns the empty string and
`ErrExpiredURL`. -/
theorem getOriginalURL_twice_counterexample :
    (exampleService.GetOriginalURL (redisDown (storeWorld briefRecord)) "abc123"
      exampleAnalytics).url = "https://www.example.com" ∧
    (exampleService.GetOriginalURL (redisDown (storeWorld briefRecord)) "abc123"
      exampleAnalytics).err = none ∧
    (exampleService.GetOriginalURL (redisDown (storeWorld briefRecord)) "abc123"
      exampleAnalytics).world.trace
      = [.cacheGet "abc123", .urlGetByShortCode "abc123",
          .cacheSet "abc123" "https://www.example.com"] ∧
    (exampleService.GetOriginalURL (redisDown (storeWorld briefRecord)) "abc123"
      exampleAnalytics).world.urls = [briefRecord] ∧
    (exampleService.GetOriginalURL
      (exampleService.GetOriginalURL (redisDown (storeWorld briefRecord)) "abc123"
        exampleAnalytics).world "abc123" exampleAnalytics).url = "" ∧
    (exampleService.GetOriginalURL
      (exampleService.GetOriginalURL (redisDown (storeWorld briefRecord)) "abc123"
        exampleAnalytics).world "abc123" exampleAnalytics).err = some .ErrExpiredURL := by
  decide

/-- The same failure with a cache that answers every call: the entry the first
resolution wrote (for one second, at second 4 of the server clock) has lapsed at
the lookup of the second (second 6), which is a miss; the store serves the record
again, whose expiry has passed by then. -/
theorem resolve_twice_after_ttl_lapsed :
    (exampleService.GetOriginalURL (shortLived (storeWorld briefRecord)) "abc123"
      exampleAnalytics).url = "https://www.example.com" ∧
    (exampleService.GetOriginalURL (shortLived (storeWorld briefRecord)) "abc123"
      exampleAnalytics).err = none ∧
    (exampleService.GetOriginalURL (shortLived (storeWorld briefRecord)) "abc123"
      exampleAnalytics).world.redis = [("abc123", "https://www.example.com")] ∧
    (exampleService.GetOriginalURL (shortLived (storeWorld briefRecord)) "abc123"
      exampleAnalytics).world.redisExpires = [("abc123", 5 * Second)] ∧
    (RedisCache.Get (exampleService.GetOriginalURL (shortLived (storeWorld briefRecord))
      "abc123" exampleAnalytics).world "abc123").1 = .error .redisNil ∧
    (exampleService.GetOriginalURL
      (exampleService.GetOriginalURL (shortLived (storeWorld briefRecord)) "abc123"
        exampleAnalytics).world "abc123" exampleAnalytics).err = some .ErrExpiredURL := by
  decide

/-! ## C9: delete, then resolve -/

/-- C9, amended: after `DeleteURL` on a code returned nil, a `GetOriginalURL` of
that code in the world the deletion left returns the empty string and
`ErrURLNotFound`, provided the cache Delete of the deletion went through or the
cache held no entry for the code, and provided the store answers the lookup of
the resolution. -/
theorem deleteURL_then_resolve (s : URLService) (w : World) (shortCode : String)
    (analytics : Analytics)
    (hdeleted : (s.DeleteURL w shortCode).1 = none)
    (hinvalidated :
      (RedisCache.Delete (PostgresURLRepository.Delete w shortCode).2 shortCode).1 = none ∨
      w.redis.find? (fun e => e.1 == shortCode) = none)
    (hstore : (RedisCache.Get (s.DeleteURL w shortCode).2 shortCode).2.pgDown = false) :
    (s.GetOriginalURL (s.DeleteURL w shortCode).2 shortCode analytics).url = "" ∧
    (s.GetOriginalURL (s.DeleteURL w shortCode).2 shortCode analytics).err
      = some .ErrURLNotFound := by
  obtain ⟨hpg, hworld⟩ := deleteURL_ok s w shortCode hdeleted
  rw [hworld] at hstore ⊢
  generalize hwd : (PostgresURLRepository.Delete w shortCode).2 = wd at *
  have hwdurls : wd.urls = w.urls.filter (fun r => !(r.ShortCode == shortCode)) := by
    rw [← hwd]
    exact pgDelete_urls w shortCode hpg
  have hwdredis : wd.redis = w.redis := by
    rw [← hwd]
    exact pgDelete_redis w shortCode
  -- the cache has no entry for the code
  have habsent : (RedisCache.Delete wd shortCode).2.redis.find?
      (fun e => e.1 == shortCode) = none := by
    rcases redisDelete_redis wd shortCode with ⟨_, hr⟩ | ⟨hne, hr⟩
    · rw [hr]
      exact find_filter_ne _ _
    · rcases hinvalidated with hok | hnone
      · exact absurd hok hne
      · rw [hr, hwdredis]
        exact hnone
  have hmiss := redisGet_miss_of_absent _ shortCode habsent
  -- the table has no row for the code
  have hnorow : ((RedisCache.Delete wd shortCode).2.log (.cacheGet shortCode)).hasCode shortCode
      = false := by
    unfold World.hasCode
    rw [log_urls, redisDelete_urls, hwdurls, List.any_eq_false]
    intro r hr
    have := (List.mem_filter.mp hr).2
    simpa using this
  rw [redisGet_world] at hstore
  have hnotFound := (getByShortCode_notFound_iff _ shortCode).mpr ⟨hstore, hnorow⟩
  rw [getOriginalURL_miss s _ shortCode analytics hmiss, hnotFound]
  exact ⟨rfl, rfl⟩

/-- The witness of C9: record and cache entry are both deleted. -/
theorem deleteURL_then_resolve_witness :
    (exampleService.GetOriginalURL (exampleService.DeleteURL warmWorld "abc123").2 "abc123"
      exampleAnalytics).url = "" ∧
    (exampleService.GetOriginalURL (exampleService.DeleteURL warmWorld "abc123").2 "abc123"
      exampleAnalytics).err = some .ErrURLNotFound :=
  deleteURL_then_resolve exampleService warmWorld "abc123" exampleAnalytics (by decide)
    (Or.inl (by decide)) (by decide)

/-- C9, as stated, fails: the store holds a record and the cache an entry for the
code, and the cache Delete of `DeleteURL` fails (external call number 1). `DeleteURL`
returns nil all the same, the record is gone from the store, and the
`GetOriginalURL` that follows is served by the entry left in the cache: the
original URL and a nil error, not `ErrURLNotFound`. -/
theorem deleteURL_then_resolve_counterexample :
    (exampleService.DeleteURL (redisFailsAt 1 warmWorld) "abc123").1 = none ∧
    (exampleService.DeleteURL (redisFailsAt 1 warmWorld) "abc123").2.urls = [] ∧
    (exampleService.GetOriginalURL
      (exampleService.DeleteURL (redisFailsAt 1 warmWorld) "abc123").2 "abc123"
      exampleAnalytics).url = "https://www.example.com" ∧
    (exampleService.GetOriginalURL
      (exampleService.DeleteURL (redisFailsAt 1 warmWorld) "abc123").2 "abc123"
      exampleAnalytics).err = none := by
  decide

/-! ## C10: delete goes to the store first -/

/-- C10: `DeleteURL` deletes from the store first. If the store delete fails,
`DeleteURL` returns that same error, the store delete is its only external call
(no cache Delete) and the cache is as before; a store that answers and has no row
for the code fails with `ErrURLNotFound`. If the store delete succeeds, `DeleteURL`
returns nil and its external calls are the store delete followed by exactly one
cache Delete for the code. -/
theorem deleteURL_store_first (s : URLService) (w : World) (shortCode : String) :
    (∀ err, (PostgresURLRepository.Delete w shortCode).1 = some err →
      (s.DeleteURL w shortCode).1 = some err ∧
      (s.DeleteURL w shortCode).2.trace = w.trace ++ [.urlDelete shortCode] ∧
      (s.DeleteURL w shortCode).2.redis = w.redis) ∧
    (w.pgDown = false → w.hasCode shortCode = false →
      (PostgresURLRepository.Delete w shortCode).1 = some .ErrURLNotFound) ∧
    ((PostgresURLRepository.Delete w shortCode).1 = none →
      (s.DeleteURL w shortCode).1 = none ∧
      (s.DeleteURL w shortCode).2.trace
        = w.trace ++ [.urlDelete shortCode, .cacheDelete shortCode]) := by
  have ht := pgDelete_trace w shortCode
  have hr := pgDelete_redis w shortCode
  refine ⟨?_, ?_, ?_⟩
  · intro err herr
    unfold URLService.DeleteURL
    rcases hd : PostgresURLRepository.Delete w shortCode with ⟨res, w1⟩
    rw [hd] at herr ht hr
    simp only at herr ht hr
    subst herr
    exact ⟨rfl, ht, hr⟩
  · intro hup hno
    unfold PostgresURLRepository.Delete
    simp [hup, hno]
  · intro hok
    unfold URLService.DeleteURL
    rcases hd : PostgresURLRepository.Delete w shortCode with ⟨res, w1⟩
    rw [hd] at hok ht
    simp only at hok ht
    subst hok
    refine ⟨rfl, ?_⟩
    show (RedisCache.Delete w1 shortCode).2.trace = _
    rw [redisDelete_trace, ht]
    simp

/-- The witness of C10: a code without a row, and a code with a row. -/
theorem deleteURL_store_first_witness :
    ((exampleService.DeleteURL emptyWorld "missing").1 = some .ErrURLNotFound ∧
      (exampleService.DeleteURL emptyWorld "missing").2.trace
        = emptyWorld.trace ++ [.urlDelete "missing"] ∧
      (exampleService.DeleteURL emptyWorld "missing").2.redis = emptyWorld.redis) ∧
    ((exampleService.DeleteURL (storeWorld liveRecord) "abc123").1 = none ∧
      (exampleService.DeleteURL (storeWorld liveRecord) "abc123").2.trace
        = (storeWorld liveRecord).trace ++ [.urlDelete "abc123", .cacheDelete "abc123"]) :=
  ⟨(deleteURL_store_first exampleService emptyWorld "missing").1 .ErrURLNotFound (by decide),
    (deleteURL_store_first exampleService (storeWorld liveRecord) "abc123").2.2 (by decide)⟩

/-! ## Lemmas: worlds that differ at most in the cache -/

theorem sameButCache_log {w w' : World} (h : w.sameButCache w') (c : Call) :
    (w.log c).sameButCache (w'.log c) := by
  obtain ⟨h1, h2, h3, h4, h5, h6, h7⟩ := h
  exact ⟨h1, h2, h3, h4, h5, h6, by show w.trace ++ [c] = w'.trace ++ [c]; rw [h7]⟩

theorem sameButCache_pgDown {w w' : World} (h : w.sameButCache w') : w.pgDown = w'.pgDown := by
  obtain ⟨_, _, _, _, _, h6, h7⟩ := h
  unfold World.pgDown
  rw [h6, h7]

theorem sameButCache_timeNow {w w' : World} (h : w.sameButCache w') :
    (timeNow w).1 = (timeNow w').1 ∧ (timeNow w).2.sameButCache (timeNow w').2 := by
  obtain ⟨h1, h2, h3, h4, h5, h6, h7⟩ := h
  refine ⟨?_, h1, h2, h3, h4, ?_, h6, h7⟩
  · show w.clock w.ticks = w'.clock w'.ticks
    rw [h4, h5]
  · show w.ticks + 1 = w'.ticks + 1
    rw [h5]

/-- A store lookup does not look at the cache. -/
theorem sameButCache_getByShortCode {w w' : World} (h : w.sameButCache w')
    (shortCode : String) :
    (PostgresURLRepository.GetByShortCode w shortCode).1
      = (PostgresURLRepository.GetByShortCode w' shortCode).1 ∧
    (PostgresURLRepository.GetByShortCode w shortCode).2.sameButCache
      (PostgresURLRepository.GetByShortCode w' shortCode).2 := by
  refine ⟨?_, ?_⟩
  · unfold PostgresURLRepository.GetByShortCode
    rw [sameButCache_pgDown h, h.1, h.2.2.2.2.2.2]
    split
    · rfl
    · split <;> rfl
  · rw [getByShortCode_world, getByShortCode_world]
    exact sameButCache_log h _

/-- An `INSERT` does not look at the cache. -/
theorem sameButCache_create {w w' : World} (h : w.sameButCache w') (url : URL) :
    (PostgresURLRepository.Create w url).1 = (PostgresURLRepository.Create w' url).1 ∧
    (PostgresURLRepository.Create w url).2.1 = (PostgresURLRepository.Create w' url).2.1 ∧
    (PostgresURLRepository.Create w url).2.2.sameButCache
      (PostgresURLRepository.Create w' url).2.2 := by
  have hd := sameButCache_pgDown h
  obtain ⟨h1, h2, h3, h4, h5, h6, h7⟩ := h
  unfold PostgresURLRepository.Create urlsInsert World.hasCode World.log World.sameButCache
  simp only [hd, h1, h3, h7]
  cases w'.pgDown
  · cases w'.urls.any (fun r => r.ShortCode == url.ShortCode)
    · simp [h2, h4, h5, h6]
    · simp [h1, h2, h3, h4, h5, h6]
  · simp [h1, h2, h3, h4, h5, h6]

/-- A store delete does not look at the cache. -/
theorem sameButCache_pgDelete {w w' : World} (h : w.sameButCache w') (shortCode : String) :
    (PostgresURLRepository.Delete w shortCode).1 = (PostgresURLRepository.Delete w' shortCode).1 ∧
    (PostgresURLRepository.Delete w shortCode).2.sameButCache
      (PostgresURLRepository.Delete w' shortCode).2 := by
  have hd := sameButCache_pgDown h
  obtain ⟨h1, h2, h3, h4, h5, h6, h7⟩ := h
  unfold PostgresURLRepository.Delete World.hasCode World.log World.sameButCache
  simp only [hd, h1, h7]
  cases w'.pgDown
  · cases w'.urls.any (fun r => r.ShortCode == shortCode)
    · simp [h1, h2, h3, h4, h5, h6]
    · simp [h2, h3, h4, h5, h6]
  · simp [h1, h2, h3, h4, h5, h6]

/-- Whatever a cache write does, it leaves worlds that differ at most in the
cache. -/
theorem sameButCache_redisSet {w w' : World} (h : w.sameButCache w') (key value : String) :
    (RedisCache.Set w key value).2.sameButCache (RedisCache.Set w' key value).2 := by
  obtain ⟨h1, h2, h3, h4, h5, h6, h7⟩ := h
  unfold RedisCache.Set World.log
  cases w.redisDown <;> cases w'.redisDown <;>
    exact ⟨h1, h2, h3, h4, h5, h6, by show w.trace ++ _ = w'.trace ++ _; rw [h7]⟩

/-- Whatever a cache delete does, it leaves worlds that differ at most in the
cache. -/
theorem sameButCache_redisDelete {w w' : World} (h : w.sameButCache w') (key : String) :
    (RedisCache.Delete w key).2.sameButCache (RedisCache.Delete w' key).2 := by
  obtain ⟨h1, h2, h3, h4, h5, h6, h7⟩ := h
  unfold RedisCache.Delete World.log
  cases w.redisDown <;> cases w'.redisDown <;>
    exact ⟨h1, h2, h3, h4, h5, h6, by show w.trace ++ _ = w'.trace ++ _; rw [h7]⟩

/-- The generator does not look at the cache. -/
theorem sameButCache_generateShortCode (s : URLService) {w w' : World}
    (h : w.sameButCache w') (originalURL : String) :
    (s.generateShortCode w originalURL).1 = (s.generateShortCode w' originalURL).1 ∧
    (s.generateShortCode w originalURL).2.sameButCache (s.generateShortCode w' originalURL).2 :=
  ⟨generateShortCode_congr s w w' originalURL h.2.2.2.1 h.2.2.2.2.1, (sameButCache_timeNow h).2⟩

/-- Two calls that end the same way, case by case. -/
theorem sameButCache_cases {α : Type} {o o' : Outcome α} (h : o.sameButCache o') :
    (∃ v x x', o = .returned v x ∧ o' = .returned v x' ∧ x.sameButCache x') ∨
    (o = .panic ∧ o' = .panic) ∨ (o = .timeout ∧ o' = .timeout) := by
  cases o with
  | returned v x =>
    cases o' with
    | returned v' x' =>
      obtain ⟨hv, hx⟩ : v = v' ∧ x.sameButCache x' := h
      subst hv
      exact Or.inl ⟨v, x, x', rfl, rfl, hx⟩
    | panic => exact False.elim h
    | timeout => exact False.elim h
  | panic =>
    cases o' with
    | returned v' x' => exact False.elim h
    | panic => exact Or.inr (Or.inl ⟨rfl, rfl⟩)
    | timeout => exact False.elim h
  | timeout =>
    cases o' with
    | returned v' x' => exact False.elim h
    | panic => exact False.elim h
    | timeout => exact Or.inr (Or.inr ⟨rfl, rfl⟩)

/-- The collision loop does not look at the cache. -/
theorem sameButCache_probeLoop (s : URLService) (originalURL : String) :
    ∀ (fuel : Nat) (w w' : World), w.sameButCache w' → ∀ c : String,
      (s.probeLoop originalURL fuel w c).sameButCache (s.probeLoop originalURL fuel w' c) := by
  intro fuel
  induction fuel with
  | zero =>
    intro w w' _ c
    unfold URLService.probeLoop
    trivial
  | succ fuel ih =>
    intro w w' h c
    obtain ⟨hv, _⟩ := sameButCache_getByShortCode h c
    have hlog := sameButCache_log h (.urlGetByShortCode c)
    unfold URLService.probeLoop
    rw [getByShortCode_eq w c, getByShortCode_eq w' c, hv]
    cases (PostgresURLRepository.GetByShortCode w' c).1 with
    | error e => exact ⟨rfl, hlog⟩
    | ok url =>
      simp only
      obtain ⟨hnow, hticked⟩ := sameButCache_timeNow hlog
      obtain ⟨hg, hgw⟩ := sameButCache_generateShortCode s hticked
        (originalURL ++ (timeNow (w'.log (.urlGetByShortCode c))).1.text)
      rw [generateShortCode_eq s (timeNow (w.log (.urlGetByShortCode c))).2,
        generateShortCode_eq s (timeNow (w'.log (.urlGetByShortCode c))).2, hnow, hg]
      cases (s.generateShortCode (timeNow (w'.log (.urlGetByShortCode c))).2
        (originalURL ++ (timeNow (w'.log (.urlGetByShortCode c))).1.text)).1 with
      | none => trivial
      | some next => exact ih _ _ hgw next

/-- The choice of the short code does not look at the cache. -/
theorem sameButCache_chooseCode (s : URLService) (fuel : Nat) {w w' : World}
    (h : w.sameButCache w') (req : CreateURLRequest) :
    (s.chooseCode fuel w req).sameButCache (s.chooseCode fuel w' req) := by
  unfold URLService.chooseCode
  by_cases hcustom : (req.CustomCode != "") = true
  · obtain ⟨hv, _⟩ := sameButCache_getByShortCode h req.CustomCode
    have hlog := sameButCache_log h (.urlGetByShortCode req.CustomCode)
    rw [if_pos hcustom, if_pos hcustom, getByShortCode_eq w, getByShortCode_eq w', hv]
    cases (PostgresURLRepository.GetByShortCode w' req.CustomCode).1 with
    | error e => exact ⟨rfl, hlog⟩
    | ok url => exact ⟨rfl, hlog⟩
  · obtain ⟨hg, hgw⟩ := sameButCache_generateShortCode s h req.OriginalURL
    rw [if_neg hcustom, if_neg hcustom]
    rcases hgen : s.generateShortCode w req.OriginalURL with ⟨c1, x1⟩
    rcases hgen' : s.generateShortCode w' req.OriginalURL with ⟨c2, x2⟩
    rw [hgen, hgen'] at hg hgw
    simp only at hg hgw
    subst hg
    cases c1 with
    | none => trivial
    | some c =>
      simp only
      rcases sameButCache_cases (sameButCache_probeLoop s req.OriginalURL fuel _ _ hgw c)
        with ⟨v, y, y', ho, ho', hy⟩ | ⟨ho, ho'⟩ | ⟨ho, ho'⟩
      · rw [ho, ho']
        exact ⟨rfl, hy⟩
      · rw [ho, ho']
        trivial
      · rw [ho, ho']
        trivial

/-- The expiry of a request without `ExpiresIn`. -/
theorem expiry_none (w : World) : URLService.expiry w none = (none, w) := rfl

/-- The expiry of a request whose `ExpiresIn` is not positive. -/
theorem expiry_nonpos (w : World) (e : Int) (h : ¬ e > 0) :
    URLService.expiry w (some e) = (none, w) := by
  show (if e > 0 then _ else _) = _
  rw [if_neg h]

/-- The expiry of a request whose `ExpiresIn` is positive: one reading of the
clock, plus the wrapped product. -/
theorem expiry_pos (w : World) (e : Int) (h : e > 0) :
    URLService.expiry w (some e)
      = (some ((w.clock w.ticks).instant + toInt64 (e * Second)),
          { w with ticks := w.ticks + 1 }) := by
  show (if e > 0 then _ else _) = _
  rw [if_pos h]

/-- The expiry does not look at the cache. -/
theorem sameButCache_expiry {w w' : World} (h : w.sameButCache w') (expiresIn : Option Int) :
    (URLService.expiry w expiresIn).1 = (URLService.expiry w' expiresIn).1 ∧
    (URLService.expiry w expiresIn).2.sameButCache (URLService.expiry w' expiresIn).2 := by
  obtain ⟨hnow, hticked⟩ := sameButCache_timeNow h
  cases expiresIn with
  | none => exact ⟨rfl, h⟩
  | some e =>
    by_cases hpos : e > 0
    · rw [expiry_pos w e hpos, expiry_pos w' e hpos]
      have hnow' : w.clock w.ticks = w'.clock w'.ticks := hnow
      exact ⟨by rw [hnow'], hticked⟩
    · rw [expiry_nonpos w e hpos, expiry_nonpos w' e hpos]
      exact ⟨rfl, h⟩

/-- The entity handed to the store does not depend on the cache. -/
theorem sameButCache_newEntity {w w' : World} (h : w.sameButCache w') (req : CreateURLRequest)
    (shortCode : String) :
    (URLService.newEntity w req shortCode).1 = (URLService.newEntity w' req shortCode).1 ∧
    (URLService.newEntity w req shortCode).2.1 = (URLService.newEntity w' req shortCode).2.1 ∧
    (URLService.newEntity w req shortCode).2.2.sameButCache
      (URLService.newEntity w' req shortCode).2.2 := by
  obtain ⟨he, hew⟩ := sameButCache_expiry h req.ExpiresIn
  obtain ⟨hc, hcw⟩ := sameButCache_timeNow hew
  obtain ⟨hu, huw⟩ := sameButCache_timeNow hcw
  refine ⟨he, ?_, huw⟩
  show URL.mk 0 shortCode req.OriginalURL
      (timeNow (URLService.expiry w req.ExpiresIn).2).1.instant
      (timeNow (timeNow (URLService.expiry w req.ExpiresIn).2).2).1.instant
      (URLService.expiry w req.ExpiresIn).1 0 req.Metadata
    = URL.mk 0 shortCode req.OriginalURL
      (timeNow (URLService.expiry w' req.ExpiresIn).2).1.instant
      (timeNow (timeNow (URLService.expiry w' req.ExpiresIn).2).2).1.instant
      (URLService.expiry w' req.ExpiresIn).1 0 req.Metadata
  rw [he, hc, hu]

/-- Lines 97 to 114 of `CreateShortURL`, by what the store's create returns. -/
theorem persist_eq (s : URLService) (w : World) (req : CreateURLRequest) (shortCode : String) :
    s.persist w req shortCode =
      match (PostgresURLRepository.Create (URLService.newEntity w req shortCode).2.2
          (URLService.newEntity w req shortCode).2.1).1 with
      | some err =>
        ((none, some err),
          (PostgresURLRepository.Create (URLService.newEntity w req shortCode).2.2
            (URLService.newEntity w req shortCode).2.1).2.2)
      | none =>
        ((some { ShortCode := shortCode, ShortURL := s.baseURL ++ "/" ++ shortCode,
                 OriginalURL := req.OriginalURL,
                 CreatedAt := (PostgresURLRepository.Create
                   (URLService.newEntity w req shortCode).2.2
                   (URLService.newEntity w req shortCode).2.1).2.1.CreatedAt,
                 ExpiresAt := (URLService.newEntity w req shortCode).1,
                 Metadata := req.Metadata }, none),
          (RedisCache.Set (PostgresURLRepository.Create
            (URLService.newEntity w req shortCode).2.2
            (URLService.newEntity w req shortCode).2.1).2.2 shortCode req.OriginalURL).2) := by
  unfold URLService.persist
  rcases hn : URLService.newEntity w req shortCode with ⟨expiresAt, urlEntity, w3⟩
  simp only
  rcases hc : PostgresURLRepository.Create w3 urlEntity with ⟨err, created, w4⟩
  cases err <;> rfl

/-- The creation of the record does not look at the cache, and whatever the cache
write does, the answer is the same. -/
theorem sameButCache_persist (s : URLService) {w w' : World} (h : w.sameButCache w')
    (req : CreateURLRequest) (shortCode : String) :
    (s.persist w req shortCode).1 = (s.persist w' req shortCode).1 ∧
    (s.persist w req shortCode).2.sameButCache (s.persist w' req shortCode).2 := by
  obtain ⟨h1, h2, h3⟩ := sameButCache_newEntity h req shortCode
  obtain ⟨c1, c2, c3⟩ := sameButCache_create h3 (URLService.newEntity w' req shortCode).2.1
  rw [persist_eq s w, persist_eq s w', h1, h2, c1, c2]
  cases (PostgresURLRepository.Create (URLService.newEntity w' req shortCode).2.2
    (URLService.newEntity w' req shortCode).2.1).1 with
  | some err => exact ⟨rfl, c3⟩
  | none => exact ⟨rfl, sameButCache_redisSet c3 _ _⟩

/-- The creation of a short URL does not look at the cache, and whatever the cache
write does, the answer is the same. -/
theorem sameButCache_createShortURL (s : URLService) (fuel : Nat) {w w' : World}
    (h : w.sameButCache w') (req : CreateURLRequest) :
    (s.CreateShortURL fuel w req).sameButCache (s.CreateShortURL fuel w' req) := by
  unfold URLService.CreateShortURL
  cases s.isValidURL req.OriginalURL with
  | false => exact ⟨rfl, h⟩
  | true =>
    simp only [Bool.not_true, Bool.false_eq_true, if_false]
    rcases sameButCache_cases (sameButCache_chooseCode s fuel h req)
      with ⟨v, x, x', ho, ho', hx⟩ | ⟨ho, ho'⟩ | ⟨ho, ho'⟩
    · rw [ho, ho']
      cases v with
      | error err => exact ⟨rfl, hx⟩
      | ok shortCode =>
        obtain ⟨p1, p2⟩ := sameButCache_persist s hx req shortCode
        exact ⟨p1, p2⟩
    · rw [ho, ho']
      trivial
    · rw [ho, ho']
      trivial

/-- The deletion does not look at the cache, and whatever the cache delete does,
the answer is the same. -/
theorem sameButCache_deleteURL (s : URLService) {w w' : World} (h : w.sameButCache w')
    (shortCode : String) :
    (s.DeleteURL w shortCode).1 = (s.DeleteURL w' shortCode).1 ∧
    (s.DeleteURL w shortCode).2.sameButCache (s.DeleteURL w' shortCode).2 := by
  obtain ⟨hv, hw⟩ := sameButCache_pgDelete h shortCode
  unfold URLService.DeleteURL
  rcases hd : PostgresURLRepository.Delete w shortCode with ⟨res, w1⟩
  rcases hd' : PostgresURLRepository.Delete w' shortCode with ⟨res', w1'⟩
  rw [hd, hd'] at hv hw
  simp only at hv hw
  subst hv
  cases res with
  | some err => exact ⟨rfl, hw⟩
  | none => exact ⟨rfl, sameButCache_redisDelete hw shortCode⟩

/-- A resolution that misses the cache is decided by the store alone. -/
theorem sameButCache_getOriginalURL_miss (s : URLService) {w w' : World}
    (h : w.sameButCache w') (shortCode : String) (analytics : Analytics)
    (hmiss : ∀ v, (RedisCache.Get w shortCode).1 = .ok v → v = "")
    (hmiss' : ∀ v, (RedisCache.Get w' shortCode).1 = .ok v → v = "") :
    (s.GetOriginalURL w shortCode analytics).url
      = (s.GetOriginalURL w' shortCode analytics).url ∧
    (s.GetOriginalURL w shortCode analytics).err
      = (s.GetOriginalURL w' shortCode analytics).err ∧
    (s.GetOriginalURL w shortCode analytics).spawned
      = (s.GetOriginalURL w' shortCode analytics).spawned ∧
    (s.GetOriginalURL w shortCode analytics).world.sameButCache
      (s.GetOriginalURL w' shortCode analytics).world := by
  have hlog := sameButCache_log h (.cacheGet shortCode)
  obtain ⟨hv, _⟩ := sameButCache_getByShortCode hlog shortCode
  have hlog2 := sameButCache_log hlog (.urlGetByShortCode shortCode)
  have hnow : w.clock w.ticks = w'.clock w'.ticks := (sameButCache_timeNow h).1
  rw [getOriginalURL_miss s w shortCode analytics hmiss,
    getOriginalURL_miss s w' shortCode analytics hmiss', hv, hnow]
  cases (PostgresURLRepository.GetByShortCode (w'.log (.cacheGet shortCode)) shortCode).1 with
  | error err => exact ⟨rfl, rfl, rfl, hlog2⟩
  | ok urlEntity =>
    dsimp only
    cases urlEntity.ExpiresAt with
    | none => exact ⟨rfl, rfl, rfl, sameButCache_redisSet hlog2 _ _⟩
    | some e =>
      dsimp only
      by_cases hgt : (w'.clock w'.ticks).instant > e
      · rw [if_pos hgt, if_pos hgt]
        exact ⟨rfl, rfl, rfl, (sameButCache_timeNow hlog2).2⟩
      · rw [if_neg hgt, if_neg hgt]
        exact ⟨rfl, rfl, rfl, sameButCache_redisSet (sameButCache_timeNow hlog2).2 _ _⟩

/-! ## C11: cache failures are not fatal -/

/-- C11: let the worlds `w` and `w'` differ at most in the cache (in the Redis
keyspace with its deadlines, server clock and time to live, and in which calls to
Redis fail, so that every cache Set and Delete may succeed in the one and fail in
the other). Then `CreateShortURL` ends the same way
in both, with the same response and error and the same store; `DeleteURL` returns
the same error and leaves the same store; and `GetOriginalURL` returns the same
URL and error, starts the same goroutine and leaves the same store whenever its
cache lookup returns the same in both worlds or is, in each world, an error or an
empty value: a lookup that fails gives what a lookup that misses gives. -/
theorem cache_failures_not_fatal (s : URLService) (fuel : Nat) (w w' : World)
    (req : CreateURLRequest) (shortCode : String) (analytics : Analytics)
    (hsame : w.sameButCache w') :
    (s.CreateShortURL fuel w req).sameButCache (s.CreateShortURL fuel w' req) ∧
    ((s.DeleteURL w shortCode).1 = (s.DeleteURL w' shortCode).1 ∧
      (s.DeleteURL w shortCode).2.sameButCache (s.DeleteURL w' shortCode).2) ∧
    (((RedisCache.Get w shortCode).1 = (RedisCache.Get w' shortCode).1 ∨
        (((∃ e, (RedisCache.Get w shortCode).1 = .error e) ∨
            (RedisCache.Get w shortCode).1 = .ok "") ∧
          ((∃ e, (RedisCache.Get w' shortCode).1 = .error e) ∨
            (RedisCache.Get w' shortCode).1 = .ok ""))) →
      (s.GetOriginalURL w shortCode analytics).url
        = (s.GetOriginalURL w' shortCode analytics).url ∧
      (s.GetOriginalURL w shortCode analytics).err
        = (s.GetOriginalURL w' shortCode analytics).err ∧
      (s.GetOriginalURL w shortCode analytics).spawned
        = (s.GetOriginalURL w' shortCode analytics).spawned ∧
      (s.GetOriginalURL w shortCode analytics).world.sameButCache
        (s.GetOriginalURL w' shortCode analytics).world) := by
  refine ⟨sameButCache_createShortURL s fuel hsame req, sameButCache_deleteURL s hsame shortCode,
    ?_⟩
  rintro (heq | ⟨hmiss, hmiss'⟩)
  · cases hres : (RedisCache.Get w' shortCode).1 with
    | error e =>
      rw [hres] at heq
      exact sameButCache_getOriginalURL_miss s hsame shortCode analytics
        (miss_of_error_or_empty (Or.inl ⟨e, heq⟩)) (miss_of_error_or_empty (Or.inl ⟨e, hres⟩))
    | ok v =>
      rw [hres] at heq
      by_cases hv : v = ""
      · subst hv
        exact sameButCache_getOriginalURL_miss s hsame shortCode analytics
          (miss_of_error_or_empty (Or.inr heq)) (miss_of_error_or_empty (Or.inr hres))
      · rw [getOriginalURL_hit s w shortCode analytics v heq hv,
          getOriginalURL_hit s w' shortCode analytics v hres hv]
        exact ⟨rfl, rfl, rfl, sameButCache_log hsame _⟩
  · exact sameButCache_getOriginalURL_miss s hsame shortCode analytics
      (miss_of_error_or_empty hmiss) (miss_of_error_or_empty hmiss')

/-- The witness of C11: a store with one record, with Redis answering and with
Redis unavailable; the lookup misses in the one world and fails in the other. -/
theorem cache_failures_not_fatal_witness :
    (exampleService.CreateShortURL 1 (storeWorld liveRecord) (exampleRequest (some 1))).sameButCache
      (exampleService.CreateShortURL 1 (redisDown (storeWorld liveRecord))
        (exampleRequest (some 1))) ∧
    ((exampleService.DeleteURL (storeWorld liveRecord) "abc123").1
        = (exampleService.DeleteURL (redisDown (storeWorld liveRecord)) "abc123").1 ∧
      (exampleService.DeleteURL (storeWorld liveRecord) "abc123").2.sameButCache
        (exampleService.DeleteURL (redisDown (storeWorld liveRecord)) "abc123").2) ∧
    ((exampleService.GetOriginalURL (storeWorld liveRecord) "abc123" exampleAnalytics).url
        = (exampleService.GetOriginalURL (redisDown (storeWorld liveRecord)) "abc123"
            exampleAnalytics).url ∧
      (exampleService.GetOriginalURL (storeWorld liveRecord) "abc123" exampleAnalytics).err
        = (exampleService.GetOriginalURL (redisDown (storeWorld liveRecord)) "abc123"
            exampleAnalytics).err ∧
      (exampleService.GetOriginalURL (storeWorld liveRecord) "abc123" exampleAnalytics).spawned
        = (exampleService.GetOriginalURL (redisDown (storeWorld liveRecord)) "abc123"
            exampleAnalytics).spawned ∧
      (exampleService.GetOriginalURL (storeWorld liveRecord) "abc123"
          exampleAnalytics).world.sameButCache
        (exampleService.GetOriginalURL (redisDown (storeWorld liveRecord)) "abc123"
          exampleAnalytics).world) :=
  have h := cache_failures_not_fatal exampleService 1 (storeWorld liveRecord)
    (redisDown (storeWorld liveRecord)) (exampleRequest (some 1)) "abc123" exampleAnalytics
    ⟨rfl, rfl, rfl, rfl, rfl, rfl, rfl⟩
  ⟨h.1, h.2.1, h.2.2 (Or.inr ⟨Or.inl ⟨.redisNil, by decide⟩, Or.inl ⟨.unavailable 0, by decide⟩⟩)⟩

/-! ## C12: the expiry of a new record -/

/-- The wrap into `int64` leaves the values of the `int64` range as they are. -/
theorem toInt64_of_range (n : Int) (hlo : -(2 ^ 63) ≤ n) (hhi : n < 2 ^ 63) : toInt64 n = n := by
  unfold toInt64
  rw [Int.emod_eq_of_lt (by omega) (by omega)]
  omega

/-- The part of C12 that holds: the expiry is absent when `ExpiresIn` is absent or
not positive, and it is the reading of the clock plus `ExpiresIn` seconds when
`ExpiresIn` is positive and at most 9223372036 (the seconds that fit an `int64` of
nanoseconds). -/
theorem expiry_in_range (w : World) :
    (URLService.expiry w none).1 = none ∧
    (∀ e : Int, e ≤ 0 → (URLService.expiry w (some e)).1 = none) ∧
    (∀ e : Int, 0 < e → e ≤ 9223372036 →
      (URLService.expiry w (some e)).1 = some ((w.clock w.ticks).instant + e * Second)) := by
  refine ⟨rfl, ?_, ?_⟩
  · intro e he
    rw [expiry_nonpos w e (by omega)]
  · intro e hpos hmax
    rw [expiry_pos w e hpos]
    have hr : toInt64 (e * Second) = e * Second := by
      apply toInt64_of_range <;> unfold Second <;> omega
    simp only [hr]

/-- C12, at the failing input: a request with `ExpiresIn = 9223372037` seconds,
created in the empty world. The product with `time.Second` wraps, so the expiry of
the response and of the persisted record is the reading of the clock (second 1)
minus 9223372036709551616 nanoseconds: not that reading plus 9223372037 seconds,
and earlier than the creation time (second 2). -/
theorem createShortURL_expiry_overflow :
    ∃ (resp : CreateURLResponse) (w' : World),
      exampleService.CreateShortURL 1 emptyWorld (exampleRequest (some 9223372037))
        = .returned (some resp, none) w' ∧
      resp.ExpiresAt = some (1 * Second - 9223372036709551616) ∧
      resp.ExpiresAt ≠ some (1 * Second + 9223372037 * Second) ∧
      resp.CreatedAt = 2 * Second ∧
      w'.urls.map (fun r => r.ExpiresAt) = [resp.ExpiresAt] ∧
      (exampleService.GetOriginalURL (redisDown w') resp.ShortCode exampleAnalytics).err
        = some .ErrExpiredURL :=
  ⟨_, _, rfl, by decide, by decide, by decide, by decide, by decide⟩

/-! ## C13: the generated code -/

/-- A 6-bit value is encoded by a character of the alphabet. -/
theorem encodeChar_mem : ∀ v, v < 64 → encodeChar v ∈ encodeURL := by
  decide

/-- The alphabet is `A`–`Z`, `a`–`z`, `0`–`9`, `-` and `_`. -/
theorem encodeURL_chars : ∀ ch ∈ encodeURL, ch.isAlphanum = true ∨ ch = '-' ∨ ch = '_' := by
  decide

/-- The padding character is not in the alphabet. -/
theorem pad_not_mem_encodeURL : '=' ∉ encodeURL := by
  decide

/-- The first 7 characters of the encoding of 6 bytes or more are characters of
the alphabet. -/
theorem take_encodeChars_mem (bytes : List Nat) (hlen : 6 ≤ bytes.length)
    (hbytes : ∀ b ∈ bytes, b < 256) :
    ∀ ch ∈ (encodeChars bytes).take 7, ch ∈ encodeURL := by
  match bytes, hlen, hbytes with
  | b0 :: b1 :: b2 :: b3 :: b4 :: b5 :: rest, _, hbytes =>
    have h0 : b0 < 256 := hbytes b0 (by simp)
    have h1 : b1 < 256 := hbytes b1 (by simp)
    have h2 : b2 < 256 := hbytes b2 (by simp)
    have h3 : b3 < 256 := hbytes b3 (by simp)
    have h4 : b4 < 256 := hbytes b4 (by simp)
    have h5 : b5 < 256 := hbytes b5 (by simp)
    intro ch hch
    simp only [encodeChars, List.take_succ_cons, List.take_zero, List.mem_cons,
      List.mem_nil_iff, or_false] at hch
    rcases hch with h | h | h | h | h | h | h <;> subst h <;> apply encodeChar_mem <;> omega

/-- C13: for every seed and every reading of the clock, `generateShortCode` does
not panic (the slice `encoded[:7]` is in range: the encoding of the 32 bytes of
the digest has 44 characters) and returns a string of exactly 7 characters, each a
character of the URL-safe alphabet (`A`–`Z`, `a`–`z`, `0`–`9`, `-`, `_`) and none
the padding character `=`; the string is the first 7 characters of the URL-safe
base64 encoding of the digest of the seed followed by the text of the reading. -/
theorem generateShortCode_code (s : URLService) (w : World) (seed : String) :
    ∃ code : String,
      (s.generateShortCode w seed).1 = some code ∧
      code.length = 7 ∧
      (∀ ch ∈ code.data, ch ∈ encodeURL) ∧
      (∀ ch ∈ code.data, ch.isAlphanum = true ∨ ch = '-' ∨ ch = '_') ∧
      (∀ ch ∈ code.data, ch ≠ '=') ∧
      code.data
        = (EncodeToString (s.lib.Sum256 (seed ++ (w.clock w.ticks).text)).bytes).data.take 7 ∧
      (s.lib.Sum256 (seed ++ (w.clock w.ticks).text)).bytes.length = 32 ∧
      7 ≤ (EncodeToString (s.lib.Sum256 (seed ++ (w.clock w.ticks).text)).bytes).length := by
  have hlen := encodeToString_digest_length (s.lib.Sum256 (seed ++ (w.clock w.ticks).text))
  have hmem := take_encodeChars_mem (s.lib.Sum256 (seed ++ (w.clock w.ticks).text)).bytes
    (by rw [(s.lib.Sum256 _).size_eq]; decide) (s.lib.Sum256 _).byte_lt
  refine ⟨String.mk ((EncodeToString
    (s.lib.Sum256 (seed ++ (w.clock w.ticks).text)).bytes).data.take 7), ?_, ?_, hmem, ?_, ?_,
    rfl, (s.lib.Sum256 _).size_eq, by rw [hlen]; decide⟩
  · unfold URLService.generateShortCode timeNow sliceTo
    simp only [hlen]
    simp
  · show (List.take 7 _).length = 7
    rw [List.length_take]
    have : (EncodeToString (s.lib.Sum256 (seed ++ (w.clock w.ticks).text)).bytes).data.length
        = 44 := hlen
    omega
  · intro ch hch
    exact encodeURL_chars ch (hmem ch hch)
  · intro ch hch heq
    exact pad_not_mem_encodeURL (heq ▸ hmem ch hch)

/-- The witness of C13: the first code of the example generator for the URL of the
tests, at reading 0 of the example clock. -/
theorem generateShortCode_code_witness :
    (exampleService.generateShortCode emptyWorld "https://www.example.com").1
      = some "FxcXFxc" ∧
    ∃ code : String,
      (exampleService.generateShortCode emptyWorld "https://www.example.com").1 = some code ∧
      code.length = 7 ∧ (∀ ch ∈ code.data, ch ∈ encodeURL) ∧ (∀ ch ∈ code.data, ch ≠ '=') :=
  ⟨by decide,
    (generateShortCode_code exampleService emptyWorld "https://www.example.com").imp
      (fun _ h => ⟨h.1, h.2.1, h.2.2.1, h.2.2.2.2.1⟩)⟩

/-! ## C14: collision retry -/

/-- The external calls of the collision loop are its probes: when the loop
returns, the trace has grown by the lookups of a list of codes that starts with
the code the loop was entered with and ends with the code it returns. -/
theorem probeLoop_trace (s : URLService) (originalURL : String) :
    ∀ (fuel : Nat) (x : World) (c r : String) (x' : World),
      s.probeLoop originalURL fuel x c = .returned r x' →
      ∃ codes : List String, codes.head? = some c ∧ codes.getLast? = some r ∧
        x'.trace = x.trace ++ codes.map Call.urlGetByShortCode := by
  intro fuel
  induction fuel with
  | zero =>
    intro x c r x' h
    simp [URLService.probeLoop] at h
  | succ fuel ih =>
    intro x c r x' h
    unfold URLService.probeLoop at h
    rw [getByShortCode_eq] at h
    cases hres : (PostgresURLRepository.GetByShortCode x c).1 with
    | error e =>
      rw [hres] at h
      simp only [Outcome.returned.injEq] at h
      obtain ⟨hr, hx⟩ := h
      subst hr hx
      exact ⟨[c], rfl, rfl, rfl⟩
    | ok url =>
      rw [hres] at h
      simp only at h
      rw [generateShortCode_eq] at h
      cases hgen : (s.generateShortCode (timeNow (x.log (.urlGetByShortCode c))).2
          (originalURL ++ (timeNow (x.log (.urlGetByShortCode c))).1.text)).1 with
      | none =>
        rw [hgen] at h
        simp at h
      | some next =>
        rw [hgen] at h
        simp only at h
        obtain ⟨codes, hhead, hlast, htrace⟩ := ih _ _ _ _ h
        refine ⟨c :: codes, rfl, ?_, ?_⟩
        · cases codes with
          | nil => simp at hhead
          | cons d rest =>
            rw [List.getLast?_cons_cons]
            exact hlast
        · rw [htrace]
          show (x.trace ++ [Call.urlGetByShortCode c]) ++ _ = _
          simp

/-- The store's create never reports `ErrShortCodeExists`: it reports the error
of the driver. -/
theorem pgCreate_ne_shortCodeExists (w : World) (url : URL) :
    (PostgresURLRepository.Create w url).1 ≠ some .ErrShortCodeExists := by
  unfold PostgresURLRepository.Create
  cases w.pgDown
  · cases hins : urlsInsert (w.log (.urlCreate url)) url with
    | none => simp [hins]
    | some p => simp [hins]
  · simp

/-- Without a custom code, the choice of the short code returns no error. -/
theorem chooseCode_generated_ne_error (s : URLService) (fuel : Nat) (w : World)
    (req : CreateURLRequest) (hcustom : req.CustomCode = "") (err : Err) (x : World) :
    s.chooseCode fuel w req ≠ .returned (.error err) x := by
  unfold URLService.chooseCode
  simp only [hcustom, bne_self_eq_false, Bool.false_eq_true, if_false]
  rw [generateShortCode_eq]
  cases (s.generateShortCode w req.OriginalURL).1 with
  | none => simp
  | some c =>
    simp only
    cases s.probeLoop req.OriginalURL fuel { w with ticks := w.ticks + 1 } c <;> simp

/-- Without a custom code, `CreateShortURL` never returns `ErrShortCodeExists`,
whatever the world and the number of probes. -/
theorem createShortURL_generated_ne_shortCodeExists (s : URLService) (fuel : Nat) (w : World)
    (req : CreateURLRequest) (hcustom : req.CustomCode = "")
    (res : Option CreateURLResponse) (err : Err) (w' : World)
    (h : s.CreateShortURL fuel w req = .returned (res, some err) w') :
    err ≠ .ErrShortCodeExists := by
  unfold URLService.CreateShortURL at h
  cases hvalid : s.isValidURL req.OriginalURL with
  | false =>
    simp [hvalid] at h
    rw [← h.1.2]
    simp
  | true =>
    simp only [hvalid, Bool.not_true, Bool.false_eq_true, if_false] at h
    cases hchoose : s.chooseCode fuel w req with
    | panic => simp [hchoose] at h
    | timeout => simp [hchoose] at h
    | returned v x =>
      cases v with
      | error e => exact absurd hchoose (chooseCode_generated_ne_error s fuel w req hcustom e x)
      | ok c =>
        simp only [hchoose] at h
        rw [persist_eq] at h
        have hne := pgCreate_ne_shortCodeExists (URLService.newEntity x req c).2.2
          (URLService.newEntity x req c).2.1
        cases hc : (PostgresURLRepository.Create (URLService.newEntity x req c).2.2
            (URLService.newEntity x req c).2.1).1 with
        | none =>
          rw [hc] at h
          simp at h
        | some e =>
          rw [hc] at h hne
          simp only [Outcome.returned.injEq, Prod.mk.injEq, Option.some.injEq] at h
          rw [← h.1.2]
          intro he
          exact hne (by rw [he])

/-- C14: for a valid URL and no custom code, under a store that answers every
call, let candidate number `n` of the generator have no row in the store. Then
`CreateShortURL` with more than `n` probes returns: it probes a list of codes that
starts with the first generated code, every candidate before number `i` has a row
(a collision, after which the next candidate is generated and probed), candidate
number `i ≤ n` is the first without a row, the probes end with it, and the call
succeeds with it: its external calls are those probes, one store create and one
cache Set. And without a custom code `CreateShortURL` never returns
`ErrShortCodeExists`, in whatever world and with whatever number of probes. -/
theorem createShortURL_collision_retry (s : URLService) (w : World) (req : CreateURLRequest)
    (n fuel : Nat)
    (hfuel : n < fuel)
    (hvalid : s.isValidURL req.OriginalURL = true)
    (hcustom : req.CustomCode = "")
    (hstore : ∀ k, w.pgFaults k = false)
    (hfresh : ∃ c, s.candidate w req.OriginalURL n = some c ∧ w.hasCode c = false) :
    (∃ (i : Nat) (c : String) (codes : List String) (urlEntity : URL)
        (resp : CreateURLResponse) (w' : World),
      i ≤ n ∧
      s.candidate w req.OriginalURL i = some c ∧ w.hasCode c = false ∧
      (∀ i', i' < i → ∃ ci, s.candidate w req.OriginalURL i' = some ci ∧
        w.hasCode ci = true) ∧
      s.CreateShortURL fuel w req = .returned (some resp, none) w' ∧
      resp.ShortCode = c ∧
      codes.length = i + 1 ∧ codes.head? = s.candidate w req.OriginalURL 0 ∧
      codes.getLast? = some c ∧
      urlEntity.ShortCode = c ∧ urlEntity.OriginalURL = req.OriginalURL ∧
      w'.trace = w.trace ++ codes.map Call.urlGetByShortCode
        ++ [.urlCreate urlEntity, .cacheSet c req.OriginalURL]) ∧
    (∀ (fuel' : Nat) (w0 : World) (res : Option CreateURLResponse) (err : Err) (w1 : World),
      s.CreateShortURL fuel' w0 req = .returned (res, some err) w1 →
      err ≠ .ErrShortCodeExists) := by
  refine ⟨?_, fun fuel' w0 res err w1 h =>
    createShortURL_generated_ne_shortCodeExists s fuel' w0 req hcustom res err w1 h⟩
  obtain ⟨i, c, x, hi, hchoose, hci, hno, hbefore, h1, h2, h3, h4, h5, h6, h7, h8, h9⟩ :=
    chooseCode_generated s w req n fuel hfuel hcustom hstore hfresh
  have hnox : x.hasCode c = false := by
    unfold World.hasCode at hno ⊢
    rw [h1]
    exact hno
  obtain ⟨w', hpersist, _, htrace, _⟩ :=
    persist_ok s x req c (by rw [h6]; exact hstore) hnox
  -- the probes
  obtain ⟨c0, hc0, _⟩ := generateShortCode_fst s w req.OriginalURL
  have hloop : s.probeLoop req.OriginalURL fuel { w with ticks := w.ticks + 1 } c0
      = .returned c x := by
    have := hchoose
    unfold URLService.chooseCode at this
    rw [generateShortCode_eq, hc0] at this
    simp only [hcustom, bne_self_eq_false, Bool.false_eq_true, if_false] at this
    cases hl : s.probeLoop req.OriginalURL fuel { w with ticks := w.ticks + 1 } c0 with
    | panic => rw [hl] at this; simp at this
    | timeout => rw [hl] at this; simp at this
    | returned r y =>
      rw [hl] at this
      simp only [Outcome.returned.injEq, Except.ok.injEq] at this
      rw [this.1, this.2]
  obtain ⟨codes, hhead, hlast, hprobes⟩ := probeLoop_trace s req.OriginalURL fuel _ _ _ _ hloop
  have hprobes' : x.trace = w.trace ++ codes.map Call.urlGetByShortCode := hprobes
  have hlen : codes.length = i + 1 := by
    have := congrArg List.length hprobes'
    rw [h9, List.length_append, List.length_map] at this
    omega
  refine ⟨i, c, codes, (URLService.newEntity x req c).2.1,
    CreateURLResponse.mk c (s.baseURL ++ "/" ++ c) req.OriginalURL
      (URLService.newEntity x req c).2.1.CreatedAt (URLService.expiry x req.ExpiresIn).1
      req.Metadata, w', hi, hci, hno, hbefore, ?_, rfl, hlen, hhead.trans hc0.symm, hlast,
    rfl, rfl, ?_⟩
  · unfold URLService.CreateShortURL
    simp only [hvalid, Bool.not_true, Bool.false_eq_true, if_false, hchoose, hpersist]
  · rw [htrace, hprobes']

/-- The witness of C14: the store holds the first candidate, the second has no
row; the call returns with the second after two probes. -/
theorem createShortURL_collision_retry_witness :
    (exampleService.candidate collisionWorld (exampleRequest none).OriginalURL 0
        = some "FxcXFxc" ∧
      collisionWorld.hasCode "FxcXFxc" = true ∧
      exampleService.candidate collisionWorld (exampleRequest none).OriginalURL 1
        = some "GhoaGho" ∧
      collisionWorld.hasCode "GhoaGho" = false) ∧
    (∃ (i : Nat) (c : String) (codes : List String) (urlEntity : URL)
        (resp : CreateURLResponse) (w' : World),
      i ≤ 1 ∧
      exampleService.candidate collisionWorld (exampleRequest none).OriginalURL i = some c ∧
      collisionWorld.hasCode c = false ∧
      (∀ i', i' < i →
        ∃ ci, exampleService.candidate collisionWorld (exampleRequest none).OriginalURL i'
          = some ci ∧ collisionWorld.hasCode ci = true) ∧
      exampleService.CreateShortURL 2 collisionWorld (exampleRequest none)
        = .returned (some resp, none) w' ∧
      resp.ShortCode = c ∧
      codes.length = i + 1 ∧
      codes.head?
        = exampleService.candidate collisionWorld (exampleRequest none).OriginalURL 0 ∧
      codes.getLast? = some c ∧
      urlEntity.ShortCode = c ∧ urlEntity.OriginalURL = (exampleRequest none).OriginalURL ∧
      w'.trace = collisionWorld.trace ++ codes.map Call.urlGetByShortCode
        ++ [.urlCreate urlEntity, .cacheSet c (exampleRequest none).OriginalURL]) :=
  ⟨by decide,
    (createShortURL_collision_retry exampleService collisionWorld (exampleRequest none) 1 2
      (by decide) (by decide) rfl (fun _ => rfl) ⟨"GhoaGho", by decide, by decide⟩).1⟩

/-! ## C15: a duplicate reported by the store's create -/

@[simp] theorem pgCreate_trace (w : World) (url : URL) :
    (PostgresURLRepository.Create w url).2.2.trace = w.trace ++ [.urlCreate url] := by
  unfold PostgresURLRepository.Create urlsInsert
  cases w.pgDown
  · cases hh : (w.log (.urlCreate url)).hasCode url.ShortCode <;> simp [hh]
  · simp

@[simp] theorem pgCreate_redis (w : World) (url : URL) :
    (PostgresURLRepository.Create w url).2.2.redis = w.redis := by
  unfold PostgresURLRepository.Create urlsInsert
  cases w.pgDown
  · cases hh : (w.log (.urlCreate url)).hasCode url.ShortCode <;> simp [hh]
  · simp

/-- The store's create reports a duplicate exactly as the driver does: when the
call goes through and the table has a row for the short code, the error is the
unique violation, and the table is as before. -/
theorem pgCreate_duplicate (w : World) (url : URL) (hdown : w.pgDown = false)
    (hrow : w.hasCode url.ShortCode = true) :
    (PostgresURLRepository.Create w url).1 = some .uniqueViolation ∧
    (PostgresURLRepository.Create w url).2.2.urls = w.urls := by
  have hrow' : (w.log (.urlCreate url)).hasCode url.ShortCode = true := hrow
  unfold PostgresURLRepository.Create urlsInsert
  simp [hdown, hrow']

@[simp] theorem newEntity_trace (w : World) (req : CreateURLRequest) (shortCode : String) :
    (URLService.newEntity w req shortCode).2.2.trace = w.trace := by
  rw [newEntity_world]
  simp [timeNow]

@[simp] theorem newEntity_redis (w : World) (req : CreateURLRequest) (shortCode : String) :
    (URLService.newEntity w req shortCode).2.2.redis = w.redis := by
  rw [newEntity_world]
  simp [timeNow]

/-- With a custom code whose pre-check returns no record, an error of the store's
create is returned as it is, with a nil response; the external calls are the
lookup and the create, and the cache is not written. -/
theorem createShortURL_custom_create_error (s : URLService) (fuel : Nat) (w : World)
    (req : CreateURLRequest) (err : Err)
    (hvalid : s.isValidURL req.OriginalURL = true)
    (hcustom : req.CustomCode ≠ "")
    (hprecheck : ∃ e, (PostgresURLRepository.GetByShortCode w req.CustomCode).1 = .error e)
    (hcreate : (PostgresURLRepository.Create
        (URLService.newEntity (w.log (.urlGetByShortCode req.CustomCode)) req
          req.CustomCode).2.2
        (URLService.newEntity (w.log (.urlGetByShortCode req.CustomCode)) req
          req.CustomCode).2.1).1 = some err) :
    ∃ w', s.CreateShortURL fuel w req = .returned (none, some err) w' ∧
      w'.redis = w.redis ∧
      w'.trace = w.trace ++ [.urlGetByShortCode req.CustomCode,
        .urlCreate (URLService.newEntity (w.log (.urlGetByShortCode req.CustomCode)) req
          req.CustomCode).2.1] := by
  obtain ⟨e, he⟩ := hprecheck
  have hchoose : s.chooseCode fuel w req
      = .returned (.ok req.CustomCode) (w.log (.urlGetByShortCode req.CustomCode)) := by
    unfold URLService.chooseCode
    rw [getByShortCode_eq, he]
    simp [hcustom]
  refine ⟨(PostgresURLRepository.Create
      (URLService.newEntity (w.log (.urlGetByShortCode req.CustomCode)) req
        req.CustomCode).2.2
      (URLService.newEntity (w.log (.urlGetByShortCode req.CustomCode)) req
        req.CustomCode).2.1).2.2, ?_, ?_, ?_⟩
  · unfold URLService.CreateShortURL
    simp only [hvalid, Bool.not_true, Bool.false_eq_true, if_false, hchoose]
    rw [persist_eq, hcreate]
  · simp
  · simp

/-- C15, at the failing input: the store holds a record for the custom code and
the lookup of the pre-check fails (external call number 0), so that no record is
returned; the store's create then reports the duplicate. `CreateShortURL` returns a
nil response and does not write the cache, but the error it returns is the unique
violation of the driver, not `ErrShortCodeExists`. The same error comes back when
the pre-check passes in the empty world and the record is inserted by another
request before lines 81 to 114 run. -/
theorem createShortURL_duplicate_on_create :
    ((PostgresURLRepository.GetByShortCode (pgFailsAt 0 (storeWorld staleCustomRecord))
        customRequest.CustomCode).1 = .error (.unavailable 0) ∧
      ∃ (urlEntity : URL) (w' : World),
        (PostgresURLRepository.Create
          (URLService.newEntity ((pgFailsAt 0 (storeWorld staleCustomRecord)).log
            (.urlGetByShortCode customRequest.CustomCode)) customRequest
            customRequest.CustomCode).2.2 urlEntity).1 = some .uniqueViolation ∧
        exampleService.CreateShortURL 0 (pgFailsAt 0 (storeWorld staleCustomRecord))
          customRequest = .returned (none, some .uniqueViolation) w' ∧
        Err.uniqueViolation ≠ Err.ErrShortCodeExists ∧
        w'.trace = [.urlGetByShortCode "custom123", .urlCreate urlEntity] ∧
        w'.redis = [] ∧ w'.urls = [staleCustomRecord]) ∧
    (∃ x : World,
      exampleService.chooseCode 0 emptyWorld customRequest
        = .returned (.ok customRequest.CustomCode) x ∧
      (exampleService.persist { x with urls := [staleCustomRecord] } customRequest
        customRequest.CustomCode).1 = (none, some .uniqueViolation) ∧
      (exampleService.persist { x with urls := [staleCustomRecord] } customRequest
        customRequest.CustomCode).2.redis = []) :=
  ⟨⟨by decide, _, _, by decide, rfl, by decide, rfl, by decide, by decide⟩,
    ⟨_, rfl, by decide, by decide⟩⟩

/-! ## C16: the response of a creation -/

/-- A store create that returns nil went through for a short code without a row:
the entity gets the next id, and the table gains it as a row with click counter
0. -/
theorem pgCreate_none (w : World) (url : URL)
    (h : (PostgresURLRepository.Create w url).1 = none) :
    (PostgresURLRepository.Create w url).2.1 = { url with ID := w.nextID } ∧
    (PostgresURLRepository.Create w url).2.2.urls
      = w.urls ++ [{ url with ID := w.nextID, ClickCount := 0 }] := by
  have hdown : w.pgDown = false := by
    cases hd : w.pgDown with
    | false => rfl
    | true =>
      unfold PostgresURLRepository.Create at h
      simp [hd] at h
  have hno : w.hasCode url.ShortCode = false := by
    cases hh : w.hasCode url.ShortCode with
    | false => rfl
    | true =>
      rw [(pgCreate_duplicate w url hdown hh).1] at h
      cases h
  rw [pgCreate_ok w url hdown hno]
  exact ⟨rfl, rfl⟩

/-- With a custom code, the code that is chosen is the custom code. -/
theorem chooseCode_custom (s : URLService) (fuel : Nat) (w : World) (req : CreateURLRequest)
    (hcustom : req.CustomCode ≠ "") (c : String) (x : World)
    (h : s.chooseCode fuel w req = .returned (.ok c) x) : c = req.CustomCode := by
  unfold URLService.chooseCode at h
  rw [getByShortCode_eq] at h
  cases hres : (PostgresURLRepository.GetByShortCode w req.CustomCode).1 with
  | ok url => simp [hcustom, hres] at h
  | error e =>
    simp [hcustom, hres] at h
    exact h.1.symm

/-- What a creation that reaches lines 81 to 114 answers on success, and what it
leaves in the store and in the trace. -/
theorem persist_returned (s : URLService) (x : World) (req : CreateURLRequest)
    (shortCode : String) (resp : CreateURLResponse) (w' : World)
    (h : s.persist x req shortCode = ((some resp, none), w')) :
    resp = { ShortCode := shortCode, ShortURL := s.baseURL ++ "/" ++ shortCode,
             OriginalURL := req.OriginalURL,
             CreatedAt := (URLService.newEntity x req shortCode).2.1.CreatedAt,
             ExpiresAt := (URLService.newEntity x req shortCode).2.1.ExpiresAt,
             Metadata := req.Metadata } ∧
    w'.urls = x.urls ++ [{ (URLService.newEntity x req shortCode).2.1 with ID := x.nextID }] ∧
    w'.trace = x.trace ++ [.urlCreate (URLService.newEntity x req shortCode).2.1,
      .cacheSet shortCode req.OriginalURL] := by
  rw [persist_eq] at h
  cases hc : (PostgresURLRepository.Create (URLService.newEntity x req shortCode).2.2
      (URLService.newEntity x req shortCode).2.1).1 with
  | some err =>
    rw [hc] at h
    simp at h
  | none =>
    obtain ⟨hcreated, hurls⟩ := pgCreate_none _ _ hc
    rw [hc] at h
    simp only [Prod.mk.injEq, Option.some.injEq, and_true] at h
    obtain ⟨hresp, hw⟩ := h
    refine ⟨?_, ?_, ?_⟩
    · rw [← hresp, hcreated]
      rfl
    · rw [← hw, redisSet_urls, hurls, newEntity_world]
      simp only [timeNow, expiry_urls, expiry_nextID]
      rfl
    · rw [← hw, redisSet_trace, pgCreate_trace, newEntity_trace]
      simp

/-- C16: for every `CreateShortURL` that returns a response and a nil error, there
is the entity `urlEntity` that was handed to the store (the last but one external
call is the store create of it, the last the cache Set) and persisted (the last
row of the table is that entity with its new id). The response repeats it:
`ShortCode` is the entity's short code, and it is the custom code when the request
has one; `OriginalURL` is the request's and the entity's; `CreatedAt`, `ExpiresAt`
and `Metadata` are the entity's; `ShortURL` is the base URL, a slash and the short
code. -/
theorem createShortURL_response (s : URLService) (fuel : Nat) (w : World)
    (req : CreateURLRequest) (resp : CreateURLResponse) (w' : World)
    (hsuccess : s.CreateShortURL fuel w req = .returned (some resp, none) w') :
    ∃ urlEntity : URL,
      (∃ earlier, w'.trace = earlier ++ [.urlCreate urlEntity,
        .cacheSet resp.ShortCode req.OriginalURL]) ∧
      (∃ rows id, w'.urls = rows ++ [{ urlEntity with ID := id }]) ∧
      resp.ShortCode = urlEntity.ShortCode ∧
      (req.CustomCode ≠ "" → resp.ShortCode = req.CustomCode) ∧
      resp.OriginalURL = req.OriginalURL ∧ urlEntity.OriginalURL = req.OriginalURL ∧
      resp.CreatedAt = urlEntity.CreatedAt ∧ resp.ExpiresAt = urlEntity.ExpiresAt ∧
      resp.Metadata = urlEntity.Metadata ∧ urlEntity.Metadata = req.Metadata ∧
      resp.ShortURL = s.baseURL ++ "/" ++ resp.ShortCode := by
  unfold URLService.CreateShortURL at hsuccess
  cases hvalid : s.isValidURL req.OriginalURL with
  | false => simp [hvalid] at hsuccess
  | true =>
    simp only [hvalid, Bool.not_true, Bool.false_eq_true, if_false] at hsuccess
    cases hchoose : s.chooseCode fuel w req with
    | panic => simp [hchoose] at hsuccess
    | timeout => simp [hchoose] at hsuccess
    | returned v x =>
      cases v with
      | error e => simp [hchoose] at hsuccess
      | ok c =>
        simp only [hchoose, Outcome.returned.injEq] at hsuccess
        have hp : s.persist x req c = ((some resp, none), w') :=
          Prod.ext hsuccess.1 hsuccess.2
        obtain ⟨hresp, hurls, htrace⟩ := persist_returned s x req c resp w' hp
        subst hresp
        exact ⟨(URLService.newEntity x req c).2.1, ⟨x.trace, htrace⟩, ⟨x.urls, x.nextID, hurls⟩,
          rfl, fun hcustom => chooseCode_custom s fuel w req hcustom c x hchoose, rfl, rfl, rfl,
          rfl, rfl, rfl, rfl⟩

/-- The witness of C16: the creation of `TestCreateShortURL_CustomCode`. -/
theorem createShortURL_response_witness :
    ∃ (resp : CreateURLResponse) (w' : World),
      exampleService.CreateShortURL 0 emptyWorld customRequest
        = .returned (some resp, none) w' ∧
      ∃ urlEntity : URL,
        (∃ earlier, w'.trace = earlier ++ [.urlCreate urlEntity,
          .cacheSet resp.ShortCode customRequest.OriginalURL]) ∧
        (∃ rows id, w'.urls = rows ++ [{ urlEntity with ID := id }]) ∧
        resp.ShortCode = urlEntity.ShortCode ∧
        (customRequest.CustomCode ≠ "" → resp.ShortCode = customRequest.CustomCode) ∧
        resp.OriginalURL = customRequest.OriginalURL ∧
        urlEntity.OriginalURL = customRequest.OriginalURL ∧
        resp.CreatedAt = urlEntity.CreatedAt ∧ resp.ExpiresAt = urlEntity.ExpiresAt ∧
        resp.Metadata = urlEntity.Metadata ∧ urlEntity.Metadata = customRequest.Metadata ∧
        resp.ShortURL = exampleService.baseURL ++ "/" ++ resp.ShortCode :=
  ⟨_, _, rfl, createShortURL_response exampleService 0 emptyWorld customRequest _ _ rfl⟩

/-! ## C17: the click goroutine -/

/-- The two external calls of the click goroutine, in every world: the record of
the click, stamped with the short code, then the increment. -/
theorem clickTask_run_trace (t : ClickTask) (x : World) :
    (t.run x).trace = x.trace ++
      [.analyticsRecordClick { t.analytics with ShortCode := t.shortCode },
       .urlIncrementClickCount t.shortCode] := by
  unfold ClickTask.run PostgresAnalyticsRepository.RecordClick
    PostgresURLRepository.IncrementClickCount
  dsimp only [timeNow]
  split <;> split <;> simp

/-- A resolution that returns a nil error started the click goroutine for its short
code. -/
theorem getOriginalURL_spawned (s : URLService) (w : World) (shortCode : String)
    (analytics : Analytics) (hsuccess : (s.GetOriginalURL w shortCode analytics).err = none) :
    (s.GetOriginalURL w shortCode analytics).spawned = some ⟨shortCode, analytics⟩ := by
  by_cases hhit : ∃ v, (RedisCache.Get w shortCode).1 = .ok v ∧ v ≠ ""
  · obtain ⟨v, hv, hne⟩ := hhit
    rw [getOriginalURL_hit s w shortCode analytics v hv hne]
  · have hmiss : ∀ v, (RedisCache.Get w shortCode).1 = .ok v → v = "" := by
      intro v hv
      by_contra hne
      exact hhit ⟨v, hv, hne⟩
    rw [getOriginalURL_miss s w shortCode analytics hmiss] at hsuccess ⊢
    revert hsuccess
    generalize (PostgresURLRepository.GetByShortCode (w.log (.cacheGet shortCode)) shortCode).1
      = res
    cases res with
    | error e => intro h; cases h
    | ok urlEntity =>
      dsimp only
      cases urlEntity.ExpiresAt with
      | none => intro _; rfl
      | some e =>
        dsimp only
        split
        · intro h; cases h
        · intro _; rfl

/-- On a cache miss the store lookup is the second external call of the
resolution. -/
theorem getOriginalURL_miss_trace_length (s : URLService) (w : World) (shortCode : String)
    (analytics : Analytics)
    (hmiss : ∀ v, (RedisCache.Get w shortCode).1 = .ok v → v = "") :
    w.trace.length + 2 ≤ (s.GetOriginalURL w shortCode analytics).world.trace.length := by
  rw [getOriginalURL_miss s w shortCode analytics hmiss]
  generalize (PostgresURLRepository.GetByShortCode (w.log (.cacheGet shortCode)) shortCode).1
    = res
  cases res with
  | error e => simp
  | ok urlEntity =>
    dsimp only
    cases urlEntity.ExpiresAt with
    | none => simp
    | some e =>
      dsimp only
      split <;> simp [timeNow]

/-- A resolution does not depend on whether the external calls after its own fail
at the store: with store faults `g` that agree with those of `w` on the calls of
the resolution, it returns the same and makes the same calls. -/
theorem getOriginalURL_pgFaults (s : URLService) (w : World) (shortCode : String)
    (analytics : Analytics) (g : Nat → Bool)
    (hagree : ∀ k, k < (s.GetOriginalURL w shortCode analytics).world.trace.length →
      g k = w.pgFaults k) :
    (s.GetOriginalURL { w with pgFaults := g } shortCode analytics).url
      = (s.GetOriginalURL w shortCode analytics).url ∧
    (s.GetOriginalURL { w with pgFaults := g } shortCode analytics).err
      = (s.GetOriginalURL w shortCode analytics).err ∧
    (s.GetOriginalURL { w with pgFaults := g } shortCode analytics).spawned
      = (s.GetOriginalURL w shortCode analytics).spawned ∧
    (s.GetOriginalURL { w with pgFaults := g } shortCode analytics).world.trace
      = (s.GetOriginalURL w shortCode analytics).world.trace ∧
    (s.GetOriginalURL { w with pgFaults := g } shortCode analytics).world.pgFaults = g := by
  have hget : (RedisCache.Get { w with pgFaults := g } shortCode).1
      = (RedisCache.Get w shortCode).1 :=
    redisGet_congr _ _ shortCode rfl rfl rfl rfl rfl
  by_cases hhit : ∃ v, (RedisCache.Get w shortCode).1 = .ok v ∧ v ≠ ""
  · obtain ⟨v, hv, hne⟩ := hhit
    rw [getOriginalURL_hit s w shortCode analytics v hv hne,
      getOriginalURL_hit s { w with pgFaults := g } shortCode analytics v (hget.trans hv) hne]
    exact ⟨rfl, rfl, rfl, rfl, rfl⟩
  · have hmiss : ∀ v, (RedisCache.Get w shortCode).1 = .ok v → v = "" := by
      intro v hv
      by_contra hne
      exact hhit ⟨v, hv, hne⟩
    have hlen := getOriginalURL_miss_trace_length s w shortCode analytics hmiss
    have hg : g (w.trace.length + 1) = w.pgFaults (w.trace.length + 1) :=
      hagree _ (by omega)
    have hlookup : (PostgresURLRepository.GetByShortCode
        (World.log { w with pgFaults := g } (.cacheGet shortCode)) shortCode).1
        = (PostgresURLRepository.GetByShortCode (w.log (.cacheGet shortCode)) shortCode).1 := by
      unfold PostgresURLRepository.GetByShortCode World.pgDown World.log
      simp only [List.length_append, List.length_singleton, hg]
      cases w.pgFaults (w.trace.length + 1)
      · simp only [Bool.false_eq_true, if_false]
        cases w.urls.find? (fun r => r.ShortCode == shortCode) <;> rfl
      · rfl
    rw [getOriginalURL_miss s w shortCode analytics hmiss,
      getOriginalURL_miss s { w with pgFaults := g } shortCode analytics
        (fun v hv => hmiss v (hget.symm.trans hv)), hlookup]
    generalize (PostgresURLRepository.GetByShortCode (w.log (.cacheGet shortCode)) shortCode).1
      = res
    cases res with
    | error e => exact ⟨rfl, rfl, rfl, rfl, rfl⟩
    | ok urlEntity =>
      dsimp only
      cases urlEntity.ExpiresAt with
      | none => exact ⟨rfl, rfl, rfl, by simp, by simp⟩
      | some e =>
        dsimp only
        by_cases hgt : (w.clock w.ticks).instant > e
        · simp [hgt, timeNow]
        · simp [hgt, timeNow]

/-- Whether the record of a click returns nil is the store fault at its call. -/
theorem recordClick_ok_iff (w : World) (analytics : Analytics) :
    (PostgresAnalyticsRepository.RecordClick w analytics).1 = none ↔
      w.pgFaults w.trace.length = false := by
  unfold PostgresAnalyticsRepository.RecordClick World.pgDown
  dsimp only [timeNow]
  cases w.pgFaults w.trace.length <;> simp

/-- Whether the increment returns nil is the store fault at its call. -/
theorem incrementClickCount_ok_iff (w : World) (shortCode : String) :
    (PostgresURLRepository.IncrementClickCount w shortCode).1 = none ↔
      w.pgFaults w.trace.length = false := by
  unfold PostgresURLRepository.IncrementClickCount World.pgDown
  cases w.pgFaults w.trace.length <;> simp

@[simp] theorem recordClick_trace (w : World) (analytics : Analytics) :
    (PostgresAnalyticsRepository.RecordClick w analytics).2.trace
      = w.trace ++ [.analyticsRecordClick analytics] := by
  unfold PostgresAnalyticsRepository.RecordClick
  dsimp only [timeNow]
  split <;> rfl

/-- C17: a `GetOriginalURL` that returns a nil error (from the cache or from the
store) started the click goroutine for its short code. In every world, whatever
store calls fail there, the goroutine makes exactly two external calls: one
`RecordClick`, of the event stamped with the short code, then one
`IncrementClickCount` of the short code. And for all store faults `g` that agree
with the given ones on the calls of the resolution itself, the resolution returns
the same URL and a nil error and starts the same goroutine, while `RecordClick`
succeeds or fails as `g` says at its call, and the increment, made in the world
that `RecordClick` left, as `g` says at the next. -/
theorem getOriginalURL_click_task (s : URLService) (w : World) (shortCode : String)
    (analytics : Analytics)
    (hsuccess : (s.GetOriginalURL w shortCode analytics).err = none) :
    (s.GetOriginalURL w shortCode analytics).spawned = some ⟨shortCode, analytics⟩ ∧
    (∀ x : World, (ClickTask.run ⟨shortCode, analytics⟩ x).trace = x.trace ++
      [.analyticsRecordClick { analytics with ShortCode := shortCode },
       .urlIncrementClickCount shortCode]) ∧
    (∀ g : Nat → Bool,
      (∀ k, k < (s.GetOriginalURL w shortCode analytics).world.trace.length →
        g k = w.pgFaults k) →
      (s.GetOriginalURL { w with pgFaults := g } shortCode analytics).url
        = (s.GetOriginalURL w shortCode analytics).url ∧
      (s.GetOriginalURL { w with pgFaults := g } shortCode analytics).err = none ∧
      (s.GetOriginalURL { w with pgFaults := g } shortCode analytics).spawned
        = some ⟨shortCode, analytics⟩ ∧
      ((PostgresAnalyticsRepository.RecordClick
          (s.GetOriginalURL { w with pgFaults := g } shortCode analytics).world
          { analytics with ShortCode := shortCode }).1 = none ↔
        g (s.GetOriginalURL w shortCode analytics).world.trace.length = false) ∧
      ((PostgresURLRepository.IncrementClickCount
          (PostgresAnalyticsRepository.RecordClick
            (s.GetOriginalURL { w with pgFaults := g } shortCode analytics).world
            { analytics with ShortCode := shortCode }).2 shortCode).1 = none ↔
        g ((s.GetOriginalURL w shortCode analytics).world.trace.length + 1) = false) ∧
      ClickTask.run ⟨shortCode, analytics⟩
          (s.GetOriginalURL { w with pgFaults := g } shortCode analytics).world
        = (PostgresURLRepository.IncrementClickCount
            (PostgresAnalyticsRepository.RecordClick
              (s.GetOriginalURL { w with pgFaults := g } shortCode analytics).world
              { analytics with ShortCode := shortCode }).2 shortCode).2) := by
  have hspawned := getOriginalURL_spawned s w shortCode analytics hsuccess
  refine ⟨hspawned, fun x => clickTask_run_trace ⟨shortCode, analytics⟩ x, ?_⟩
  intro g hagree
  obtain ⟨h1, h2, h3, h4, h5⟩ := getOriginalURL_pgFaults s w shortCode analytics g hagree
  refine ⟨h1, h2.trans hsuccess, h3.trans hspawned, ?_, ?_, rfl⟩
  · rw [recordClick_ok_iff, h5, h4]
  · rw [incrementClickCount_ok_iff, (recordClick_spec _ _).2.2.2.1, recordClick_trace, h5, h4]
    simp

/-- The witness of C17: the resolution of `abc123` from the store, which makes three
external calls, also with a store that fails from the fourth call on, so that both
operations of the goroutine fail. -/
theorem getOriginalURL_click_task_witness :
    (exampleService.GetOriginalURL (storeWorld liveRecord) "abc123" exampleAnalytics).err = none ∧
    (exampleService.GetOriginalURL (storeWorld liveRecord) "abc123" exampleAnalytics).spawned
      = some ⟨"abc123", exampleAnalytics⟩ ∧
    (∀ x : World, (ClickTask.run ⟨"abc123", exampleAnalytics⟩ x).trace = x.trace ++
      [.analyticsRecordClick { exampleAnalytics with ShortCode := "abc123" },
       .urlIncrementClickCount "abc123"]) ∧
    (exampleService.GetOriginalURL
        { storeWorld liveRecord with pgFaults := fun k => decide (3 ≤ k) }
        "abc123" exampleAnalytics).url
      = (exampleService.GetOriginalURL (storeWorld liveRecord) "abc123" exampleAnalytics).url ∧
    (exampleService.GetOriginalURL
        { storeWorld liveRecord with pgFaults := fun k => decide (3 ≤ k) }
        "abc123" exampleAnalytics).err = none :=
  have h := getOriginalURL_click_task exampleService (storeWorld liveRecord) "abc123"
    exampleAnalytics (by decide)
  have hlen : (exampleService.GetOriginalURL (storeWorld liveRecord) "abc123"
      exampleAnalytics).world.trace.length = 3 := by decide
  have hg := h.2.2 (fun k => decide (3 ≤ k)) (fun k hk => by
    rw [hlen] at hk
    simp only [storeWorld, emptyWorld, decide_eq_false_iff_not, not_le]
    exact hk)
  ⟨by decide, h.1, h.2.1, hg.1, hg.2.1⟩

/-! ## C18: short code and click counter of the rows -/

/-- The collision loop does not write the table. -/
theorem probeLoop_urls (s : URLService) (originalURL : String) :
    ∀ (fuel : Nat) (x : World) (c r : String) (x' : World),
      s.probeLoop originalURL fuel x c = .returned r x' →
      x'.urls = x.urls ∧ x'.nextID = x.nextID := by
  intro fuel
  induction fuel with
  | zero =>
    intro x c r x' h
    simp [URLService.probeLoop] at h
  | succ fuel ih =>
    intro x c r x' h
    unfold URLService.probeLoop at h
    rw [getByShortCode_eq] at h
    cases hres : (PostgresURLRepository.GetByShortCode x c).1 with
    | error e =>
      rw [hres] at h
      simp only [Outcome.returned.injEq] at h
      obtain ⟨_, hx⟩ := h
      subst hx
      exact ⟨rfl, rfl⟩
    | ok url =>
      rw [hres] at h
      simp only at h
      rw [generateShortCode_eq] at h
      cases hgen : (s.generateShortCode (timeNow (x.log (.urlGetByShortCode c))).2
          (originalURL ++ (timeNow (x.log (.urlGetByShortCode c))).1.text)).1 with
      | none =>
        rw [hgen] at h
        simp at h
      | some next =>
        rw [hgen] at h
        simp only at h
        obtain ⟨h1, h2⟩ := ih _ _ _ _ h
        exact ⟨h1, h2⟩

/-- The choice of the short code does not write the table. -/
theorem chooseCode_urls (s : URLService) (fuel : Nat) (w : World) (req : CreateURLRequest)
    (v : Except Err String) (x : World) (h : s.chooseCode fuel w req = .returned v x) :
    x.urls = w.urls ∧ x.nextID = w.nextID := by
  unfold URLService.chooseCode at h
  by_cases hcustom : req.CustomCode = ""
  · simp only [hcustom, bne_self_eq_false, Bool.false_eq_true, if_false] at h
    rw [generateShortCode_eq] at h
    cases hgen : (s.generateShortCode w req.OriginalURL).1 with
    | none =>
      rw [hgen] at h
      simp at h
    | some c =>
      rw [hgen] at h
      simp only at h
      cases hloop : s.probeLoop req.OriginalURL fuel { w with ticks := w.ticks + 1 } c with
      | panic =>
        rw [hloop] at h
        simp at h
      | timeout =>
        rw [hloop] at h
        simp at h
      | returned r x' =>
        rw [hloop] at h
        simp only [Outcome.returned.injEq] at h
        obtain ⟨_, hx⟩ := h
        subst hx
        have hkeep := probeLoop_urls s req.OriginalURL fuel { w with ticks := w.ticks + 1 } c r
          x' hloop
        exact hkeep
  · rw [getByShortCode_eq] at h
    cases hres : (PostgresURLRepository.GetByShortCode w req.CustomCode).1 with
    | ok url =>
      simp only [hres, bne_iff_ne, ne_eq, hcustom, not_false_eq_true, if_true,
        Outcome.returned.injEq] at h
      obtain ⟨_, hx⟩ := h
      subst hx
      exact ⟨rfl, rfl⟩
    | error e =>
      simp only [hres, bne_iff_ne, ne_eq, hcustom, not_false_eq_true, if_true,
        Outcome.returned.injEq] at h
      obtain ⟨_, hx⟩ := h
      subst hx
      exact ⟨rfl, rfl⟩

/-- A store create that returns an error leaves the table. -/
theorem pgCreate_some (w : World) (url : URL) (err : Err)
    (h : (PostgresURLRepository.Create w url).1 = some err) :
    (PostgresURLRepository.Create w url).2.2.urls = w.urls := by
  cases hd : w.pgDown with
  | true =>
    unfold PostgresURLRepository.Create
    simp [hd]
  | false =>
    cases hh : w.hasCode url.ShortCode with
    | true => exact (pgCreate_duplicate w url hd hh).2
    | false =>
      rw [pgCreate_ok w url hd hh] at h
      cases h

/-- What a store create does to the table: nothing, or one more row, which is the
entity with the next id and click counter 0. -/
theorem pgCreate_urls (w : World) (url : URL) :
    (PostgresURLRepository.Create w url).2.2.urls = w.urls ∨
    (PostgresURLRepository.Create w url).2.2.urls
      = w.urls ++ [{ url with ID := w.nextID, ClickCount := 0 }] := by
  cases h : (PostgresURLRepository.Create w url).1 with
  | none => exact Or.inr (pgCreate_none w url h).2
  | some err => exact Or.inl (pgCreate_some w url err h)

/-- What lines 81 to 114 of `CreateShortURL` do to the table: nothing, with a nil
response; or one more row, which is the entity built at line 87 with the next id. -/
theorem persist_urls (s : URLService) (x : World) (req : CreateURLRequest)
    (shortCode : String) :
    ((s.persist x req shortCode).1.1 = none ∧ (s.persist x req shortCode).2.urls = x.urls) ∨
    (∃ resp, (s.persist x req shortCode).1 = (some resp, none) ∧
      resp.ShortCode = shortCode ∧
      (s.persist x req shortCode).2.urls
        = x.urls ++ [{ (URLService.newEntity x req shortCode).2.1 with ID := x.nextID }] ∧
      (s.persist x req shortCode).2.trace
        = x.trace ++ [.urlCreate (URLService.newEntity x req shortCode).2.1,
            .cacheSet shortCode req.OriginalURL]) := by
  cases hc : (PostgresURLRepository.Create (URLService.newEntity x req shortCode).2.2
      (URLService.newEntity x req shortCode).2.1).1 with
  | some err =>
    left
    have hurls := pgCreate_some _ _ err hc
    rw [persist_eq, hc]
    refine ⟨rfl, ?_⟩
    show (PostgresURLRepository.Create _ _).2.2.urls = x.urls
    rw [hurls, newEntity_world]
    simp [timeNow]
  | none =>
    right
    have hq : ∃ resp, (s.persist x req shortCode).1 = (some resp, none) := by
      rw [persist_eq, hc]
      exact ⟨_, rfl⟩
    obtain ⟨resp, hresp⟩ := hq
    obtain ⟨h1, h2, h3⟩ := persist_returned s x req shortCode resp (s.persist x req shortCode).2
      (Prod.ext hresp rfl)
    exact ⟨resp, hresp, by rw [h1], h2, h3⟩

/-- The synchronous part of a resolution does not write the table. -/
theorem getOriginalURL_urls (s : URLService) (w : World) (shortCode : String)
    (analytics : Analytics) :
    (s.GetOriginalURL w shortCode analytics).world.urls = w.urls := by
  by_cases hhit : ∃ v, (RedisCache.Get w shortCode).1 = .ok v ∧ v ≠ ""
  · obtain ⟨v, hv, hne⟩ := hhit
    rw [getOriginalURL_hit s w shortCode analytics v hv hne]
    rfl
  · have hmiss : ∀ v, (RedisCache.Get w shortCode).1 = .ok v → v = "" := by
      intro v hv
      by_contra hne
      exact hhit ⟨v, hv, hne⟩
    rw [getOriginalURL_miss s w shortCode analytics hmiss]
    generalize (PostgresURLRepository.GetByShortCode (w.log (.cacheGet shortCode)) shortCode).1
      = res
    cases res with
    | error e => rfl
    | ok urlEntity =>
      dsimp only
      cases urlEntity.ExpiresAt with
      | none => simp
      | some e =>
        dsimp only
        split <;> simp [timeNow]

/-- What the increment does to the table: nothing when the call fails, the
statement on every row when it goes through. -/
theorem incrementClickCount_urls (w : World) (shortCode : String) :
    ((PostgresURLRepository.IncrementClickCount w shortCode).1 ≠ none ∧
      (PostgresURLRepository.IncrementClickCount w shortCode).2.urls = w.urls) ∨
    ((PostgresURLRepository.IncrementClickCount w shortCode).1 = none ∧
      (PostgresURLRepository.IncrementClickCount w shortCode).2.urls
        = w.urls.map (incremented shortCode)) := by
  unfold PostgresURLRepository.IncrementClickCount
  cases w.pgDown
  · right
    exact ⟨rfl, rfl⟩
  · left
    exact ⟨by simp, rfl⟩

/-- The statement of the increment keeps id and short code of a row, and adds 1 to
the counter of a row of the short code and nothing to another. -/
theorem incremented_spec (shortCode : String) (r : URL) :
    (incremented shortCode r).ID = r.ID ∧ (incremented shortCode r).ShortCode = r.ShortCode ∧
    (r.ShortCode = shortCode → (incremented shortCode r).ClickCount = r.ClickCount + 1) ∧
    (r.ShortCode ≠ shortCode → incremented shortCode r = r) := by
  unfold incremented
  by_cases h : r.ShortCode = shortCode
  · simp [h]
  · simp [h]

/-- The full-record update keeps id, short code and click counter of every row. -/
theorem pgUpdate_urls (w : World) (url : URL) :
    ∃ f : URL → URL,
      (∀ r, (f r).ID = r.ID ∧ (f r).ShortCode = r.ShortCode ∧ (f r).ClickCount = r.ClickCount) ∧
      (PostgresURLRepository.Update w url).2.urls = w.urls.map f := by
  unfold PostgresURLRepository.Update
  dsimp only [timeNow]
  cases w.pgDown
  · cases w.hasCode url.ShortCode
    · exact ⟨id, fun _ => ⟨rfl, rfl, rfl⟩, (List.map_id _).symm⟩
    · refine ⟨_, ?_, rfl⟩
      intro r
      by_cases h : (r.ShortCode == url.ShortCode) = true
      · simp [h]
      · simp [h]
  · exact ⟨id, fun _ => ⟨rfl, rfl, rfl⟩, (List.map_id _).symm⟩

/-- What `DeleteURL` does to the table: nothing, or the removal of the rows of the
short code. -/
theorem deleteURL_urls (s : URLService) (w : World) (shortCode : String) :
    (s.DeleteURL w shortCode).2.urls = w.urls ∨
    (s.DeleteURL w shortCode).2.urls = w.urls.filter (fun r => !(r.ShortCode == shortCode)) := by
  cases h : (s.DeleteURL w shortCode).1 with
  | none =>
    obtain ⟨h1, h2⟩ := deleteURL_ok s w shortCode h
    right
    rw [h2, redisDelete_urls, pgDelete_urls w shortCode h1]
  | some err =>
    left
    unfold URLService.DeleteURL at h ⊢
    unfold PostgresURLRepository.Delete at h ⊢
    cases hd : w.pgDown
    · cases hh : w.hasCode shortCode
      · rfl
      · simp [hd, hh] at h
    · rfl

/-- C18: what the operations do to the rows of the table `urls`, short code and
click counter included. `CreateShortURL` leaves the rows that are there and adds
at most one, the entity handed to the store, whose click counter is 0 (and is 0 in
the row). The synchronous part of `GetOriginalURL` and `GetStats` leave the table.
`DeleteURL` leaves the table or removes the rows of the short code, and changes no
other row. The click goroutine of `GetOriginalURL` and `IncrementClickCount` leave
the table or apply the increment to every row: id and short code stay, the counter
goes up by exactly 1 in the rows of the short code and stays in the others. The
full-record `Update` keeps id, short code and click counter of every row. -/
theorem urls_short_code_and_click_counter (s : URLService) (fuel : Nat) (w : World)
    (req : CreateURLRequest) (shortCode : String) (analytics : Analytics) (url : URL) :
    (∀ res w', s.CreateShortURL fuel w req = .returned res w' →
      (res.1 = none ∧ w'.urls = w.urls) ∨
      (∃ resp urlEntity id, res = (some resp, none) ∧ urlEntity.ClickCount = 0 ∧
        urlEntity.ShortCode = resp.ShortCode ∧ Call.urlCreate urlEntity ∈ w'.trace ∧
        ({ urlEntity with ID := id } : URL).ClickCount = 0 ∧
        w'.urls = w.urls ++ [{ urlEntity with ID := id }])) ∧
    (s.GetOriginalURL w shortCode analytics).world.urls = w.urls ∧
    ((ClickTask.run ⟨shortCode, analytics⟩ w).urls = w.urls ∨
      (ClickTask.run ⟨shortCode, analytics⟩ w).urls = w.urls.map (incremented shortCode)) ∧
    (s.GetStats w shortCode).2.urls = w.urls ∧
    ((s.DeleteURL w shortCode).2.urls = w.urls ∨
      (s.DeleteURL w shortCode).2.urls
        = w.urls.filter (fun r => !(r.ShortCode == shortCode))) ∧
    (((PostgresURLRepository.IncrementClickCount w shortCode).1 ≠ none ∧
        (PostgresURLRepository.IncrementClickCount w shortCode).2.urls = w.urls) ∨
      ((PostgresURLRepository.IncrementClickCount w shortCode).1 = none ∧
        (PostgresURLRepository.IncrementClickCount w shortCode).2.urls
          = w.urls.map (incremented shortCode))) ∧
    (∀ r : URL, (incremented shortCode r).ID = r.ID ∧
      (incremented shortCode r).ShortCode = r.ShortCode ∧
      (r.ShortCode = shortCode → (incremented shortCode r).ClickCount = r.ClickCount + 1) ∧
      (r.ShortCode ≠ shortCode → incremented shortCode r = r)) ∧
    (∃ f : URL → URL,
      (∀ r, (f r).ID = r.ID ∧ (f r).ShortCode = r.ShortCode ∧ (f r).ClickCount = r.ClickCount) ∧
      (PostgresURLRepository.Update w url).2.urls = w.urls.map f) := by
  refine ⟨?_, getOriginalURL_urls s w shortCode analytics, ?_, ?_,
    deleteURL_urls s w shortCode, incrementClickCount_urls w shortCode,
    incremented_spec shortCode, pgUpdate_urls w url⟩
  · intro res w' h
    unfold URLService.CreateShortURL at h
    cases hvalid : s.isValidURL req.OriginalURL with
    | false =>
      simp only [hvalid, Bool.not_false, if_true, Outcome.returned.injEq] at h
      obtain ⟨hres, hw⟩ := h
      subst hres hw
      exact Or.inl ⟨rfl, rfl⟩
    | true =>
      simp only [hvalid, Bool.not_true, Bool.false_eq_true, if_false] at h
      cases hchoose : s.chooseCode fuel w req with
      | panic => simp [hchoose] at h
      | timeout => simp [hchoose] at h
      | returned v x =>
        obtain ⟨hurls, hid⟩ := chooseCode_urls s fuel w req v x hchoose
        cases v with
        | error e =>
          simp only [hchoose, Outcome.returned.injEq] at h
          obtain ⟨hres, hw⟩ := h
          subst hres hw
          exact Or.inl ⟨rfl, hurls⟩
        | ok c =>
          simp only [hchoose, Outcome.returned.injEq] at h
          obtain ⟨hres, hw⟩ := h
          subst hres hw
          rcases persist_urls s x req c with ⟨h1, h2⟩ | ⟨resp, h1, h2, h3, h4⟩
          · exact Or.inl ⟨h1, h2.trans hurls⟩
          · refine Or.inr ⟨resp, (URLService.newEntity x req c).2.1, x.nextID, h1, rfl, h2.symm,
              ?_, rfl, ?_⟩
            · rw [h4]
              simp
            · rw [h3, hurls]
  · have hrun : ClickTask.run ⟨shortCode, analytics⟩ w
        = (PostgresURLRepository.IncrementClickCount
            (PostgresAnalyticsRepository.RecordClick w
              { analytics with ShortCode := shortCode }).2 shortCode).2 := rfl
    rw [hrun]
    rcases incrementClickCount_urls (PostgresAnalyticsRepository.RecordClick w
      { analytics with ShortCode := shortCode }).2 shortCode with ⟨_, h⟩ | ⟨_, h⟩
    · exact Or.inl (h.trans (recordClick_spec _ _).2.1)
    · exact Or.inr (h.trans (by rw [(recordClick_spec _ _).2.1]))
  · unfold URLService.GetStats PostgresAnalyticsRepository.GetStats
    split
    · rfl
    · split <;> rfl

/-- The witness of C18: the creation of `TestCreateShortURL_CustomCode` in the empty
world adds one row, with click counter 0. -/
theorem urls_short_code_and_click_counter_witness :
    ∃ (res : Option CreateURLResponse × Option Err) (w' : World),
      exampleService.CreateShortURL 0 emptyWorld customRequest = .returned res w' ∧
      ((res.1 = none ∧ w'.urls = emptyWorld.urls) ∨
        (∃ resp urlEntity id, res = (some resp, none) ∧ urlEntity.ClickCount = 0 ∧
          urlEntity.ShortCode = resp.ShortCode ∧ Call.urlCreate urlEntity ∈ w'.trace ∧
          ({ urlEntity with ID := id } : URL).ClickCount = 0 ∧
          w'.urls = emptyWorld.urls ++ [{ urlEntity with ID := id }])) ∧
      w'.urls.map (fun r => r.ClickCount) = [0] :=
  ⟨_, _, rfl,
    (urls_short_code_and_click_counter exampleService 0 emptyWorld customRequest "custom123"
      exampleAnalytics liveRecord).1 _ _ rfl, by decide⟩

end UrlShortener
